import Mathlib

/-!
# Schema-migration engine of `modules/api/cmd/migrate/main.go`

A shallow embedding of the migration command: discovery of migration units
(`getMigrations`), the ledger reader (`getAppliedMigrations`), the three actions
`migrateUp`, `migrateDown` and `showStatus`, and the dispatch in `main`.  Three
further packages follow in namespaces of their own: the error predicates of
`internal/errors` (`Errors`), the handlers of `internal/handlers/users` over the
repository of `internal/repository/users` (`Users`), and the level parser of
`internal/logger` (`Logger`).

Modelling decisions.

* Go strings are Lean `String`s.  Go compares strings byte-wise; on valid UTF-8
  this is the lexicographic order of the code points, which `strLess` computes.
* The database is a pair: the list of committed script texts (the "schema"; a
  script is opaque SQL whose effect is recorded by its text) and the rows of
  `schema_migrations` (the "ledger").  Scripts are assumed to act on the schema
  only, never on the ledger table.
* `os.ReadDir` returns the entries of a directory sorted by filename.  `Env.readDir`
  may hand over any listing, so a statement about all environments holds for the
  listings `os.ReadDir` returns in particular; where the order of the listing
  matters, `SortedByName` says that it is in filename order.
* Everything outside the program (directory listing, file contents, the iteration
  order of a Go map, and whether a database call fails) is supplied by `Env`.
  A database call fails exactly when its oracle returns `some cause`.
* A transaction works on a private copy of the database; `Commit` publishes the
  copy, a failed `Commit` publishes nothing, `Rollback` discards it.
* Every call issued to the database is appended to `World.ops`, every line
  written to standard output to `World.out`.
-/

namespace Migrate

/-! ## Strings -/

/-- Lexicographic comparison of code-point lists (Go's `<` on strings). -/
def charsLess : List Char → List Char → Bool
  | _, [] => false
  | [], _ :: _ => true
  | a :: as, b :: bs =>
    if a.toNat < b.toNat then true
    else if b.toNat < a.toNat then false
    else charsLess as bs

/-- Go's `s < t` on strings. -/
def strLess (s t : String) : Bool := charsLess s.data t.data

/-- Splitting a character list at every occurrence of a one-character separator. -/
def splitChars (sep : Char) : List Char → List (List Char)
  | [] => [[]]
  | c :: cs =>
    if c = sep then [] :: splitChars sep cs
    else
      match splitChars sep cs with
      | [] => [[c]]
      | p :: ps => (c :: p) :: ps

/-- Joining character lists with a separator in between. -/
def joinChars (sep : List Char) : List (List Char) → List Char
  | [] => []
  | [p] => p
  | p :: q :: ps => p ++ sep ++ joinChars sep (q :: ps)

/-- Whether `sub` occurs in the character list as a contiguous block. -/
def containsChars (sub : List Char) : List Char → Bool
  | [] => sub.isEmpty
  | c :: cs => sub.isPrefixOf (c :: cs) || containsChars sub cs

/-- Go's `strings.HasSuffix`. -/
def strings.HasSuffix (s suffix : String) : Bool :=
  suffix.data.isSuffixOf s.data

/-- Go's `strings.TrimSuffix`: drop `suffix` from the end of `s` when it is there. -/
def strings.TrimSuffix (s suffix : String) : String :=
  if strings.HasSuffix s suffix then
    String.mk (s.data.take (s.data.length - suffix.data.length))
  else s

/-- Go's `strings.Contains`. -/
def strings.Contains (s substr : String) : Bool :=
  containsChars substr.data s.data

/-- Go's `strings.Split`, for a separator of one character (the code splits on
the underscore only). -/
def strings.Split (s : String) (sep : Char) : List String :=
  (splitChars sep s.data).map String.mk

/-- Go's `strings.Join`. -/
def strings.Join (parts : List String) (sep : String) : String :=
  String.mk (joinChars sep.data (parts.map String.data))

/-- Go's `filepath.Join` of a directory and an entry name.  The directory is a
clean path (the program passes the constant `migrations`) and an entry name has
no separator, so cleaning the joined path changes nothing. -/
def filepath.Join (dir name : String) : String :=
  dir ++ "/" ++ name

/-! ## Data model -/

/-- The `Migration` struct. -/
structure Migration where
  Version : String
  Name : String
  UpPath : String
  DownPath : String
  deriving DecidableEq, Repr

/-- What `os.ReadDir` reports of one directory entry. -/
structure DirEntry where
  Name : String
  IsDir : Bool
  deriving DecidableEq, Repr

/-- Database contents: the committed script texts, oldest first, and the
version column of `schema_migrations`. -/
structure DB where
  schema : List String
  ledger : List String
  deriving DecidableEq, Repr

/-- Calls issued to the database. -/
inductive DbOp where
  | query
  | begin
  | exec (sql : String)
  | insert (version : String)
  | delete (version : String)
  | commit
  | rollback
  deriving DecidableEq, Repr

/-- The errors the migration command returns, one constructor per
`return` statement that builds one. -/
inductive MigrateError where
  | readDir (cause : String)
  | query (cause : String)
  | missingUp (version : String)
  | missingDown (version : String)
  | readFile (path cause : String)
  | beginTx (cause : String)
  | exec (version cause : String)
  | record (version cause : String)
  | commitUp (version cause : String)
  | unrecord (version cause : String)
  | commitDown (version cause : String)
  deriving DecidableEq, Repr

/-- The text of an error, as produced by the `fmt.Errorf` call that built it. -/
def MigrateError.Error : MigrateError → String
  | .readDir cause => "failed to read migrations directory: " ++ cause
  | .query cause => cause
  | .missingUp version => "missing up migration file for version " ++ version
  | .missingDown version => "missing down migration file for version " ++ version
  | .readFile path cause => "failed to read migration file " ++ path ++ ": " ++ cause
  | .beginTx cause => "failed to begin transaction: " ++ cause
  | .exec version cause => "failed to execute migration " ++ version ++ ": " ++ cause
  | .record version cause => "failed to record migration " ++ version ++ ": " ++ cause
  | .commitUp version cause => "failed to commit migration " ++ version ++ ": " ++ cause
  | .unrecord version cause =>
    "failed to remove migration record " ++ version ++ ": " ++ cause
  | .commitDown version cause => "failed to commit rollback " ++ version ++ ": " ++ cause

/-- Everything the program reads from outside: the file system, the iteration
order of a Go map (any permutation), and the failure behaviour of the database. -/
structure Env where
  readDir : String → Except String (List DirEntry)
  readFile : String → Except String String
  mapOrder : List Migration → List Migration
  mapOrder_perm : ∀ l, (mapOrder l).Perm l
  queryErr : DB → Option String
  beginErr : DB → Option String
  execErr : DB → String → Option String
  insertErr : DB → String → Option String
  deleteErr : DB → String → Option String
  commitErr : DB → Option String

/-- The state a run acts on: the database, the calls issued to it so far and
the text written to standard output so far. -/
structure World where
  db : DB
  ops : List DbOp
  out : List String
  deriving DecidableEq, Repr

/-- An open transaction: its private working copy of the database. -/
structure Tx where
  work : DB
  deriving DecidableEq, Repr

/-- One `fmt.Printf` or `fmt.Println` call. -/
def World.print (w : World) (text : String) : World :=
  { w with out := w.out ++ [text] }

/-- Record a call issued to the database. -/
def World.issue (w : World) (op : DbOp) : World :=
  { w with ops := w.ops ++ [op] }

/-! ## Database primitives -/

/-- The call `db.Begin()`. -/
def dbBegin (env : Env) (w : World) : Except String Tx × World :=
  match env.beginErr w.db with
  | some cause => (.error cause, w.issue .begin)
  | none => (.ok ⟨w.db⟩, w.issue .begin)

/-- The call `tx.Exec(content)` with a migration script. -/
def txExec (env : Env) (tx : Tx) (sql : String) (w : World) : Except String Tx × World :=
  match env.execErr tx.work sql with
  | some cause => (.error cause, w.issue (.exec sql))
  | none => (.ok ⟨{ tx.work with schema := tx.work.schema ++ [sql] }⟩, w.issue (.exec sql))

/-- The statement `INSERT INTO schema_migrations (version) VALUES ($1)`.  The
version column is the primary key, so a version already present is refused. -/
def txInsert (env : Env) (tx : Tx) (version : String) (w : World) :
    Except String Tx × World :=
  if tx.work.ledger.contains version then
    (.error "duplicate key value violates unique constraint", w.issue (.insert version))
  else
    match env.insertErr tx.work version with
    | some cause => (.error cause, w.issue (.insert version))
    | none =>
      (.ok ⟨{ tx.work with ledger := tx.work.ledger ++ [version] }⟩, w.issue (.insert version))

/-- The statement `DELETE FROM schema_migrations WHERE version = $1`. -/
def txDelete (env : Env) (tx : Tx) (version : String) (w : World) :
    Except String Tx × World :=
  match env.deleteErr tx.work version with
  | some cause => (.error cause, w.issue (.delete version))
  | none =>
    (.ok ⟨{ tx.work with ledger := tx.work.ledger.filter (fun v => v != version) }⟩,
      w.issue (.delete version))

/-- The call `tx.Commit()`: on success the working copy becomes the database. -/
def txCommit (env : Env) (tx : Tx) (w : World) : Option String × World :=
  match env.commitErr tx.work with
  | some cause => (some cause, w.issue .commit)
  | none => (none, { w.issue .commit with db := tx.work })

/-- The call `tx.Rollback()`: the working copy is discarded. -/
def txRollback (_tx : Tx) (w : World) : World :=
  w.issue .rollback

/-! ## Discovery -/

/-- The map type `map[string]*Migration`, as an association list in insertion order. -/
abbrev MigrationsMap := List (String × Migration)

/-- The test `_, exists := migrationsMap[version]`. -/
def MigrationsMap.has (m : MigrationsMap) (version : String) : Bool :=
  m.any (fun kv => kv.1 == version)

/-- The assignment `migrationsMap[version] = &Migration ...` for a new key. -/
def MigrationsMap.set (m : MigrationsMap) (version : String) (v : Migration) : MigrationsMap :=
  if m.has version then m.map (fun kv => if kv.1 == version then (kv.1, v) else kv)
  else m ++ [(version, v)]

/-- An update through the pointer `migrationsMap[version]`. -/
def MigrationsMap.update (m : MigrationsMap) (version : String) (f : Migration → Migration) :
    MigrationsMap :=
  m.map (fun kv => if kv.1 == version then (kv.1, f kv.2) else kv)

/-- The body of the loop over the directory entries in `getMigrations`. -/
def scanFile (migrationsDir : String) (migrationsMap : MigrationsMap) (file : DirEntry) :
    MigrationsMap :=
  if file.IsDir then migrationsMap
  else
    let name := file.Name
    if !strings.HasSuffix name ".sql" then migrationsMap
    else
      let parts := strings.Split name '_'
      if parts.length < 2 then migrationsMap
      else
        let version := parts.headD ""
        let migrationName := strings.TrimSuffix (strings.Join (parts.drop 1) "_") ".up.sql"
        let migrationName := strings.TrimSuffix migrationName ".down.sql"
        let migrationsMap :=
          if !migrationsMap.has version then
            migrationsMap.set version
              { Version := version, Name := migrationName, UpPath := "", DownPath := "" }
          else migrationsMap
        let fullPath := filepath.Join migrationsDir name
        if strings.Contains name ".up.sql" then
          migrationsMap.update version (fun m => { m with UpPath := fullPath })
        else if strings.Contains name ".down.sql" then
          migrationsMap.update version (fun m => { m with DownPath := fullPath })
        else migrationsMap

/-- The comparison handed to `sort.Slice`, as a relation: `b` is not before `a`. -/
def versionLE (a b : Migration) : Prop := strLess b.Version a.Version = false

instance versionLE.decidable : DecidableRel versionLE :=
  fun a b => inferInstanceAs (Decidable (strLess b.Version a.Version = false))

/-- The call `sort.Slice(migrations, less)` with `less` comparing versions.
Any correct sort returns the same slice when the versions are distinct. -/
def sortSlice (migrations : List Migration) : List Migration :=
  migrations.insertionSort versionLE

/-- The function `getMigrations`. -/
def getMigrations (env : Env) (migrationsDir : String) : Except MigrateError (List Migration) :=
  match env.readDir migrationsDir with
  | .error cause => .error (.readDir cause)
  | .ok files =>
    let migrationsMap : MigrationsMap := files.foldl (scanFile migrationsDir) []
    let migrations := env.mapOrder (migrationsMap.map Prod.snd)
    .ok (sortSlice migrations)

/-! ## Ledger -/

/-- The function `getAppliedMigrations`: the set of versions in the ledger. -/
def getAppliedMigrations (env : Env) (w : World) : Except MigrateError (List String) × World :=
  match env.queryErr w.db with
  | some cause => (.error (.query cause), w.issue .query)
  | none => (.ok w.db.ledger, w.issue .query)

/-! ## Apply -/

/-- The loop of `migrateUp` over the discovered migrations. -/
def migrateUpLoop (env : Env) (applied : List String) :
    List Migration → World → Option MigrateError × World
  | [], w => (none, w)
  | migration :: rest, w =>
    if applied.contains migration.Version then
      migrateUpLoop env applied rest
        (w.print ("Migration " ++ migration.Version ++ " (" ++ migration.Name
          ++ ") already applied, skipping\n"))
    else if migration.UpPath = "" then
      (some (.missingUp migration.Version), w)
    else
      let w := w.print ("Applying migration " ++ migration.Version ++ " ("
        ++ migration.Name ++ ")...\n")
      match env.readFile migration.UpPath with
      | .error cause => (some (.readFile migration.UpPath cause), w)
      | .ok content =>
        match dbBegin env w with
        | (.error cause, w) => (some (.beginTx cause), w)
        | (.ok tx, w) =>
          match txExec env tx content w with
          | (.error cause, w) => (some (.exec migration.Version cause), txRollback tx w)
          | (.ok tx, w) =>
            match txInsert env tx migration.Version w with
            | (.error cause, w) => (some (.record migration.Version cause), txRollback tx w)
            | (.ok tx, w) =>
              match txCommit env tx w with
              | (some cause, w) => (some (.commitUp migration.Version cause), w)
              | (none, w) =>
                migrateUpLoop env applied rest
                  (w.print ("Migration " ++ migration.Version ++ " applied successfully\n"))

/-- The function `migrateUp`. -/
def migrateUp (env : Env) (w : World) (migrationsDir : String) : Option MigrateError × World :=
  match getMigrations env migrationsDir with
  | .error err => (some err, w)
  | .ok migrations =>
    match getAppliedMigrations env w with
    | (.error err, w) => (some err, w)
    | (.ok applied, w) => migrateUpLoop env applied migrations w

/-! ## Revert -/

/-- The backwards scan of `migrateDown` for the last applied migration:
`for i := len(migrations) - 1; i >= 0; i--`. -/
def findLastApplied (applied : List String) (migrations : List Migration) : Option Migration :=
  migrations.reverse.find? (fun m => applied.contains m.Version)

/-- The function `migrateDown`. -/
def migrateDown (env : Env) (w : World) (migrationsDir : String) : Option MigrateError × World :=
  match getMigrations env migrationsDir with
  | .error err => (some err, w)
  | .ok migrations =>
    match getAppliedMigrations env w with
    | (.error err, w) => (some err, w)
    | (.ok applied, w) =>
      match findLastApplied applied migrations with
      | none => (none, w.print "No migrations to roll back\n")
      | some lastMigration =>
        if lastMigration.DownPath = "" then
          (some (.missingDown lastMigration.Version), w)
        else
          let w := w.print ("Rolling back migration " ++ lastMigration.Version ++ " ("
            ++ lastMigration.Name ++ ")...\n")
          match env.readFile lastMigration.DownPath with
          | .error cause => (some (.readFile lastMigration.DownPath cause), w)
          | .ok content =>
            match dbBegin env w with
            | (.error cause, w) => (some (.beginTx cause), w)
            | (.ok tx, w) =>
              match txExec env tx content w with
              | (.error cause, w) =>
                (some (.exec lastMigration.Version cause), txRollback tx w)
              | (.ok tx, w) =>
                match txDelete env tx lastMigration.Version w with
                | (.error cause, w) =>
                  (some (.unrecord lastMigration.Version cause), txRollback tx w)
                | (.ok tx, w) =>
                  match txCommit env tx w with
                  | (some cause, w) => (some (.commitDown lastMigration.Version cause), w)
                  | (none, w) =>
                    (none, w.print ("Migration " ++ lastMigration.Version
                      ++ " rolled back successfully\n"))

/-! ## Status -/

/-- The line `showStatus` prints for one migration. -/
def statusLine (applied : List String) (migration : Migration) : String :=
  (if applied.contains migration.Version then "[✓]" else "[ ]") ++ " "
    ++ migration.Version ++ " - " ++ migration.Name ++ "\n"

/-- The function `showStatus`. -/
def showStatus (env : Env) (w : World) (migrationsDir : String) : Option MigrateError × World :=
  match getMigrations env migrationsDir with
  | .error err => (some err, w)
  | .ok migrations =>
    match getAppliedMigrations env w with
    | (.error err, w) => (some err, w)
    | (.ok applied, w) =>
      let w := w.print "\nMigration Status:\n"
      let w := w.print "=================\n"
      let w := migrations.foldl (fun w migration => w.print (statusLine applied migration)) w
      (none, w.print "\n")

/-! ## Specification vocabulary -/

/-- A sequence of migrations in strictly ascending version order. -/
def Ascending (ms : List Migration) : Prop :=
  ms.Pairwise (fun a b => strLess a.Version b.Version = true)

/-- Well-formedness of the discovery map: keys are distinct and every value
carries its key as version. -/
def MigrationsMap.WF (m : MigrationsMap) : Prop :=
  (m.map Prod.fst).Nodup ∧ ∀ kv ∈ m, kv.2.Version = kv.1

/-- The discovered migrations whose version is not in the applied set, in
discovery order. -/
def pending (applied : List String) (ms : List Migration) : List Migration :=
  ms.filter (fun m => !applied.contains m.Version)

/-- The content of a file (the empty text when it cannot be read). -/
def fileText (env : Env) (path : String) : String :=
  match env.readFile path with
  | .ok content => content
  | .error _ => ""

/-- The database calls of one complete apply transaction of a unit. -/
def upTx (env : Env) (m : Migration) : List DbOp :=
  [.begin, .exec (fileText env m.UpPath), .insert m.Version, .commit]

/-- The database calls of one complete revert transaction of a unit. -/
def downTx (env : Env) (m : Migration) : List DbOp :=
  [.begin, .exec (fileText env m.DownPath), .delete m.Version, .commit]

/-- One complete apply step: the up script's effect and the ledger row together. -/
def applyUnit (env : Env) (db : DB) (m : Migration) : DB :=
  { schema := db.schema ++ [fileText env m.UpPath], ledger := db.ledger ++ [m.Version] }

/-- One complete revert step: the down script's effect and the removal of the
ledger row together. -/
def revertUnit (env : Env) (db : DB) (m : Migration) : DB :=
  { schema := db.schema ++ [fileText env m.DownPath],
    ledger := db.ledger.filter (fun v => v != m.Version) }

/-- How a run of `migrateUp` stops: `UpStop env err rest tail` relates the error
returned, the pending units not applied (the first of them is the one the run
stopped at) and the database calls issued for that unit. -/
inductive UpStop (env : Env) : Option MigrateError → List Migration → List DbOp → Prop
  | finished : UpStop env none [] []
  | missing (U : Migration) (post : List Migration) :
      U.UpPath = "" → UpStop env (some (.missingUp U.Version)) (U :: post) []
  | unreadable (U : Migration) (post : List Migration) (cause : String) :
      U.UpPath ≠ "" → env.readFile U.UpPath = .error cause →
      UpStop env (some (.readFile U.UpPath cause)) (U :: post) []
  | noBegin (U : Migration) (post : List Migration) (cause : String) :
      UpStop env (some (.beginTx cause)) (U :: post) [.begin]
  | execFailed (U : Migration) (post : List Migration) (cause : String) :
      UpStop env (some (.exec U.Version cause)) (U :: post)
        [.begin, .exec (fileText env U.UpPath), .rollback]
  | recordFailed (U : Migration) (post : List Migration) (cause : String) :
      UpStop env (some (.record U.Version cause)) (U :: post)
        [.begin, .exec (fileText env U.UpPath), .insert U.Version, .rollback]
  | commitFailed (U : Migration) (post : List Migration) (cause : String) :
      UpStop env (some (.commitUp U.Version cause)) (U :: post)
        [.begin, .exec (fileText env U.UpPath), .insert U.Version, .commit]

/-- The units `getMigrations` returns for a directory (none when it fails). -/
def discovered (env : Env) (dir : String) : List Migration :=
  match getMigrations env dir with
  | .ok ms => ms
  | .error _ => []

/-! ## Sample runs -/

/-- A database in which no call fails, over the given listing of the directory
`migrations`; a file's content is derived from its path, and the map is iterated
in reverse insertion order. -/
def reliableEnv (files : List DirEntry) : Env where
  readDir := fun dir =>
    if dir = "migrations" then .ok files else .error "no such file or directory"
  readFile := fun path => .ok ("-- " ++ path)
  mapOrder := List.reverse
  mapOrder_perm := List.reverse_perm
  queryErr := fun _ => none
  beginErr := fun _ => none
  execErr := fun _ _ => none
  insertErr := fun _ _ => none
  deleteErr := fun _ _ => none
  commitErr := fun _ => none

/-- As `reliableEnv`, but the database rejects the script of the given path. -/
def rejectingEnv (files : List DirEntry) (badPath : String) : Env :=
  { reliableEnv files with
    execErr := fun _ sql => if sql = "-- " ++ badPath then some "syntax error" else none }

/-- The directory of the specification's scenario: unit 000001 has both
scripts, unit 000002 has no down script. -/
def scenarioFiles : List DirEntry :=
  [⟨"000002_add_col.up.sql", false⟩, ⟨"000001_init.up.sql", false⟩,
    ⟨"000001_init.down.sql", false⟩, ⟨"README.md", false⟩]

/-- A directory in which unit 000002 has no up script. -/
def noUpFiles : List DirEntry :=
  [⟨"000001_init.up.sql", false⟩, ⟨"000001_init.down.sql", false⟩,
    ⟨"000002_add_col.down.sql", false⟩]

/-- A directory in which both units have both scripts. -/
def pairedFiles : List DirEntry :=
  [⟨"000001_init.up.sql", false⟩, ⟨"000001_init.down.sql", false⟩,
    ⟨"000002_add_col.up.sql", false⟩, ⟨"000002_add_col.down.sql", false⟩]

/-- Unit 000001 of the sample directories. -/
def unit1 : Migration :=
  { Version := "000001", Name := "init", UpPath := "migrations/000001_init.up.sql",
    DownPath := "migrations/000001_init.down.sql" }

/-- Unit 000002 of the scenario: no down script. -/
def unit2 : Migration :=
  { Version := "000002", Name := "add_col", UpPath := "migrations/000002_add_col.up.sql",
    DownPath := "" }

/-- Unit 000002 of `noUpFiles`: no up script. -/
def unit2NoUp : Migration :=
  { Version := "000002", Name := "add_col", UpPath := "",
    DownPath := "migrations/000002_add_col.down.sql" }

/-- Unit 000002 of `pairedFiles`: both scripts. -/
def unit2Paired : Migration :=
  { Version := "000002", Name := "add_col", UpPath := "migrations/000002_add_col.up.sql",
    DownPath := "migrations/000002_add_col.down.sql" }

/-- A fresh database and an empty log. -/
def freshWorld : World :=
  { db := { schema := [], ledger := [] }, ops := [], out := [] }

/-- A world whose ledger holds the given versions. -/
def worldWithLedger (ledger : List String) : World :=
  { db := { schema := [], ledger := ledger }, ops := [], out := [] }

/-! ## Discovery, entry by entry -/

/-- The entries the loop of `getMigrations` does not skip: not a directory, a
name ending in `.sql`, and at least two parts around underscores. -/
def DirEntry.isScript (f : DirEntry) : Bool :=
  !f.IsDir && strings.HasSuffix f.Name ".sql" && decide (2 ≤ (strings.Split f.Name '_').length)

/-- The version token the loop reads from an entry: `parts[0]`. -/
def DirEntry.version (f : DirEntry) : String :=
  (strings.Split f.Name '_').headD ""

/-- The name the loop reads from an entry: the parts after the first joined
again, trimmed of `.up.sql` and then of `.down.sql`. -/
def DirEntry.migrationName (f : DirEntry) : String :=
  strings.TrimSuffix
    (strings.TrimSuffix (strings.Join ((strings.Split f.Name '_').drop 1) "_") ".up.sql")
    ".down.sql"

/-- The entry takes the first branch of the direction test: it sets `UpPath`. -/
def DirEntry.fillsUp (f : DirEntry) : Bool :=
  strings.Contains f.Name ".up.sql"

/-- The entry takes the second branch of the direction test: it sets `DownPath`. -/
def DirEntry.fillsDown (f : DirEntry) : Bool :=
  !strings.Contains f.Name ".up.sql" && strings.Contains f.Name ".down.sql"

/-- The unit the loop stores for an entry whose version is not in the map yet. -/
def DirEntry.newUnit (f : DirEntry) : Migration :=
  { Version := f.version, Name := f.migrationName, UpPath := "", DownPath := "" }

/-- The direction test of the loop, applied to the unit of the entry's version. -/
def fillSlot (dir : String) (f : DirEntry) (m : Migration) : Migration :=
  if f.fillsUp then { m with UpPath := filepath.Join dir f.Name }
  else if f.fillsDown then { m with DownPath := filepath.Join dir f.Name }
  else m

/-- What one directory entry does to the unit of version `v` (absent: `none`). -/
def stepUnit (dir v : String) (s : Option Migration) (f : DirEntry) : Option Migration :=
  if f.isScript && f.version == v then
    some (fillSlot dir f (s.getD f.newUnit))
  else s

/-- The path of the last entry of the listing that satisfies `p` (empty when
there is none). -/
def lastPath (dir : String) (files : List DirEntry) (p : DirEntry → Bool) : String :=
  match files.reverse.find? p with
  | some g => filepath.Join dir g.Name
  | none => ""

/-- The unit of version `v` that a listing produces, in closed form: the name
comes from the first script entry of that version, each path from the last entry
of that version that fills it. -/
def unitFor (dir : String) (files : List DirEntry) (v : String) : Option Migration :=
  match files.find? (fun f => f.isScript && f.version == v) with
  | none => none
  | some first =>
    some { Version := v, Name := first.migrationName,
           UpPath := lastPath dir files (fun f => f.isScript && f.version == v && f.fillsUp),
           DownPath := lastPath dir files (fun f => f.isScript && f.version == v && f.fillsDown) }

/-- No two script entries of one version parse to different names or fill the
same path slot from different files. -/
def NoClash (files : List DirEntry) : Prop :=
  ∀ f ∈ files, ∀ g ∈ files, f.isScript = true → g.isScript = true → f.version = g.version →
    f.migrationName = g.migrationName ∧
    (f.fillsUp = true → g.fillsUp = true → f.Name = g.Name) ∧
    (f.fillsDown = true → g.fillsDown = true → f.Name = g.Name)

/-- The name of the up file of version `V` and name `n`. -/
def upFileName (V n : String) : String := V ++ "_" ++ n ++ ".up.sql"

/-- The name of the down file of version `V` and name `n`. -/
def downFileName (V n : String) : String := V ++ "_" ++ n ++ ".down.sql"

/-- A listing, in file-name order, with two up files of version 000001. -/
def twoUpFiles : List DirEntry :=
  [⟨"000001_init.down.sql", false⟩, ⟨"000001_init.up.sql", false⟩,
    ⟨"000001_seed.up.sql", false⟩]

/-- A listing whose only file is an up file with a name ending in `.down.sql`. -/
def nestedSuffixFiles : List DirEntry :=
  [⟨"000001_undo.down.sql.up.sql", false⟩]

/-- A listing whose only file ends in `.down.sql` and has `.up.sql` inside. -/
def markerInsideFiles : List DirEntry :=
  [⟨"000001_init.up.sql.down.sql", false⟩]

/-- The entry of a `.sql` file with an underscore and no direction marker. -/
def markerlessEntry : DirEntry := ⟨"000003_notes.sql", false⟩

/-- A listing, in file-name order, in which version 000002 has one file, ending
in `.down.sql`. -/
def downOnlyFiles : List DirEntry :=
  [⟨"000001_init.down.sql", false⟩, ⟨"000001_init.up.sql", false⟩,
    ⟨"000002_revert.up.sql.down.sql", false⟩]

/-- A listing, in file-name order, of two complete units. -/
def orderedPairedFiles : List DirEntry :=
  [⟨"000001_init.down.sql", false⟩, ⟨"000001_init.up.sql", false⟩,
    ⟨"000002_add_col.down.sql", false⟩, ⟨"000002_add_col.up.sql", false⟩]

/-! ## Command dispatch -/

/-- What `main` meets before it dispatches: the value of the `-action` flag
after `flag.Parse` (`up` when the flag is not given) and whether loading the
environment file, opening the database, pinging it and creating the ledger table
fail. -/
structure Startup where
  action : String
  dotenvErr : Option String
  openErr : Option String
  pingErr : Option String
  createTableErr : DB → Option String

/-- How the process ends: `main` returns, or `log.Fatal` writes a message and
exits with status 1. -/
inductive ExitStatus where
  | returned
  | fatal (message : String)
  deriving DecidableEq, Repr

/-- The statement `createMigrationsTable` executes. -/
def createTableQuery : String :=
  "\n\t\tCREATE TABLE IF NOT EXISTS schema_migrations (\n\t\t\tversion VARCHAR(255) PRIMARY KEY,\n\t\t\tapplied_at TIMESTAMPTZ NOT NULL DEFAULT NOW()\n\t\t)\n\t"

/-- The function `createMigrationsTable`: one `db.Exec`; an existing ledger is
left as it is. -/
def createMigrationsTable (s : Startup) (w : World) : Option String × World :=
  (s.createTableErr w.db, w.issue (.exec createTableQuery))

/-- The `switch` of `main` on the action. -/
def dispatch (env : Env) (w : World) (action : String) : ExitStatus × World :=
  let migrationsDir := "migrations"
  if action = "up" then
    match migrateUp env w migrationsDir with
    | (some err, w) => (.fatal ("Migration up failed: " ++ err.Error), w)
    | (none, w) => (.returned, w.print "Migrations applied successfully!\n")
  else if action = "down" then
    match migrateDown env w migrationsDir with
    | (some err, w) => (.fatal ("Migration down failed: " ++ err.Error), w)
    | (none, w) => (.returned, w.print "Migration rolled back successfully!\n")
  else if action = "status" then
    match showStatus env w migrationsDir with
    | (some err, w) => (.fatal ("Failed to show status: " ++ err.Error), w)
    | (none, w) => (.returned, w)
  else
    (.fatal ("Unknown action: " ++ action ++ ". Use 'up', 'down', or 'status'"), w)

/-- The function `main`. -/
def main (s : Startup) (env : Env) (w : World) : ExitStatus × World :=
  match s.dotenvErr with
  | some _ => (.fatal "Error loading .env file", w)
  | none =>
    match s.openErr with
    | some cause => (.fatal ("Failed to connect to database: " ++ cause), w)
    | none =>
      match s.pingErr with
      | some cause => (.fatal ("Failed to ping database: " ++ cause), w)
      | none =>
        match createMigrationsTable s w with
        | (some cause, w) => (.fatal ("Failed to create migrations table: " ++ cause), w)
        | (none, w) => dispatch env w s.action

/-- A start in which nothing fails, with the given action. -/
def cleanStartup (action : String) : Startup :=
  { action := action, dotenvErr := none, openErr := none, pingErr := none,
    createTableErr := fun _ => none }

/-! ## The order of a listing -/

/-- The order `os.ReadDir` returns the entries in, as a relation: `b` is not
before `a` by filename. -/
def nameLE (a b : DirEntry) : Prop := strLess b.Name a.Name = false

instance nameLE.decidable : DecidableRel nameLE :=
  fun a b => inferInstanceAs (Decidable (strLess b.Name a.Name = false))

/-- What `os.ReadDir` makes of the entries a directory holds: it returns them
sorted by filename. -/
def sortByName (entries : List DirEntry) : List DirEntry :=
  entries.insertionSort nameLE

/-- A listing as `os.ReadDir` returns it: in ascending filename order (the names
in one directory are distinct). -/
def SortedByName (files : List DirEntry) : Prop :=
  files.Pairwise (fun a b => strLess a.Name b.Name = true)

/-- As `reliableEnv`, but the map is iterated in insertion order. -/
def forwardEnv (files : List DirEntry) : Env :=
  { reliableEnv files with mapOrder := id, mapOrder_perm := fun l => List.Perm.refl l }

/-! ## Versions read as numbers -/

/-- A decimal digit. -/
def isDigitChar (c : Char) : Bool :=
  decide ('0'.toNat ≤ c.toNat ∧ c.toNat ≤ '9'.toNat)

/-- The string is a decimal digit string: digits only, at least one. -/
def isDecimal (s : String) : Bool :=
  !s.data.isEmpty && s.data.all isDigitChar

/-- The number a list of decimal digits denotes after the digits of `acc`. -/
def digitsValue (acc : Nat) (cs : List Char) : Nat :=
  cs.foldl (fun n c => 10 * n + (c.toNat - '0'.toNat)) acc

/-- The number a decimal digit string denotes. -/
def decimalValue (s : String) : Nat :=
  digitsValue 0 s.data

/-- A directory whose versions are not padded to one width. -/
def unpaddedFiles : List DirEntry :=
  [⟨"9_first.up.sql", false⟩, ⟨"9_first.down.sql", false⟩,
    ⟨"10_second.up.sql", false⟩, ⟨"10_second.down.sql", false⟩]

/-- Unit 9 of `unpaddedFiles`. -/
def unit9 : Migration :=
  { Version := "9", Name := "first", UpPath := "migrations/9_first.up.sql",
    DownPath := "migrations/9_first.down.sql" }

/-- Unit 10 of `unpaddedFiles`. -/
def unit10 : Migration :=
  { Version := "10", Name := "second", UpPath := "migrations/10_second.up.sql",
    DownPath := "migrations/10_second.down.sql" }

/-! ## Ledger rows and the files of one version -/

/-- The call writes the ledger row of version `v`: it inserts or deletes it. -/
def DbOp.touches (v : String) : DbOp → Bool
  | .insert version => version == v
  | .delete version => version == v
  | _ => false

/-- The scenario directory after two earlier units were deleted from it: the
ledger still holds their versions. -/
def orphanedLedger : World :=
  worldWithLedger ["000008", "000009"]

/-- The entry is a file of version `v` that the loop of `getMigrations` reads. -/
def DirEntry.ofVersion (v : String) (f : DirEntry) : Bool :=
  f.isScript && f.version == v

/-- The unit `getMigrations` returns for `twoUpFiles`. -/
def unitTwoUp : Migration :=
  { Version := "000001", Name := "init", UpPath := "migrations/000001_seed.up.sql",
    DownPath := "migrations/000001_init.down.sql" }

end Migrate

namespace Errors

/-! ## The errors package (`internal/errors/errors.go`)

A value of the Go interface type `error` is nil, a pointer to one of the eight
error structs of the package, or a value of some other type.  The constructors
of the package never return a nil pointer, so a pointer is modelled by the struct
it points to. -/

/-- The struct `ConflictError`. -/
structure ConflictError where
  Message : String
  deriving DecidableEq, Repr

/-- The struct `NotFoundError`. -/
structure NotFoundError where
  Message : String
  deriving DecidableEq, Repr

/-- The struct `ValidationError`. -/
structure ValidationError where
  Message : String
  Field : String
  deriving DecidableEq, Repr

/-- The struct `UnauthorizedError`. -/
structure UnauthorizedError where
  Message : String
  deriving DecidableEq, Repr

/-- The struct `ForbiddenError`. -/
structure ForbiddenError where
  Message : String
  deriving DecidableEq, Repr

/-- The struct `InternalError`. -/
structure InternalError where
  Message : String
  deriving DecidableEq, Repr

/-- The struct `BadRequestError`. -/
structure BadRequestError where
  Message : String
  deriving DecidableEq, Repr

/-- The struct `TimeoutError`; the duration is in milliseconds. -/
structure TimeoutError where
  Message : String
  Operation : String
  Duration : Int
  deriving DecidableEq, Repr

/-- A value of the interface type `error`. -/
inductive GoError where
  | nil
  | conflict (e : ConflictError)
  | notFound (e : NotFoundError)
  | validation (e : ValidationError)
  | unauthorized (e : UnauthorizedError)
  | forbidden (e : ForbiddenError)
  | internal (e : InternalError)
  | badRequest (e : BadRequestError)
  | timeout (e : TimeoutError)
  | foreign (text : String)
  deriving DecidableEq, Repr

/-- The function `NewConflictError`. -/
def NewConflictError (message : String) : ConflictError := { Message := message }

/-- The function `NewNotFoundError`. -/
def NewNotFoundError (message : String) : NotFoundError := { Message := message }

/-- The function `NewValidationError`: the field stays empty. -/
def NewValidationError (message : String) : ValidationError :=
  { Message := message, Field := "" }

/-- The function `NewValidationErrorWithField`. -/
def NewValidationErrorWithField (field message : String) : ValidationError :=
  { Field := field, Message := message }

/-- The function `NewUnauthorizedError`. -/
def NewUnauthorizedError (message : String) : UnauthorizedError := { Message := message }

/-- The function `NewForbiddenError`. -/
def NewForbiddenError (message : String) : ForbiddenError := { Message := message }

/-- The function `NewInternalError`. -/
def NewInternalError (message : String) : InternalError := { Message := message }

/-- The function `NewBadRequestError`. -/
def NewBadRequestError (message : String) : BadRequestError := { Message := message }

/-- The function `NewTimeoutError`: operation and duration stay zero. -/
def NewTimeoutError (message : String) : TimeoutError :=
  { Message := message, Operation := "", Duration := 0 }

/-- The function `NewTimeoutErrorWithDuration`. -/
def NewTimeoutErrorWithDuration (operation : String) (durationMs : Int) (message : String) :
    TimeoutError :=
  { Operation := operation, Duration := durationMs, Message := message }

/-- The function `IsConflict`: the type assertion `err.(*ConflictError)`. -/
def IsConflict (err : GoError) : Bool :=
  match err with
  | .conflict _ => true
  | _ => false

/-- The function `IsNotFound`. -/
def IsNotFound (err : GoError) : Bool :=
  match err with
  | .notFound _ => true
  | _ => false

/-- The function `IsValidation`. -/
def IsValidation (err : GoError) : Bool :=
  match err with
  | .validation _ => true
  | _ => false

/-- The function `IsUnauthorized`. -/
def IsUnauthorized (err : GoError) : Bool :=
  match err with
  | .unauthorized _ => true
  | _ => false

/-- The function `IsForbidden`. -/
def IsForbidden (err : GoError) : Bool :=
  match err with
  | .forbidden _ => true
  | _ => false

/-- The function `IsInternal`. -/
def IsInternal (err : GoError) : Bool :=
  match err with
  | .internal _ => true
  | _ => false

/-- The function `IsBadRequest`. -/
def IsBadRequest (err : GoError) : Bool :=
  match err with
  | .badRequest _ => true
  | _ => false

/-- The function `IsTimeout`. -/
def IsTimeout (err : GoError) : Bool :=
  match err with
  | .timeout _ => true
  | _ => false

/-- The eight kinds of error of the package, one per struct. -/
inductive Kind where
  | conflict | notFound | validation | unauthorized | forbidden | internal | badRequest
  | timeout
  deriving DecidableEq, Repr

/-- The predicate of the package that belongs to a kind. -/
def Kind.is : Kind → GoError → Bool
  | .conflict => IsConflict
  | .notFound => IsNotFound
  | .validation => IsValidation
  | .unauthorized => IsUnauthorized
  | .forbidden => IsForbidden
  | .internal => IsInternal
  | .badRequest => IsBadRequest
  | .timeout => IsTimeout

/-- The errors the ten constructors of the package build from the given
arguments, as values of the interface type, each with the kind of the struct its
constructor returns. -/
def built (field message operation : String) (durationMs : Int) : List (Kind × GoError) :=
  [(.conflict, .conflict (NewConflictError message)),
   (.notFound, .notFound (NewNotFoundError message)),
   (.validation, .validation (NewValidationError message)),
   (.validation, .validation (NewValidationErrorWithField field message)),
   (.unauthorized, .unauthorized (NewUnauthorizedError message)),
   (.forbidden, .forbidden (NewForbiddenError message)),
   (.internal, .internal (NewInternalError message)),
   (.badRequest, .badRequest (NewBadRequestError message)),
   (.timeout, .timeout (NewTimeoutError message)),
   (.timeout, .timeout (NewTimeoutErrorWithDuration operation durationMs message))]

end Errors

namespace Users

/-! ## The update handler (`internal/handlers/users/handler.go`)

The repository is the interface `UserRepository`: any implementation, given by
what its methods return.  The HTTP layer is given by what it hands to the handler:
the `id` path parameter, the result of `uuid.Parse` and the result of
`ShouldBindJSON`.  The handler's result is the response it writes and the user it
hands to `repo.Update`, if it gets that far. -/

/-- The type `uuid.UUID`: sixteen bytes, read as a number. -/
structure UUID where
  value : Nat
  deriving DecidableEq, Repr

/-- Modelled from the spec: the struct `models.User` is declared in a package
outside the given sources; these are the fields the handler and the repository
read and write, with times as instants. -/
structure User where
  ID : UUID
  Name : String
  Email : String
  Role : String
  IsActive : Bool
  LastLogin : Option Nat
  CreatedAt : Nat
  UpdatedAt : Nat
  deriving DecidableEq, Repr

/-- The struct `UpdateUserRequest`: every field is a pointer, nil when the
request does not provide it. -/
structure UpdateUserRequest where
  Name : Option String
  Email : Option String
  Role : Option String
  IsActive : Option Bool
  deriving DecidableEq, Repr

/-- The struct `UserResponse`. -/
structure UserResponse where
  ID : UUID
  Name : String
  Email : String
  Role : String
  IsActive : Bool
  LastLogin : Option Nat
  CreatedAt : Nat
  UpdatedAt : Nat
  deriving DecidableEq, Repr

/-- An error returned by the repository: the sentinel `sql.ErrNoRows` or any
other error. -/
inductive RepoError where
  | errNoRows
  | other (text : String)
  deriving DecidableEq, Repr

/-- The interface `UserRepository`, as far as the update handler calls it.
`GetByEmail` is given by the pointer it returns; the handler drops its error. -/
structure UserRepository where
  GetByID : UUID → Except RepoError User
  GetByEmail : String → Option User
  Update : User → Option RepoError

/-- The body of a response: an error object or a user. -/
inductive Body where
  | error (text : String)
  | user (response : UserResponse)
  deriving DecidableEq, Repr

/-- What a call of the handler does: the response written and the user handed
to `repo.Update` (none when `Update` is not called). -/
structure Outcome where
  status : Nat
  body : Body
  saved : Option User
  deriving DecidableEq, Repr

/-- The response built from a user. -/
def toResponse (user : User) : UserResponse :=
  { ID := user.ID, Name := user.Name, Email := user.Email, Role := user.Role,
    IsActive := user.IsActive, LastLogin := user.LastLogin, CreatedAt := user.CreatedAt,
    UpdatedAt := user.UpdatedAt }

/-- The method `HandleUpdateUser`. -/
def HandleUpdateUser (repo : UserRepository) (uuidParse : String → Except String UUID)
    (id : String) (bindJSON : Except String UpdateUserRequest) : Outcome :=
  match uuidParse id with
  | .error _ => { status := 400, body := .error "Invalid UUID format", saved := none }
  | .ok userID =>
    match bindJSON with
    | .error err => { status := 400, body := .error err, saved := none }
    | .ok req =>
      match repo.GetByID userID with
      | .error err =>
        if err = .errNoRows then
          { status := 404, body := .error "User not found", saved := none }
        else { status := 500, body := .error "Failed to fetch user", saved := none }
      | .ok user =>
        let user :=
          match req.Name with
          | some name => { user with Name := name }
          | none => user
        let checked : Option User :=
          match req.Email with
          | some email =>
            match repo.GetByEmail email with
            | some existingUser =>
              if existingUser.ID ≠ userID then none else some { user with Email := email }
            | none => some { user with Email := email }
          | none => some user
        match checked with
        | none => { status := 409, body := .error "Email already in use", saved := none }
        | some user =>
          let user :=
            match req.Role with
            | some role => { user with Role := role }
            | none => user
          let user :=
            match req.IsActive with
            | some isActive => { user with IsActive := isActive }
            | none => user
          match repo.Update user with
          | some _ =>
            { status := 500, body := .error "Failed to update user", saved := some user }
          | none => { status := 200, body := .user (toResponse user), saved := some user }

/-- A stored user for the sample calls. -/
def storedUser : User :=
  { ID := ⟨7⟩, Name := "Ada", Email := "ada@example.org", Role := "PICKER", IsActive := true,
    LastLogin := some 100, CreatedAt := 10, UpdatedAt := 50 }

/-- A repository that holds `storedUser` only and accepts every update. -/
def sampleRepo : UserRepository :=
  { GetByID := fun id => if id = storedUser.ID then .ok storedUser else .error .errNoRows,
    GetByEmail := fun email => if email = storedUser.Email then some storedUser else none,
    Update := fun _ => none }

/-- A parser that accepts the text `7` only. -/
def sampleParse (id : String) : Except String UUID :=
  if id = "7" then .ok ⟨7⟩ else .error "invalid UUID length"

/-! ## The repository (`internal/repository/users/repository.go`) and `HandleGetUser`

The database handle is given by the rows of the table `users` and by an oracle
that says when a call fails for a reason of its own (connection lost, deadline
passed).  A `Get` that selects no row reports the sentinel `sql.ErrNoRows`. -/

/-- The database behind the repository. -/
structure Database where
  users : List User
  failure : Option String

/-- The text of an error. -/
def RepoError.Error : RepoError → String
  | .errNoRows => "sql: no rows in result set"
  | .other text => text

/-- The call `db.GetContext(ctx, &user, query, arg)` of `sqlx` for a query that
selects the rows satisfying `p`: the first row, `sql.ErrNoRows` when there is
none, or the failure of the call. -/
def Database.GetContext (db : Database) (p : User → Bool) : Except RepoError User :=
  match db.failure with
  | some cause => .error (.other cause)
  | none =>
    match db.users.find? p with
    | some user => .ok user
    | none => .error .errNoRows

/-- The method `userRepository.GetByID`: `SELECT * FROM users WHERE id = $1`. -/
def userRepository.GetByID (db : Database) (id : UUID) : Except RepoError User :=
  match db.GetContext (fun u => u.ID = id) with
  | .error err =>
    if err = .errNoRows then .error (.other "user not found")
    else .error (.other ("failed to get user: " ++ err.Error))
  | .ok user => .ok user

/-- The method `userRepository.GetByEmail`: `SELECT * FROM users WHERE email = $1`. -/
def userRepository.GetByEmail (db : Database) (email : String) : Except RepoError User :=
  match db.GetContext (fun u => u.Email = email) with
  | .error err =>
    if err = .errNoRows then .error (.other "user not found")
    else .error (.other ("failed to get user: " ++ err.Error))
  | .ok user => .ok user

/-- The error `userRepository.Update` returns: the failure of the statement, or
`user not found` when the statement affects no row. -/
def userRepository.Update (db : Database) (user : User) : Option RepoError :=
  match db.failure with
  | some cause => some (.other ("failed to update user: " ++ cause))
  | none =>
    if db.users.any (fun u => u.ID = user.ID) then none else some (.other "user not found")

/-- The function `NewRepository`: the repository over a database handle, as the
handlers see it (of `GetByEmail` they keep the pointer only). -/
def NewRepository (db : Database) : UserRepository :=
  { GetByID := userRepository.GetByID db,
    GetByEmail := fun email =>
      match userRepository.GetByEmail db email with
      | .ok user => some user
      | .error _ => none,
    Update := userRepository.Update db }

/-- The method `HandleGetUser`. -/
def HandleGetUser (repo : UserRepository) (uuidParse : String → Except String UUID)
    (id : String) : Outcome :=
  match uuidParse id with
  | .error _ => { status := 400, body := .error "Invalid UUID format", saved := none }
  | .ok userID =>
    match repo.GetByID userID with
    | .error err =>
      if err = .errNoRows then
        { status := 404, body := .error "User not found", saved := none }
      else { status := 500, body := .error "Failed to fetch user", saved := none }
    | .ok user => { status := 200, body := .user (toResponse user), saved := none }

/-- A database that holds `storedUser` only and answers every call. -/
def sampleDatabase : Database :=
  { users := [storedUser], failure := none }

/-- A parser that accepts the texts `7` and `8`. -/
def twoIdParse (id : String) : Except String UUID :=
  if id = "7" then .ok ⟨7⟩ else if id = "8" then .ok ⟨8⟩ else .error "invalid UUID length"

end Users

namespace Logger

/-! ## Log levels (`internal/logger/levels.go`) -/

/-- The type `LogLevel`, a `slog.Level`: an integer. -/
abbrev LogLevel := Int

/-- The constant `LevelDebug`, `slog.LevelDebug`. -/
def LevelDebug : LogLevel := -4

/-- The constant `LevelInfo`, `slog.LevelInfo`. -/
def LevelInfo : LogLevel := 0

/-- The constant `LevelWarn`, `slog.LevelWarn`. -/
def LevelWarn : LogLevel := 4

/-- The constant `LevelError`, `slog.LevelError`. -/
def LevelError : LogLevel := 8

/-- Go's `unicode.ToLower`: the letters `A` to `Z` move to `a` to `z`, every other
ASCII character stays, and a character above ASCII is looked up in the Unicode
case table, which is a parameter here. -/
def unicode.ToLower (table : Char → Char) (r : Char) : Char :=
  if r.toNat ≤ 127 then
    if 'A'.toNat ≤ r.toNat ∧ r.toNat ≤ 'Z'.toNat then Char.ofNat (r.toNat + ('a'.toNat - 'A'.toNat))
    else r
  else table r

/-- Go's `strings.ToLower`: every character mapped by `unicode.ToLower`. -/
def strings.ToLower (table : Char → Char) (s : String) : String :=
  String.mk (s.data.map (unicode.ToLower table))

/-- The function `ParseLevel`. -/
def ParseLevel (table : Char → Char) (level : String) : LogLevel :=
  let lowered := strings.ToLower table level
  if lowered = "debug" then LevelDebug
  else if lowered = "info" then LevelInfo
  else if lowered = "warn" ∨ lowered = "warning" then LevelWarn
  else if lowered = "error" then LevelError
  else LevelInfo

/-- Two characters that are equal or are the two cases of one ASCII letter. -/
def sameLetter (c d : Char) : Prop :=
  c = d ∨ ('A'.toNat ≤ c.toNat ∧ c.toNat ≤ 'Z'.toNat ∧ d.toNat = c.toNat + 32) ∨
    ('A'.toNat ≤ d.toNat ∧ d.toNat ≤ 'Z'.toNat ∧ c.toNat = d.toNat + 32)

/-- Two strings that differ in the case of ASCII letters only. -/
def EqualUpToCase (s t : String) : Prop :=
  List.Forall₂ sameLetter s.data t.data

/-- A case table that sends the dotted capital I to `i` and leaves the rest. -/
def sampleTable (r : Char) : Char :=
  if r = 'İ' then 'i' else r

end Logger

namespace Migrate

/-! ## The version order -/

theorem charsLess_irrefl (a : List Char) : charsLess a a = false := by
  induction a with
  | nil => rfl
  | cons x xs ih => simp [charsLess, ih]

theorem charsLess_asymm : ∀ a b : List Char, charsLess a b = true → charsLess b a = false
  | _, [], h => by simp [charsLess] at h
  | [], _ :: _, _ => by simp [charsLess]
  | a :: as, b :: bs, h => by
    simp only [charsLess] at h ⊢
    by_cases h1 : a.toNat < b.toNat
    · have h2 : ¬ b.toNat < a.toNat := by omega
      simp [h1, h2]
    · by_cases h2 : b.toNat < a.toNat
      · simp [h1, h2] at h
      · simp only [h1, h2, if_false] at h ⊢
        exact charsLess_asymm as bs h

theorem charsLess_trans : ∀ a b c : List Char,
    charsLess a b = true → charsLess b c = true → charsLess a c = true
  | _, [], _, h, _ => by simp [charsLess] at h
  | _, _ :: _, [], _, h => by simp [charsLess] at h
  | [], _ :: _, _ :: _, _, _ => by simp [charsLess]
  | a :: as, b :: bs, c :: cs, h1, h2 => by
    simp only [charsLess] at h1 h2 ⊢
    by_cases hab : a.toNat < b.toNat
    · by_cases hbc : b.toNat < c.toNat
      · have : a.toNat < c.toNat := by omega
        simp [this]
      · by_cases hcb : c.toNat < b.toNat
        · simp [hbc, hcb] at h2
        · have : a.toNat < c.toNat := by omega
          simp [this]
    · by_cases hba : b.toNat < a.toNat
      · simp [hab, hba] at h1
      · simp only [hab, hba, if_false] at h1
        by_cases hbc : b.toNat < c.toNat
        · have : a.toNat < c.toNat := by omega
          simp [this]
        · by_cases hcb : c.toNat < b.toNat
          · simp [hbc, hcb] at h2
          · simp only [hbc, hcb, if_false] at h2
            have e1 : ¬ a.toNat < c.toNat := by omega
            have e2 : ¬ c.toNat < a.toNat := by omega
            simp only [e1, e2, if_false]
            exact charsLess_trans as bs cs h1 h2

theorem charsLess_connex : ∀ a b : List Char,
    charsLess a b = false → charsLess b a = false → a = b
  | [], [], _, _ => rfl
  | [], _ :: _, h, _ => by simp [charsLess] at h
  | _ :: _, [], _, h => by simp [charsLess] at h
  | a :: as, b :: bs, h1, h2 => by
    simp only [charsLess] at h1 h2
    by_cases hab : a.toNat < b.toNat
    · simp [hab] at h1
    · by_cases hba : b.toNat < a.toNat
      · simp [hba] at h2
      · simp only [hab, hba, if_false] at h1 h2
        have hx : a = b := by
          apply Char.ext
          apply UInt32.ext
          have : a.toNat = b.toNat := by omega
          exact this
        rw [hx, charsLess_connex as bs h1 h2]

theorem strLess_irrefl (s : String) : strLess s s = false :=
  charsLess_irrefl s.data

theorem strLess_asymm {s t : String} (h : strLess s t = true) : strLess t s = false :=
  charsLess_asymm _ _ h

theorem strLess_trans {s t u : String} (h1 : strLess s t = true) (h2 : strLess t u = true) :
    strLess s u = true :=
  charsLess_trans _ _ _ h1 h2

theorem strLess_connex {s t : String} (h1 : strLess s t = false) (h2 : strLess t s = false) :
    s = t := by
  cases s; cases t
  simp only [strLess] at h1 h2
  rw [charsLess_connex _ _ h1 h2]

/-! ## Discovery returns distinct versions in ascending order -/

theorem versionLE_total (a b : Migration) : versionLE a b ∨ versionLE b a := by
  unfold versionLE
  cases h : strLess b.Version a.Version with
  | false => exact Or.inl rfl
  | true => exact Or.inr (strLess_asymm h)

theorem versionLE_trans (a b c : Migration) (h1 : versionLE a b) (h2 : versionLE b c) :
    versionLE a c := by
  unfold versionLE at *
  cases h : strLess c.Version a.Version with
  | false => rfl
  | true =>
    cases hab : strLess a.Version b.Version with
    | true =>
      have := strLess_trans h hab
      rw [h2] at this
      exact absurd this (by simp)
    | false =>
      have e : a.Version = b.Version := strLess_connex hab h1
      rw [e, h2] at h
      exact absurd h (by simp)

theorem sortSlice_sorted (l : List Migration) : (sortSlice l).Sorted versionLE :=
  @List.sorted_insertionSort _ versionLE _ ⟨versionLE_total⟩ ⟨versionLE_trans⟩ l

theorem sortSlice_perm (l : List Migration) : (sortSlice l).Perm l :=
  List.perm_insertionSort versionLE l

theorem ascending_of_sorted_nodup : ∀ l : List Migration,
    l.Sorted versionLE → (l.map Migration.Version).Nodup → Ascending l
  | [], _, _ => List.Pairwise.nil
  | a :: l, hs, hn => by
    rw [List.map_cons, List.nodup_cons] at hn
    have hs2 := List.pairwise_cons.mp hs
    refine List.Pairwise.cons ?_ (ascending_of_sorted_nodup l hs2.2 hn.2)
    intro b hb
    have hle : strLess b.Version a.Version = false := hs2.1 b hb
    cases h : strLess a.Version b.Version with
    | true => rfl
    | false =>
      have e : a.Version = b.Version := strLess_connex h hle
      exact absurd (e ▸ List.mem_map_of_mem Migration.Version hb) hn.1

theorem MigrationsMap.has_iff (m : MigrationsMap) (v : String) :
    m.has v = true ↔ v ∈ m.map Prod.fst := by
  simp only [MigrationsMap.has, List.any_eq_true, List.mem_map, beq_iff_eq]

theorem MigrationsMap.update_keys (m : MigrationsMap) (v : String) (f : Migration → Migration) :
    (m.update v f).map Prod.fst = m.map Prod.fst := by
  induction m with
  | nil => rfl
  | cons kv m ih =>
    simp only [MigrationsMap.update, List.map_cons] at ih ⊢
    rw [ih]
    by_cases h : (kv.1 == v) = true <;> simp [h]

theorem MigrationsMap.WF_update (m : MigrationsMap) (v : String) (f : Migration → Migration)
    (hf : ∀ x, (f x).Version = x.Version) (h : m.WF) : (m.update v f).WF := by
  refine ⟨by rw [MigrationsMap.update_keys]; exact h.1, ?_⟩
  intro kv hkv
  simp only [MigrationsMap.update, List.mem_map] at hkv
  obtain ⟨kv0, hmem, rfl⟩ := hkv
  by_cases hk : (kv0.1 == v) = true
  · simp only [hk, if_true]
    rw [hf]
    exact h.2 kv0 hmem
  · simp only [hk]
    exact h.2 kv0 hmem

theorem MigrationsMap.WF_set (m : MigrationsMap) (v : String) (x : Migration)
    (hx : x.Version = v) (hv : m.has v = false) (h : m.WF) : (m.set v x).WF := by
  have hnot : v ∉ m.map Prod.fst := by
    intro hmem
    rw [← MigrationsMap.has_iff, hv] at hmem
    exact absurd hmem (by simp)
  simp only [MigrationsMap.set, hv, Bool.false_eq_true, if_false]
  refine ⟨?_, ?_⟩
  · rw [List.map_append, List.nodup_append]
    refine ⟨h.1, by simp, ?_⟩
    intro a ha hb
    simp only [List.map_cons, List.map_nil, List.mem_singleton] at hb
    subst hb
    exact hnot ha
  · intro kv hkv
    rw [List.mem_append] at hkv
    cases hkv with
    | inl hl => exact h.2 kv hl
    | inr hr =>
      simp only [List.mem_singleton] at hr
      subst hr
      exact hx

theorem scanFile_WF (dir : String) (m : MigrationsMap) (file : DirEntry) (h : m.WF) :
    (scanFile dir m file).WF := by
  unfold scanFile
  dsimp only
  have h2 : ∀ n : String, MigrationsMap.WF
      (if (!m.has ((strings.Split file.Name '_').headD "")) = true then
        m.set ((strings.Split file.Name '_').headD "")
          { Version := (strings.Split file.Name '_').headD "", Name := n,
            UpPath := "", DownPath := "" }
      else m) := by
    intro n
    split
    · rename_i hh
      refine MigrationsMap.WF_set m _ _ rfl ?_ h
      simpa using hh
    · exact h
  split
  · exact h
  · split
    · exact h
    · split
      · exact h
      · split
        · exact MigrationsMap.WF_update _ _ _ (fun _ => rfl) (h2 _)
        · split
          · exact MigrationsMap.WF_update _ _ _ (fun _ => rfl) (h2 _)
          · exact h2 _

theorem foldl_scanFile_WF (dir : String) (files : List DirEntry) :
    ∀ m : MigrationsMap, m.WF → (files.foldl (scanFile dir) m).WF := by
  induction files with
  | nil => intro m h; exact h
  | cons f fs ih => intro m h; exact ih _ (scanFile_WF dir m f h)

theorem MigrationsMap.WF.values_nodup {m : MigrationsMap} (h : m.WF) :
    ((m.map Prod.snd).map Migration.Version).Nodup := by
  have e : (m.map Prod.snd).map Migration.Version = m.map Prod.fst := by
    rw [List.map_map]
    apply List.map_congr_left
    intro kv hkv
    exact h.2 kv hkv
  rw [e]
  exact h.1

theorem getMigrations_nodup {env : Env} {dir : String} {ms : List Migration}
    (h : getMigrations env dir = .ok ms) : (ms.map Migration.Version).Nodup := by
  unfold getMigrations at h
  split at h
  · exact absurd h (by simp)
  · simp only [Except.ok.injEq] at h
    subst h
    rename_i files _
    have hwf := foldl_scanFile_WF dir files [] ⟨List.nodup_nil, by simp⟩
    have hp := ((sortSlice_perm (env.mapOrder ((files.foldl (scanFile dir) []).map Prod.snd))).trans
      (env.mapOrder_perm _)).map Migration.Version
    exact hp.nodup_iff.mpr hwf.values_nodup

theorem getMigrations_ascending {env : Env} {dir : String} {ms : List Migration}
    (h : getMigrations env dir = .ok ms) : Ascending ms := by
  have hn := getMigrations_nodup h
  unfold getMigrations at h
  split at h
  · exact absurd h (by simp)
  · simp only [Except.ok.injEq] at h
    subst h
    exact ascending_of_sorted_nodup _ (sortSlice_sorted _) hn

/-! ## The apply loop -/

theorem pending_cons_applied {applied : List String} {m : Migration} (rest : List Migration)
    (h : m.Version ∈ applied) :
    pending applied (m :: rest) = pending applied rest := by
  simp [pending, h]

theorem pending_cons_new {applied : List String} {m : Migration} (rest : List Migration)
    (h : m.Version ∉ applied) :
    pending applied (m :: rest) = m :: pending applied rest := by
  simp [pending, h]

theorem fileText_of_ok {env : Env} {path content : String}
    (h : env.readFile path = .ok content) : fileText env path = content := by
  simp [fileText, h]

theorem migrateUpLoop_applied (env : Env) {applied : List String} {m : Migration}
    (rest : List Migration) (w : World) (h : m.Version ∈ applied) :
    migrateUpLoop env applied (m :: rest) w =
      migrateUpLoop env applied rest
        (w.print ("Migration " ++ m.Version ++ " (" ++ m.Name
          ++ ") already applied, skipping\n")) := by
  simp [migrateUpLoop, h]

theorem migrateUpLoop_missing (env : Env) {applied : List String} {m : Migration}
    (rest : List Migration) (w : World) (h : m.Version ∉ applied) (hup : m.UpPath = "") :
    migrateUpLoop env applied (m :: rest) w = (some (.missingUp m.Version), w) := by
  simp [migrateUpLoop, h, hup]

theorem migrateUpLoop_unreadable (env : Env) {applied : List String} {m : Migration}
    (rest : List Migration) (w : World) (h : m.Version ∉ applied) (hup : m.UpPath ≠ "")
    {cause : String} (hread : env.readFile m.UpPath = .error cause) :
    migrateUpLoop env applied (m :: rest) w =
      (some (.readFile m.UpPath cause),
        w.print ("Applying migration " ++ m.Version ++ " (" ++ m.Name ++ ")...\n")) := by
  simp [migrateUpLoop, h, hup, hread]

theorem migrateUpLoop_noBegin (env : Env) {applied : List String} {m : Migration}
    (rest : List Migration) (w : World) (h : m.Version ∉ applied) (hup : m.UpPath ≠ "")
    {content cause : String} (hread : env.readFile m.UpPath = .ok content)
    (hbegin : env.beginErr w.db = some cause) :
    migrateUpLoop env applied (m :: rest) w =
      (some (.beginTx cause),
        { db := w.db, ops := w.ops ++ [.begin],
          out := w.out ++ ["Applying migration " ++ m.Version ++ " (" ++ m.Name ++ ")...\n"] }) := by
  simp [migrateUpLoop, h, hup, hread, dbBegin, hbegin, World.print, World.issue]

theorem migrateUpLoop_execFailed (env : Env) {applied : List String} {m : Migration}
    (rest : List Migration) (w : World) (h : m.Version ∉ applied) (hup : m.UpPath ≠ "")
    {content cause : String} (hread : env.readFile m.UpPath = .ok content)
    (hbegin : env.beginErr w.db = none) (hexec : env.execErr w.db content = some cause) :
    migrateUpLoop env applied (m :: rest) w =
      (some (.exec m.Version cause),
        { db := w.db, ops := w.ops ++ [.begin, .exec content, .rollback],
          out := w.out ++ ["Applying migration " ++ m.Version ++ " (" ++ m.Name ++ ")...\n"] }) := by
  simp [migrateUpLoop, h, hup, hread, dbBegin, hbegin, txExec, hexec, txRollback,
    World.print, World.issue]

theorem migrateUpLoop_recordFailed (env : Env) {applied : List String} {m : Migration}
    (rest : List Migration) (w : World) (h : m.Version ∉ applied) (hup : m.UpPath ≠ "")
    {content cause : String} (hread : env.readFile m.UpPath = .ok content)
    (hbegin : env.beginErr w.db = none) (hexec : env.execErr w.db content = none)
    (hins : (txInsert env ⟨{ w.db with schema := w.db.schema ++ [content] }⟩ m.Version
      { db := w.db, ops := w.ops ++ [.begin, .exec content],
        out := w.out ++ ["Applying migration " ++ m.Version ++ " (" ++ m.Name ++ ")...\n"] }).1
        = .error cause) :
    migrateUpLoop env applied (m :: rest) w =
      (some (.record m.Version cause),
        { db := w.db, ops := w.ops ++ [.begin, .exec content, .insert m.Version, .rollback],
          out := w.out ++ ["Applying migration " ++ m.Version ++ " (" ++ m.Name ++ ")...\n"] }) := by
  simp only [migrateUpLoop, dbBegin, hbegin, txExec, hexec, hread, World.print, World.issue,
    List.append_assoc, List.singleton_append]
  unfold txInsert at hins ⊢
  simp only [World.issue] at hins ⊢
  split at hins
  · rename_i hpk
    have hpk2 : m.Version ∈ w.db.ledger := by simpa using hpk
    simp only [Except.error.injEq] at hins
    simp [h, hup, hpk2, hins, txRollback, World.issue]
  · rename_i hpk
    have hpk2 : m.Version ∉ w.db.ledger := by simpa using hpk
    cases hi : env.insertErr { schema := w.db.schema ++ [content], ledger := w.db.ledger }
        m.Version with
    | none => simp [hi] at hins
    | some c =>
      simp only [hi, Except.error.injEq] at hins
      simp [h, hup, hpk2, hi, hins, txRollback, World.issue]

theorem migrateUpLoop_commitFailed (env : Env) {applied : List String} {m : Migration}
    (rest : List Migration) (w : World) (h : m.Version ∉ applied) (hup : m.UpPath ≠ "")
    {content cause : String} (hread : env.readFile m.UpPath = .ok content)
    (hbegin : env.beginErr w.db = none) (hexec : env.execErr w.db content = none)
    (hpk : m.Version ∉ w.db.ledger)
    (hins : env.insertErr { w.db with schema := w.db.schema ++ [content] } m.Version = none)
    (hcommit : env.commitErr (applyUnit env w.db m) = some cause) :
    migrateUpLoop env applied (m :: rest) w =
      (some (.commitUp m.Version cause),
        { db := w.db, ops := w.ops ++ [.begin, .exec content, .insert m.Version, .commit],
          out := w.out ++ ["Applying migration " ++ m.Version ++ " (" ++ m.Name ++ ")...\n"] }) := by
  rw [applyUnit, fileText_of_ok hread] at hcommit
  simp [migrateUpLoop, h, hup, hread, dbBegin, hbegin, txExec, hexec, txInsert, hpk, hins,
    txCommit, hcommit, World.print, World.issue]

theorem migrateUpLoop_committed (env : Env) {applied : List String} {m : Migration}
    (rest : List Migration) (w : World) (h : m.Version ∉ applied) (hup : m.UpPath ≠ "")
    {content : String} (hread : env.readFile m.UpPath = .ok content)
    (hbegin : env.beginErr w.db = none) (hexec : env.execErr w.db content = none)
    (hpk : m.Version ∉ w.db.ledger)
    (hins : env.insertErr { w.db with schema := w.db.schema ++ [content] } m.Version = none)
    (hcommit : env.commitErr (applyUnit env w.db m) = none) :
    migrateUpLoop env applied (m :: rest) w =
      migrateUpLoop env applied rest
        { db := applyUnit env w.db m, ops := w.ops ++ upTx env m,
          out := w.out ++ ["Applying migration " ++ m.Version ++ " (" ++ m.Name ++ ")...\n",
            "Migration " ++ m.Version ++ " applied successfully\n"] } := by
  rw [applyUnit, fileText_of_ok hread] at hcommit
  simp [migrateUpLoop, h, hup, hread, dbBegin, hbegin, txExec, hexec, txInsert, hpk, hins,
    txCommit, hcommit, World.print, World.issue, applyUnit, upTx, fileText_of_ok hread]

/-- The apply loop: some initial segment of the pending units is applied
completely, each in a transaction of its own, and the run then stops as the
relation UpStop describes. -/
theorem migrateUpLoop_spec (env : Env) (applied : List String) :
    ∀ (ms : List Migration) (w : World),
      ∃ done rest tail,
        pending applied ms = done ++ rest ∧
        (∀ m ∈ done, m.UpPath ≠ "" ∧ env.readFile m.UpPath = .ok (fileText env m.UpPath)) ∧
        (migrateUpLoop env applied ms w).2.db = done.foldl (applyUnit env) w.db ∧
        (migrateUpLoop env applied ms w).2.ops = w.ops ++ (done.flatMap (upTx env) ++ tail) ∧
        UpStop env (migrateUpLoop env applied ms w).1 rest tail
  | [], w => ⟨[], [], [], rfl, by simp, rfl, by simp [migrateUpLoop], UpStop.finished⟩
  | m :: ms, w => by
    by_cases happ : m.Version ∈ applied
    · obtain ⟨done, rest, tail, h1, h2, h3, h4, h5⟩ := migrateUpLoop_spec env applied ms
        (w.print ("Migration " ++ m.Version ++ " (" ++ m.Name ++ ") already applied, skipping\n"))
      rw [migrateUpLoop_applied env ms w happ, pending_cons_applied ms happ]
      exact ⟨done, rest, tail, h1, h2, h3, h4, h5⟩
    · rw [pending_cons_new ms happ]
      by_cases hup : m.UpPath = ""
      · rw [migrateUpLoop_missing env ms w happ hup]
        exact ⟨[], m :: pending applied ms, [], rfl, by simp, rfl, by simp,
          UpStop.missing m _ hup⟩
      · cases hread : env.readFile m.UpPath with
        | error cause =>
          rw [migrateUpLoop_unreadable env ms w happ hup hread]
          exact ⟨[], m :: pending applied ms, [], rfl, by simp, rfl, by simp [World.print],
            UpStop.unreadable m _ cause hup hread⟩
        | ok content =>
          have hft : fileText env m.UpPath = content := fileText_of_ok hread
          cases hbegin : env.beginErr w.db with
          | some cause =>
            rw [migrateUpLoop_noBegin env ms w happ hup hread hbegin]
            exact ⟨[], m :: pending applied ms, [.begin], rfl, by simp, rfl, by simp,
              UpStop.noBegin m _ cause⟩
          | none =>
            cases hexec : env.execErr w.db content with
            | some cause =>
              rw [migrateUpLoop_execFailed env ms w happ hup hread hbegin hexec]
              exact ⟨[], m :: pending applied ms, _, rfl, by simp, rfl, by simp [hft],
                UpStop.execFailed m _ cause⟩
            | none =>
              cases hins : (txInsert env ⟨{ w.db with schema := w.db.schema ++ [content] }⟩
                  m.Version
                  { db := w.db, ops := w.ops ++ [.begin, .exec content],
                    out := w.out ++ ["Applying migration " ++ m.Version ++ " (" ++ m.Name
                      ++ ")...\n"] }).1 with
              | error cause =>
                rw [migrateUpLoop_recordFailed env ms w happ hup hread hbegin hexec hins]
                exact ⟨[], m :: pending applied ms, _, rfl, by simp, rfl, by simp [hft],
                  UpStop.recordFailed m _ cause⟩
              | ok tx =>
                have hpk : m.Version ∉ w.db.ledger := by
                  intro hmem
                  simp [txInsert, hmem] at hins
                have hi : env.insertErr { w.db with schema := w.db.schema ++ [content] }
                    m.Version = none := by
                  cases hx : env.insertErr { w.db with schema := w.db.schema ++ [content] }
                      m.Version with
                  | none => rfl
                  | some c => simp [txInsert, hpk, hx] at hins
                cases hcommit : env.commitErr (applyUnit env w.db m) with
                | some cause =>
                  rw [migrateUpLoop_commitFailed env ms w happ hup hread hbegin hexec hpk hi
                    hcommit]
                  exact ⟨[], m :: pending applied ms, _, rfl, by simp, rfl, by simp [hft],
                    UpStop.commitFailed m _ cause⟩
                | none =>
                  rw [migrateUpLoop_committed env ms w happ hup hread hbegin hexec hpk hi
                    hcommit]
                  obtain ⟨done, rest, tail, h1, h2, h3, h4, h5⟩ :=
                    migrateUpLoop_spec env applied ms
                      { db := applyUnit env w.db m, ops := w.ops ++ upTx env m,
                        out := w.out ++ ["Applying migration " ++ m.Version ++ " (" ++ m.Name
                          ++ ")...\n", "Migration " ++ m.Version ++ " applied successfully\n"] }
                  refine ⟨m :: done, rest, tail, by rw [h1]; rfl, ?_, ?_, ?_, h5⟩
                  · intro x hx
                    rcases List.mem_cons.mp hx with rfl | hx
                    · exact ⟨hup, by rw [hft]; exact hread⟩
                    · exact h2 x hx
                  · rw [h3]; rfl
                  · rw [h4]; simp [List.flatMap_cons]

/-! ## Consequences of the loop specification -/

theorem foldl_applyUnit_ledger (env : Env) (done : List Migration) :
    ∀ db : DB, (done.foldl (applyUnit env) db).ledger = db.ledger ++ done.map Migration.Version := by
  induction done with
  | nil => intro db; simp
  | cons m done ih => intro db; simp [List.foldl_cons, ih, applyUnit]

theorem UpStop.of_none {env : Env} {e : Option MigrateError} {rest : List Migration}
    {tail : List DbOp} (h : UpStop env e rest tail) (he : e = none) : rest = [] ∧ tail = [] := by
  cases h <;> first | exact ⟨rfl, rfl⟩ | exact absurd he (by simp)

theorem UpStop.of_nil {env : Env} {e : Option MigrateError} {tail : List DbOp}
    (h : UpStop env e [] tail) : e = none ∧ tail = [] := by
  cases h
  exact ⟨rfl, rfl⟩

theorem migrateUp_eq_loop {env : Env} {w : World} {dir : String} {ms : List Migration}
    (hms : getMigrations env dir = .ok ms) (hq : env.queryErr w.db = none) :
    migrateUp env w dir = migrateUpLoop env w.db.ledger ms (w.issue .query) := by
  simp [migrateUp, hms, getAppliedMigrations, hq]

theorem migrateUp_query_failed {env : Env} {w : World} {dir : String} {ms : List Migration}
    {cause : String} (hms : getMigrations env dir = .ok ms)
    (hq : env.queryErr w.db = some cause) :
    migrateUp env w dir = (some (.query cause), w.issue .query) := by
  simp [migrateUp, hms, getAppliedMigrations, hq]

theorem migrateUp_discovery_failed {env : Env} {w : World} {dir : String} {err : MigrateError}
    (hms : getMigrations env dir = .error err) :
    migrateUp env w dir = (some err, w) := by
  simp [migrateUp, hms]

theorem query_ok_of_migrateUp_ok {env : Env} {w : World} {dir : String}
    (h : (migrateUp env w dir).1 = none) : env.queryErr w.db = none := by
  cases hms : getMigrations env dir with
  | error err => rw [migrateUp_discovery_failed hms] at h; exact absurd h (by simp)
  | ok ms =>
    cases hq : env.queryErr w.db with
    | none => rfl
    | some cause => rw [migrateUp_query_failed hms hq] at h; exact absurd h (by simp)

theorem migrateUpLoop_append (env : Env) (applied : List String) (ys : List Migration) :
    ∀ (xs : List Migration) (w : World),
      (migrateUpLoop env applied xs w).1 = none →
      migrateUpLoop env applied (xs ++ ys) w
        = migrateUpLoop env applied ys (migrateUpLoop env applied xs w).2
  | [], w, _ => by simp [migrateUpLoop]
  | m :: xs, w, h => by
    rw [List.cons_append]
    by_cases happ : m.Version ∈ applied
    · rw [migrateUpLoop_applied env xs w happ] at h ⊢
      rw [migrateUpLoop_applied env (xs ++ ys) w happ]
      exact migrateUpLoop_append env applied ys xs _ h
    · by_cases hup : m.UpPath = ""
      · rw [migrateUpLoop_missing env xs w happ hup] at h
        exact absurd h (by simp)
      · cases hread : env.readFile m.UpPath with
        | error cause =>
          rw [migrateUpLoop_unreadable env xs w happ hup hread] at h
          exact absurd h (by simp)
        | ok content =>
          cases hbegin : env.beginErr w.db with
          | some cause =>
            rw [migrateUpLoop_noBegin env xs w happ hup hread hbegin] at h
            exact absurd h (by simp)
          | none =>
            cases hexec : env.execErr w.db content with
            | some cause =>
              rw [migrateUpLoop_execFailed env xs w happ hup hread hbegin hexec] at h
              exact absurd h (by simp)
            | none =>
              cases hins : (txInsert env ⟨{ w.db with schema := w.db.schema ++ [content] }⟩
                  m.Version
                  { db := w.db, ops := w.ops ++ [.begin, .exec content],
                    out := w.out ++ ["Applying migration " ++ m.Version ++ " (" ++ m.Name
                      ++ ")...\n"] }).1 with
              | error cause =>
                rw [migrateUpLoop_recordFailed env xs w happ hup hread hbegin hexec hins] at h
                exact absurd h (by simp)
              | ok tx =>
                have hpk : m.Version ∉ w.db.ledger := by
                  intro hmem
                  simp [txInsert, hmem] at hins
                have hi : env.insertErr { w.db with schema := w.db.schema ++ [content] }
                    m.Version = none := by
                  cases hx : env.insertErr { w.db with schema := w.db.schema ++ [content] }
                      m.Version with
                  | none => rfl
                  | some c => simp [txInsert, hpk, hx] at hins
                cases hcommit : env.commitErr (applyUnit env w.db m) with
                | some cause =>
                  rw [migrateUpLoop_commitFailed env xs w happ hup hread hbegin hexec hpk hi
                    hcommit] at h
                  exact absurd h (by simp)
                | none =>
                  rw [migrateUpLoop_committed env xs w happ hup hread hbegin hexec hpk hi
                    hcommit] at h ⊢
                  rw [migrateUpLoop_committed env (xs ++ ys) w happ hup hread hbegin hexec hpk
                    hi hcommit]
                  exact migrateUpLoop_append env applied ys xs _ h

theorem ascending_sublist {l₁ l₂ : List Migration} (h : l₁.Sublist l₂) (ha : Ascending l₂) :
    Ascending l₁ :=
  List.Pairwise.sublist h ha

theorem pending_ascending {applied : List String} {ms : List Migration} (h : Ascending ms) :
    Ascending (pending applied ms) :=
  ascending_sublist (List.filter_sublist ms) h

theorem filter_less_of_ascending {done post : List Migration} {U : Migration}
    (h : Ascending (done ++ U :: post)) :
    (done ++ U :: post).filter (fun m => strLess m.Version U.Version) = done := by
  unfold Ascending at h
  rw [List.pairwise_append] at h
  obtain ⟨_, h2, h3⟩ := h
  rw [List.pairwise_cons] at h2
  rw [List.filter_append, List.filter_cons]
  have e1 : done.filter (fun m => strLess m.Version U.Version) = done := by
    rw [List.filter_eq_self]
    intro a ha
    exact h3 a ha U (List.mem_cons_self _ _)
  have e2 : post.filter (fun m => strLess m.Version U.Version) = [] := by
    rw [List.filter_eq_nil_iff]
    intro a ha
    rw [strLess_asymm (h2.1 a ha)]
    simp
  rw [e1, e2, strLess_irrefl]
  simp

/-! ## The revert step -/

theorem findLastApplied_mem {applied : List String} {ms : List Migration} {m : Migration}
    (h : findLastApplied applied ms = some m) : m ∈ ms ∧ m.Version ∈ applied := by
  unfold findLastApplied at h
  refine ⟨List.mem_reverse.mp (List.mem_of_find?_eq_some h), ?_⟩
  simpa using List.find?_some h

theorem migrateDown_discovery_failed {env : Env} {w : World} {dir : String}
    {err : MigrateError} (hms : getMigrations env dir = .error err) :
    migrateDown env w dir = (some err, w) := by
  simp [migrateDown, hms]

theorem migrateDown_query_failed {env : Env} {w : World} {dir : String} {ms : List Migration}
    {cause : String} (hms : getMigrations env dir = .ok ms)
    (hq : env.queryErr w.db = some cause) :
    migrateDown env w dir = (some (.query cause), w.issue .query) := by
  simp [migrateDown, hms, getAppliedMigrations, hq]

theorem migrateDown_nothing {env : Env} {w : World} {dir : String} {ms : List Migration}
    (hms : getMigrations env dir = .ok ms) (hq : env.queryErr w.db = none)
    (hlast : findLastApplied w.db.ledger ms = none) :
    migrateDown env w dir = (none, (w.issue .query).print "No migrations to roll back\n") := by
  simp [migrateDown, hms, getAppliedMigrations, hq, hlast]

theorem migrateDown_missing {env : Env} {w : World} {dir : String} {ms : List Migration}
    {V : Migration} (hms : getMigrations env dir = .ok ms) (hq : env.queryErr w.db = none)
    (hlast : findLastApplied w.db.ledger ms = some V) (hdown : V.DownPath = "") :
    migrateDown env w dir = (some (.missingDown V.Version), w.issue .query) := by
  simp [migrateDown, hms, getAppliedMigrations, hq, hlast, hdown]

theorem migrateDown_committed {env : Env} {w : World} {dir : String} {ms : List Migration}
    {V : Migration} {content : String}
    (hms : getMigrations env dir = .ok ms) (hq : env.queryErr w.db = none)
    (hlast : findLastApplied w.db.ledger ms = some V) (hdown : V.DownPath ≠ "")
    (hread : env.readFile V.DownPath = .ok content)
    (hbegin : env.beginErr w.db = none) (hexec : env.execErr w.db content = none)
    (hdel : env.deleteErr { w.db with schema := w.db.schema ++ [content] } V.Version = none)
    (hcommit : env.commitErr (revertUnit env w.db V) = none) :
    migrateDown env w dir =
      (none, { db := revertUnit env w.db V, ops := w.ops ++ DbOp.query :: downTx env V,
               out := w.out ++ ["Rolling back migration " ++ V.Version ++ " (" ++ V.Name
                 ++ ")...\n", "Migration " ++ V.Version ++ " rolled back successfully\n"] }) := by
  rw [revertUnit, fileText_of_ok hread] at hcommit
  simp [migrateDown, hms, getAppliedMigrations, hq, hlast, hdown, hread, dbBegin, hbegin,
    txExec, hexec, txDelete, hdel, txCommit, hcommit, World.print, World.issue, revertUnit,
    downTx, fileText_of_ok hread]

/-- Whatever happens, a run of the revert command leaves the database as it was
or exactly one complete revert step further, and issues at most the calls of one
transaction. -/
theorem migrateDown_db (env : Env) (w : World) (dir : String) :
    ((migrateDown env w dir).1 ≠ none ∧ (migrateDown env w dir).2.db = w.db) ∨
    ((migrateDown env w dir).1 = none ∧ (migrateDown env w dir).2.db = w.db ∧
      findLastApplied w.db.ledger (discovered env dir) = none) ∨
    ∃ V, findLastApplied w.db.ledger (discovered env dir) = some V ∧
      V.DownPath ≠ "" ∧
      env.readFile V.DownPath = .ok (fileText env V.DownPath) ∧
      (migrateDown env w dir).1 = none ∧
      (migrateDown env w dir).2.db = revertUnit env w.db V ∧
      (migrateDown env w dir).2.ops = w.ops ++ DbOp.query :: downTx env V := by
  cases hms : getMigrations env dir with
  | error err => left; simp [migrateDown_discovery_failed hms]
  | ok ms =>
    have hd : discovered env dir = ms := by simp [discovered, hms]
    rw [hd]
    cases hq : env.queryErr w.db with
    | some cause => left; simp [migrateDown_query_failed hms hq, World.issue]
    | none =>
      cases hlast : findLastApplied w.db.ledger ms with
      | none =>
        right; left
        simp [migrateDown_nothing hms hq hlast, World.issue, World.print]
      | some V =>
        by_cases hdown : V.DownPath = ""
        · left; simp [migrateDown_missing hms hq hlast hdown, World.issue]
        · cases hread : env.readFile V.DownPath with
          | error cause =>
            left
            simp [migrateDown, hms, getAppliedMigrations, hq, hlast, hdown, hread, World.print,
              World.issue]
          | ok content =>
            cases hbegin : env.beginErr w.db with
            | some cause =>
              left
              simp [migrateDown, hms, getAppliedMigrations, hq, hlast, hdown, hread, dbBegin,
                hbegin, World.print, World.issue]
            | none =>
              cases hexec : env.execErr w.db content with
              | some cause =>
                left
                simp [migrateDown, hms, getAppliedMigrations, hq, hlast, hdown, hread, dbBegin,
                  hbegin, txExec, hexec, txRollback, World.print, World.issue]
              | none =>
                cases hdel : env.deleteErr { w.db with schema := w.db.schema ++ [content] }
                    V.Version with
                | some cause =>
                  left
                  simp [migrateDown, hms, getAppliedMigrations, hq, hlast, hdown, hread,
                    dbBegin, hbegin, txExec, hexec, txDelete, hdel, txRollback, World.print,
                    World.issue]
                | none =>
                  cases hcommit : env.commitErr (revertUnit env w.db V) with
                  | some cause =>
                    left
                    rw [revertUnit, fileText_of_ok hread] at hcommit
                    simp [migrateDown, hms, getAppliedMigrations, hq, hlast, hdown, hread,
                      dbBegin, hbegin, txExec, hexec, txDelete, hdel, txCommit, hcommit,
                      World.print, World.issue]
                  | none =>
                    right; right
                    refine ⟨V, rfl, hdown, by rw [fileText_of_ok hread]; exact hread, ?_⟩
                    rw [migrateDown_committed hms hq hlast hdown hread hbegin hexec hdel hcommit]
                    exact ⟨rfl, rfl, rfl⟩

theorem findLastApplied_eq_none {applied : List String} {ms : List Migration}
    (h : ∀ m ∈ ms, m.Version ∉ applied) : findLastApplied applied ms = none := by
  unfold findLastApplied
  rw [List.find?_eq_none]
  intro m hm
  simpa using h m (List.mem_reverse.mp hm)

theorem findLastApplied_highest {applied : List String} {ms : List Migration} {V : Migration}
    (hasc : Ascending ms) (hV : V ∈ ms) (happ : V.Version ∈ applied)
    (hmax : ∀ m ∈ ms, m.Version ∈ applied → strLess V.Version m.Version = false) :
    findLastApplied applied ms = some V := by
  obtain ⟨pre, post, rfl⟩ := List.append_of_mem hV
  unfold Ascending at hasc
  rw [List.pairwise_append, List.pairwise_cons] at hasc
  obtain ⟨_, ⟨hpost, _⟩, _⟩ := hasc
  unfold findLastApplied
  rw [List.reverse_append, List.reverse_cons, List.append_assoc, List.find?_append]
  have e : post.reverse.find? (fun m => applied.contains m.Version) = none := by
    rw [List.find?_eq_none]
    intro m hm hc
    have hm2 : m ∈ post := List.mem_reverse.mp hm
    have h1 := hpost m hm2
    have h2 := hmax m (by simp [hm2]) (by simpa using hc)
    rw [h1] at h2
    exact absurd h2 (by simp)
  rw [e]
  simp [happ]

/-! ## Status -/

theorem foldl_print (f : Migration → String) (ms : List Migration) :
    ∀ w : World, ms.foldl (fun w m => w.print (f m)) w = { w with out := w.out ++ ms.map f } := by
  induction ms with
  | nil => intro w; simp
  | cons m ms ih => intro w; rw [List.foldl_cons, ih]; simp [World.print]

theorem showStatus_ok {env : Env} {w : World} {dir : String} {ms : List Migration}
    (hms : getMigrations env dir = .ok ms) (hq : env.queryErr w.db = none) :
    showStatus env w dir =
      (none, { db := w.db, ops := w.ops ++ [DbOp.query],
               out := w.out ++ ("\nMigration Status:\n" :: "=================\n" ::
                 (ms.map (statusLine w.db.ledger) ++ ["\n"])) }) := by
  simp only [showStatus, hms, getAppliedMigrations, hq]
  rw [foldl_print]
  simp [World.print, World.issue]

/-- After a successful apply run the database is the initial one advanced by
the complete apply steps of all pending units. -/
theorem migrateUp_ok_ledger {env : Env} {w : World} {dir : String} {ms : List Migration}
    (hms : getMigrations env dir = .ok ms) (hup : (migrateUp env w dir).1 = none) :
    (migrateUp env w dir).2.db = (pending w.db.ledger ms).foldl (applyUnit env) w.db := by
  have hq := query_ok_of_migrateUp_ok hup
  obtain ⟨done, rest, tail, h1, _, h3, _, h5⟩ :=
    migrateUpLoop_spec env w.db.ledger ms (w.issue .query)
  rw [← migrateUp_eq_loop hms hq] at h3 h5
  obtain ⟨hr, _⟩ := h5.of_none hup
  subst hr
  rw [List.append_nil] at h1
  subst h1
  rw [h3]; rfl

/-- After a successful apply run the ledger holds exactly the initial versions
and the discovered versions. -/
theorem migrateUp_ok_ledger_mem (env : Env) (w : World) (dir : String)
    (ms : List Migration) (hms : getMigrations env dir = .ok ms)
    (hup : (migrateUp env w dir).1 = none) :
    ∀ v, v ∈ (migrateUp env w dir).2.db.ledger
      ↔ v ∈ w.db.ledger ∨ v ∈ ms.map Migration.Version := by
  intro v
  rw [migrateUp_ok_ledger hms hup, foldl_applyUnit_ledger, List.mem_append]
  constructor
  · rintro (h | h)
    · exact Or.inl h
    · obtain ⟨m, hm, rfl⟩ := List.mem_map.mp h
      exact Or.inr (List.mem_map_of_mem _ (List.mem_filter.mp hm).1)
  · rintro (h | h)
    · exact Or.inl h
    · by_cases hv : v ∈ w.db.ledger
      · exact Or.inl hv
      · obtain ⟨m, hm, rfl⟩ := List.mem_map.mp h
        exact Or.inr (List.mem_map_of_mem _ (List.mem_filter.mpr ⟨hm, by simpa using hv⟩))

/-! ## The claims about apply, revert and status -/

/-- C1. Schema and ledger change together.  Whatever a run of `migrateUp`
returns, the database it leaves is the initial one advanced by complete apply steps
(`applyUnit`: the script text joins the schema and the version joins the ledger)
of discovered units whose up script was read; whatever a run of `migrateDown`
returns, the database it leaves is the initial one, or the initial one advanced by
one complete revert step (`revertUnit`) of a discovered unit whose down script was
read.  No other state is reachable. -/
theorem schema_and_ledger_change_together (env : Env) (w : World) (dir : String) :
    (∃ done : List Migration,
      (∀ m ∈ done, m ∈ discovered env dir ∧
        env.readFile m.UpPath = .ok (fileText env m.UpPath)) ∧
      (migrateUp env w dir).2.db = done.foldl (applyUnit env) w.db) ∧
    ((migrateDown env w dir).2.db = w.db ∨
      ∃ V, V ∈ discovered env dir ∧
        env.readFile V.DownPath = .ok (fileText env V.DownPath) ∧
        (migrateDown env w dir).2.db = revertUnit env w.db V) := by
  constructor
  · cases hms : getMigrations env dir with
    | error err =>
      exact ⟨[], by simp, by rw [migrateUp_discovery_failed hms]; rfl⟩
    | ok ms =>
      cases hq : env.queryErr w.db with
      | some cause => exact ⟨[], by simp, by rw [migrateUp_query_failed hms hq]; rfl⟩
      | none =>
        obtain ⟨done, rest, tail, h1, h2, h3, _, _⟩ :=
          migrateUpLoop_spec env w.db.ledger ms (w.issue .query)
        refine ⟨done, ?_, by rw [migrateUp_eq_loop hms hq, h3]; rfl⟩
        intro m hm
        refine ⟨?_, (h2 m hm).2⟩
        have hp : m ∈ pending w.db.ledger ms := by rw [h1]; exact List.mem_append_left _ hm
        have hd : discovered env dir = ms := by simp [discovered, hms]
        rw [hd]
        exact (List.mem_filter.mp hp).1
  · rcases migrateDown_db env w dir with h | h | ⟨V, hlast, _, hread, _, hdb, _⟩
    · exact Or.inl h.2
    · exact Or.inl h.2.1
    · exact Or.inr ⟨V, (findLastApplied_mem hlast).1, hread, hdb⟩

/-- C2. With the discovered units `ms` and the applied set loaded at the start
of the run, `migrateUp` works on the pending units (those whose version is not
applied) only, in ascending version order, one transaction per unit: in every run
the database calls are the query followed by the complete transactions of an
initial segment of the pending units and the calls of the unit the run stopped at;
a run that returns success has read and applied every pending unit, so its calls
are exactly the query and one transaction per pending unit in order.  Applied
units are skipped whatever their up script: when every discovered unit is applied
the run succeeds with no call but the query. -/
theorem migrateUp_applies_pending_in_order (env : Env) (w : World) (dir : String)
    (ms : List Migration) (hms : getMigrations env dir = .ok ms)
    (hq : env.queryErr w.db = none) :
    Ascending (pending w.db.ledger ms) ∧
    (∃ done rest tail,
      pending w.db.ledger ms = done ++ rest ∧
      (migrateUp env w dir).2.ops = w.ops ++ DbOp.query :: (done.flatMap (upTx env) ++ tail) ∧
      UpStop env (migrateUp env w dir).1 rest tail) ∧
    ((migrateUp env w dir).1 = none →
      (∀ m ∈ pending w.db.ledger ms,
        m.UpPath ≠ "" ∧ env.readFile m.UpPath = .ok (fileText env m.UpPath)) ∧
      (migrateUp env w dir).2.ops
        = w.ops ++ DbOp.query :: (pending w.db.ledger ms).flatMap (upTx env)) ∧
    ((∀ m ∈ ms, m.Version ∈ w.db.ledger) →
      (migrateUp env w dir).1 = none ∧ (migrateUp env w dir).2.ops = w.ops ++ [DbOp.query]) := by
  obtain ⟨done, rest, tail, h1, h2, _, h4, h5⟩ :=
    migrateUpLoop_spec env w.db.ledger ms (w.issue .query)
  rw [← migrateUp_eq_loop hms hq] at h4 h5
  have hops : (migrateUp env w dir).2.ops
      = w.ops ++ DbOp.query :: (done.flatMap (upTx env) ++ tail) := by
    rw [h4]; simp [World.issue]
  refine ⟨pending_ascending (getMigrations_ascending hms), ⟨done, rest, tail, h1, hops, h5⟩,
    ?_, ?_⟩
  · intro hok
    obtain ⟨hr, ht⟩ := h5.of_none hok
    subst hr ht
    rw [List.append_nil] at h1
    rw [h1]
    exact ⟨h2, by rw [hops]; simp⟩
  · intro hall
    have hp : pending w.db.ledger ms = [] := by
      simp only [pending, List.filter_eq_nil_iff]
      intro m hm
      simp [hall m hm]
    rw [hp] at h1
    have hd : done = [] := (List.append_eq_nil.mp h1.symm).1
    have hr : rest = [] := (List.append_eq_nil.mp h1.symm).2
    subst hd hr
    obtain ⟨he, ht⟩ := h5.of_nil
    subst ht
    exact ⟨he, by rw [hops]; simp⟩

/-- C2 on a directory where unit 000002 has no up script and is already
applied: it is skipped, the run succeeds, and its calls are the query and the one
transaction of unit 000001. -/
theorem migrateUp_applies_pending_in_order_witness :
    getMigrations (reliableEnv noUpFiles) "migrations" = .ok [unit1, unit2NoUp] ∧
    unit2NoUp.UpPath = "" ∧
    pending (worldWithLedger ["000002"]).db.ledger [unit1, unit2NoUp] = [unit1] ∧
    (migrateUp (reliableEnv noUpFiles) (worldWithLedger ["000002"]) "migrations").1 = none ∧
    (migrateUp (reliableEnv noUpFiles) (worldWithLedger ["000002"]) "migrations").2.ops
        = (worldWithLedger ["000002"]).ops ++ DbOp.query ::
          (pending (worldWithLedger ["000002"]).db.ledger [unit1, unit2NoUp]).flatMap
            (upTx (reliableEnv noUpFiles)) :=
  ⟨rfl, rfl, rfl, rfl,
    ((migrateUp_applies_pending_in_order (reliableEnv noUpFiles)
      (worldWithLedger ["000002"]) "migrations" [unit1, unit2NoUp] rfl rfl).2.2.1 rfl).2⟩

/-- C3. For units `ms` discovered in a directory (their versions are distinct
and ascending) and any initial ledger: if `migrateUp` returns success, the ledger
afterwards holds exactly the initial versions and all discovered versions, and
`showStatus` run next on the same discovered units, its query succeeding, returns
success, writes one line per unit in discovery order, every line carrying the
applied mark, and leaves the database alone. -/
theorem up_then_status_all_applied (env env2 : Env) (w : World) (dir : String)
    (ms : List Migration) (hms : getMigrations env dir = .ok ms)
    (hms2 : getMigrations env2 dir = .ok ms)
    (hup : (migrateUp env w dir).1 = none)
    (hq2 : env2.queryErr (migrateUp env w dir).2.db = none) :
    (ms.map Migration.Version).Nodup ∧ Ascending ms ∧
    (migrateUp env w dir).2.db.ledger
      = w.db.ledger ++ (pending w.db.ledger ms).map Migration.Version ∧
    (∀ v, v ∈ (migrateUp env w dir).2.db.ledger
      ↔ v ∈ w.db.ledger ∨ v ∈ ms.map Migration.Version) ∧
    (showStatus env2 (migrateUp env w dir).2 dir).1 = none ∧
    (showStatus env2 (migrateUp env w dir).2 dir).2.out
      = (migrateUp env w dir).2.out ++ ("\nMigration Status:\n" :: "=================\n" ::
          (ms.map (fun m => "[✓] " ++ m.Version ++ " - " ++ m.Name ++ "\n") ++ ["\n"])) ∧
    (showStatus env2 (migrateUp env w dir).2 dir).2.db = (migrateUp env w dir).2.db := by
  have hled : (migrateUp env w dir).2.db.ledger
      = w.db.ledger ++ (pending w.db.ledger ms).map Migration.Version := by
    rw [migrateUp_ok_ledger hms hup, foldl_applyUnit_ledger]
  have hmem := migrateUp_ok_ledger_mem env w dir ms hms hup
  refine ⟨getMigrations_nodup hms, getMigrations_ascending hms, hled, hmem, ?_, ?_, ?_⟩
  · rw [showStatus_ok hms2 hq2]
  · rw [showStatus_ok hms2 hq2]
    have e : ms.map (statusLine (migrateUp env w dir).2.db.ledger)
        = ms.map (fun m => "[✓] " ++ m.Version ++ " - " ++ m.Name ++ "\n") := by
      apply List.map_congr_left
      intro m hm
      have : m.Version ∈ (migrateUp env w dir).2.db.ledger :=
        (hmem _).mpr (Or.inr (List.mem_map_of_mem _ hm))
      simp [statusLine, this]
    simp only [e]
  · rw [showStatus_ok hms2 hq2]

/-- C3 on the scenario directory and a fresh database: both units are applied and
the status lists both with the applied mark. -/
theorem up_then_status_all_applied_witness :
    getMigrations (reliableEnv scenarioFiles) "migrations" = .ok [unit1, unit2] ∧
    (migrateUp (reliableEnv scenarioFiles) freshWorld "migrations").1 = none ∧
    (migrateUp (reliableEnv scenarioFiles) freshWorld "migrations").2.db.ledger
      = [] ++ (pending [] [unit1, unit2]).map Migration.Version ∧
    (showStatus (reliableEnv scenarioFiles)
        (migrateUp (reliableEnv scenarioFiles) freshWorld "migrations").2 "migrations").2.out
      = (migrateUp (reliableEnv scenarioFiles) freshWorld "migrations").2.out ++
          ("\nMigration Status:\n" :: "=================\n" ::
            ([unit1, unit2].map (fun m => "[✓] " ++ m.Version ++ " - " ++ m.Name ++ "\n")
              ++ ["\n"])) :=
  ⟨rfl, rfl,
    (up_then_status_all_applied (reliableEnv scenarioFiles) (reliableEnv scenarioFiles)
      freshWorld "migrations" [unit1, unit2] rfl rfl rfl rfl).2.2.1,
    (up_then_status_all_applied (reliableEnv scenarioFiles) (reliableEnv scenarioFiles)
      freshWorld "migrations" [unit1, unit2] rfl rfl rfl rfl).2.2.2.2.2.1⟩

/-- C4. Fail fast.  Let the discovered units be `pre ++ U :: post` with `U`
pending, its up script read, and let the run reach `U` (the units before it were
applied or skipped without error, leaving the database `db1`) and open its
transaction.  If the execution of the up script of `U` fails, or it succeeds and
the insert of the ledger record of `U` fails, then `migrateUp` returns the
corresponding error for `U`, the last call issued is the rollback right after the
failed call, the database is `db1`: the ledger is the initial ledger followed by
the versions of exactly the pending units below `U`, the version of `U` is not in
it, and no call is issued for any unit after `U`. -/
theorem migrateUp_fail_fast (env : Env) (w : World) (dir : String)
    (pre post : List Migration) (U : Migration) (content cause : String)
    (hms : getMigrations env dir = .ok (pre ++ U :: post))
    (hq : env.queryErr w.db = none)
    (hU : U.Version ∉ w.db.ledger) (hup : U.UpPath ≠ "")
    (hread : env.readFile U.UpPath = .ok content)
    (hpre : (migrateUpLoop env w.db.ledger pre (w.issue .query)).1 = none)
    (hbegin : env.beginErr ((pending w.db.ledger pre).foldl (applyUnit env) w.db) = none)
    (hfail : env.execErr ((pending w.db.ledger pre).foldl (applyUnit env) w.db) content
        = some cause ∨
      (env.execErr ((pending w.db.ledger pre).foldl (applyUnit env) w.db) content = none ∧
        env.insertErr
          (DB.mk (((pending w.db.ledger pre).foldl (applyUnit env) w.db).schema ++ [content])
            ((pending w.db.ledger pre).foldl (applyUnit env) w.db).ledger)
          U.Version = some cause)) :
    (((migrateUp env w dir).1 = some (.exec U.Version cause) ∧
        (migrateUp env w dir).2.ops = w.ops ++ DbOp.query ::
          ((pending w.db.ledger pre).flatMap (upTx env)
            ++ [.begin, .exec content, .rollback])) ∨
      ((migrateUp env w dir).1 = some (.record U.Version cause) ∧
        (migrateUp env w dir).2.ops = w.ops ++ DbOp.query ::
          ((pending w.db.ledger pre).flatMap (upTx env)
            ++ [.begin, .exec content, .insert U.Version, .rollback]))) ∧
    (migrateUp env w dir).2.db = (pending w.db.ledger pre).foldl (applyUnit env) w.db ∧
    (migrateUp env w dir).2.db.ledger
      = w.db.ledger ++ (pending w.db.ledger pre).map Migration.Version ∧
    pending w.db.ledger pre = (pending w.db.ledger (pre ++ U :: post)).filter
      (fun m => strLess m.Version U.Version) ∧
    U.Version ∉ (migrateUp env w dir).2.db.ledger := by
  obtain ⟨done, rest, tail, h1, _, h3, h4, h5⟩ :=
    migrateUpLoop_spec env w.db.ledger pre (w.issue .query)
  obtain ⟨hr, ht⟩ := h5.of_none hpre
  subst hr ht
  rw [List.append_nil] at h1
  subst h1
  have h3b : (migrateUpLoop env w.db.ledger pre (w.issue .query)).2.db
      = (pending w.db.ledger pre).foldl (applyUnit env) w.db := h3
  have h4b : (migrateUpLoop env w.db.ledger pre (w.issue .query)).2.ops
      = w.ops ++ DbOp.query :: (pending w.db.ledger pre).flatMap (upTx env) := by
    rw [h4]; simp [World.issue]
  rw [← h3b] at hbegin hfail
  have hrun : migrateUp env w dir = migrateUpLoop env w.db.ledger (U :: post)
      (migrateUpLoop env w.db.ledger pre (w.issue .query)).2 := by
    rw [migrateUp_eq_loop hms hq, migrateUpLoop_append env _ _ pre _ hpre]
  have hnodup := getMigrations_nodup hms
  have hasc : Ascending (pending w.db.ledger (pre ++ U :: post)) :=
    pending_ascending (getMigrations_ascending hms)
  have hsplit : pending w.db.ledger (pre ++ U :: post)
      = pending w.db.ledger pre ++ U :: pending w.db.ledger post := by
    simp [pending, List.filter_append, hU]
  have hUnot : U.Version ∉ w.db.ledger ++ (pending w.db.ledger pre).map Migration.Version := by
    rw [List.mem_append]
    rintro (h | h)
    · exact hU h
    · obtain ⟨a, ha, hav⟩ := List.mem_map.mp h
      have ha2 : a ∈ pre := (List.mem_filter.mp ha).1
      rw [List.map_append, List.map_cons, List.nodup_append] at hnodup
      exact hnodup.2.2 (List.mem_map_of_mem _ ha2) (by rw [hav]; exact List.mem_cons_self _ _)
  have hfilter : pending w.db.ledger pre = (pending w.db.ledger (pre ++ U :: post)).filter
      (fun m => strLess m.Version U.Version) := by
    rw [hsplit] at hasc ⊢
    exact (filter_less_of_ascending hasc).symm
  have hled : (migrateUpLoop env w.db.ledger pre (w.issue .query)).2.db.ledger
      = w.db.ledger ++ (pending w.db.ledger pre).map Migration.Version := by
    rw [h3b, foldl_applyUnit_ledger]
  rcases hfail with hexec | ⟨hexec, hins⟩
  · rw [hrun, migrateUpLoop_execFailed env post _ hU hup hread hbegin hexec]
    refine ⟨Or.inl ⟨rfl, ?_⟩, h3b, hled, hfilter, by rw [hled]; exact hUnot⟩
    show (migrateUpLoop env w.db.ledger pre (w.issue .query)).2.ops ++ _ = _
    rw [h4b]; simp
  · have hpk : U.Version ∉ (migrateUpLoop env w.db.ledger pre (w.issue .query)).2.db.ledger := by
      rw [hled]; exact hUnot
    have hins2 : (txInsert env
        ⟨{ (migrateUpLoop env w.db.ledger pre (w.issue .query)).2.db with
          schema := (migrateUpLoop env w.db.ledger pre (w.issue .query)).2.db.schema
            ++ [content] }⟩ U.Version
        { db := (migrateUpLoop env w.db.ledger pre (w.issue .query)).2.db,
          ops := (migrateUpLoop env w.db.ledger pre (w.issue .query)).2.ops
            ++ [.begin, .exec content],
          out := (migrateUpLoop env w.db.ledger pre (w.issue .query)).2.out
            ++ ["Applying migration " ++ U.Version ++ " (" ++ U.Name ++ ")...\n"] }).1
        = .error cause := by
      simp [txInsert, hpk, hins]
    rw [hrun, migrateUpLoop_recordFailed env post _ hU hup hread hbegin hexec hins2]
    refine ⟨Or.inr ⟨rfl, ?_⟩, h3b, hled, hfilter, by rw [hled]; exact hUnot⟩
    show (migrateUpLoop env w.db.ledger pre (w.issue .query)).2.ops ++ _ = _
    rw [h4b]; simp

/-- C4 on a database that rejects the up script of unit 000002: unit 000001 stays
applied, unit 000002 is not recorded. -/
theorem migrateUp_fail_fast_witness :
    getMigrations (rejectingEnv pairedFiles "migrations/000002_add_col.up.sql") "migrations"
      = .ok ([unit1] ++ unit2Paired :: []) ∧
    (migrateUp (rejectingEnv pairedFiles "migrations/000002_add_col.up.sql") freshWorld
      "migrations").2.db.ledger
      = freshWorld.db.ledger ++ (pending freshWorld.db.ledger [unit1]).map Migration.Version ∧
    unit2Paired.Version ∉ (migrateUp (rejectingEnv pairedFiles
      "migrations/000002_add_col.up.sql") freshWorld "migrations").2.db.ledger :=
  ⟨rfl,
    (migrateUp_fail_fast (rejectingEnv pairedFiles "migrations/000002_add_col.up.sql")
      freshWorld "migrations" [unit1] [] unit2Paired "-- migrations/000002_add_col.up.sql"
      "syntax error" rfl rfl (by simp [freshWorld]) (by decide) rfl rfl rfl
      (Or.inl rfl)).2.2.1,
    (migrateUp_fail_fast (rejectingEnv pairedFiles "migrations/000002_add_col.up.sql")
      freshWorld "migrations" [unit1] [] unit2Paired "-- migrations/000002_add_col.up.sql"
      "syntax error" rfl rfl (by simp [freshWorld]) (by decide) rfl rfl rfl
      (Or.inl rfl)).2.2.2.2⟩

/-- C5. Let the discovered units be `pre ++ V :: post` where `V` is pending and
has no up script (empty `UpPath`), and let the run reach `V`, the units before it
being applied or skipped without error.  Then `migrateUp` returns the missing-script
error whose text names the version of `V`; it issues no call for `V` or any later
unit (its calls are the query and the transactions of the pending units before
`V`), and the version of `V` is not added to the ledger.  `showStatus` over the
same units, in any state whose ledger lacks that version and answers the query,
returns success and prints the pending line of `V`. -/
theorem migrateUp_missing_up_script (env : Env) (w : World) (dir : String)
    (pre post : List Migration) (V : Migration)
    (hms : getMigrations env dir = .ok (pre ++ V :: post))
    (hq : env.queryErr w.db = none)
    (hV : V.Version ∉ w.db.ledger) (hup : V.UpPath = "")
    (hpre : (migrateUpLoop env w.db.ledger pre (w.issue .query)).1 = none) :
    (migrateUp env w dir).1 = some (.missingUp V.Version) ∧
    (MigrateError.missingUp V.Version).Error
      = "missing up migration file for version " ++ V.Version ∧
    (migrateUp env w dir).2.ops
      = w.ops ++ DbOp.query :: (pending w.db.ledger pre).flatMap (upTx env) ∧
    (migrateUp env w dir).2.db.ledger
      = w.db.ledger ++ (pending w.db.ledger pre).map Migration.Version ∧
    V.Version ∉ (migrateUp env w dir).2.db.ledger ∧
    ∀ w2 : World, env.queryErr w2.db = none → V.Version ∉ w2.db.ledger →
      (showStatus env w2 dir).1 = none ∧
      ("[ ] " ++ V.Version ++ " - " ++ V.Name ++ "\n") ∈ (showStatus env w2 dir).2.out := by
  obtain ⟨done, rest, tail, h1, _, h3, h4, h5⟩ :=
    migrateUpLoop_spec env w.db.ledger pre (w.issue .query)
  obtain ⟨hr, ht⟩ := h5.of_none hpre
  subst hr ht
  rw [List.append_nil] at h1
  subst h1
  have hrun : migrateUp env w dir = (some (.missingUp V.Version),
      (migrateUpLoop env w.db.ledger pre (w.issue .query)).2) := by
    rw [migrateUp_eq_loop hms hq, migrateUpLoop_append env _ _ pre _ hpre,
      migrateUpLoop_missing env post _ hV hup]
  have hled : (migrateUp env w dir).2.db.ledger
      = w.db.ledger ++ (pending w.db.ledger pre).map Migration.Version := by
    rw [hrun]
    show (migrateUpLoop env w.db.ledger pre (w.issue .query)).2.db.ledger = _
    rw [h3, foldl_applyUnit_ledger]; rfl
  have hnodup := getMigrations_nodup hms
  refine ⟨by rw [hrun], rfl, ?_, hled, ?_, ?_⟩
  · rw [hrun]
    show (migrateUpLoop env w.db.ledger pre (w.issue .query)).2.ops = _
    rw [h4]; simp [World.issue]
  · rw [hled, List.mem_append]
    rintro (h | h)
    · exact hV h
    · obtain ⟨a, ha, hav⟩ := List.mem_map.mp h
      have ha2 : a ∈ pre := (List.mem_filter.mp ha).1
      rw [List.map_append, List.map_cons, List.nodup_append] at hnodup
      exact hnodup.2.2 (List.mem_map_of_mem _ ha2) (by rw [hav]; exact List.mem_cons_self _ _)
  · intro w2 hq2 hV2
    rw [showStatus_ok hms hq2]
    refine ⟨rfl, ?_⟩
    have : statusLine w2.db.ledger V = "[ ] " ++ V.Version ++ " - " ++ V.Name ++ "\n" := by
      simp [statusLine, hV2]
    simp [← this]

/-- C5 on a directory where unit 000002 has a down script only: the run applies
unit 000001 and then fails naming 000002. -/
theorem migrateUp_missing_up_script_witness :
    getMigrations (reliableEnv noUpFiles) "migrations" = .ok ([unit1] ++ unit2NoUp :: []) ∧
    (migrateUp (reliableEnv noUpFiles) freshWorld "migrations").1
      = some (.missingUp unit2NoUp.Version) ∧
    (migrateUp (reliableEnv noUpFiles) freshWorld "migrations").2.db.ledger
      = [] ++ (pending [] [unit1]).map Migration.Version :=
  ⟨rfl,
    (migrateUp_missing_up_script (reliableEnv noUpFiles) freshWorld "migrations" [unit1] []
      unit2NoUp rfl rfl (by simp [freshWorld]) rfl rfl).1,
    (migrateUp_missing_up_script (reliableEnv noUpFiles) freshWorld "migrations" [unit1] []
      unit2NoUp rfl rfl (by simp [freshWorld]) rfl rfl).2.2.2.1⟩

/-- C6. Let `V` be the discovered unit of highest version among those whose
version is in the applied set, let it have a down script, and let that script
execute successfully (the file is read and the calls of its transaction succeed).
Then `migrateDown` returns success, its calls are the query and the one
transaction of `V` (no other script is executed), the schema gains the down script
of `V` only, and the ledger afterwards is the ledger before without the version of
`V`: that version is gone and every other entry is unchanged. -/
theorem migrateDown_reverts_highest_applied (env : Env) (w : World) (dir : String)
    (ms : List Migration) (V : Migration) (content : String)
    (hms : getMigrations env dir = .ok ms) (hq : env.queryErr w.db = none)
    (hV : V ∈ ms) (happ : V.Version ∈ w.db.ledger)
    (hmax : ∀ m ∈ ms, m.Version ∈ w.db.ledger → strLess V.Version m.Version = false)
    (hdown : V.DownPath ≠ "") (hread : env.readFile V.DownPath = .ok content)
    (hbegin : env.beginErr w.db = none) (hexec : env.execErr w.db content = none)
    (hdel : env.deleteErr (DB.mk (w.db.schema ++ [content]) w.db.ledger) V.Version = none)
    (hcommit : env.commitErr (DB.mk (w.db.schema ++ [content])
      (w.db.ledger.filter (fun v => v != V.Version))) = none) :
    (migrateDown env w dir).1 = none ∧
    (migrateDown env w dir).2.ops
      = w.ops ++ [.query, .begin, .exec content, .delete V.Version, .commit] ∧
    (migrateDown env w dir).2.db.schema = w.db.schema ++ [content] ∧
    (migrateDown env w dir).2.db.ledger = w.db.ledger.filter (fun v => v != V.Version) ∧
    V.Version ∉ (migrateDown env w dir).2.db.ledger ∧
    ∀ v, v ≠ V.Version → (v ∈ (migrateDown env w dir).2.db.ledger ↔ v ∈ w.db.ledger) := by
  have hlast := findLastApplied_highest (getMigrations_ascending hms) hV happ hmax
  have hcommit2 : env.commitErr (revertUnit env w.db V) = none := by
    rw [revertUnit, fileText_of_ok hread]; exact hcommit
  rw [migrateDown_committed hms hq hlast hdown hread hbegin hexec hdel hcommit2]
  refine ⟨rfl, ?_, ?_, rfl, ?_, ?_⟩
  · simp [downTx, fileText_of_ok hread]
  · simp [revertUnit, fileText_of_ok hread]
  · simp [revertUnit]
  · intro v hv
    simp [revertUnit, hv]

/-- C6 on a directory with two complete units, both applied: the revert runs the
down script of unit 000002 only and removes its version only. -/
theorem migrateDown_reverts_highest_applied_witness :
    getMigrations (reliableEnv pairedFiles) "migrations" = .ok [unit1, unit2Paired] ∧
    (migrateDown (reliableEnv pairedFiles) (worldWithLedger ["000001", "000002"])
      "migrations").2.ops
      = [] ++ [.query, .begin, .exec "-- migrations/000002_add_col.down.sql",
          .delete unit2Paired.Version, .commit] ∧
    (migrateDown (reliableEnv pairedFiles) (worldWithLedger ["000001", "000002"])
      "migrations").2.db.ledger
      = (["000001", "000002"] : List String).filter (fun v => v != unit2Paired.Version) :=
  ⟨rfl,
    (migrateDown_reverts_highest_applied (reliableEnv pairedFiles)
      (worldWithLedger ["000001", "000002"]) "migrations" [unit1, unit2Paired] unit2Paired
      "-- migrations/000002_add_col.down.sql" rfl rfl (by simp) (by decide) (by decide)
      (by decide) rfl rfl rfl rfl rfl).2.1,
    (migrateDown_reverts_highest_applied (reliableEnv pairedFiles)
      (worldWithLedger ["000001", "000002"]) "migrations" [unit1, unit2Paired] unit2Paired
      "-- migrations/000002_add_col.down.sql" rfl rfl (by simp) (by decide) (by decide)
      (by decide) rfl rfl rfl rfl rfl).2.2.2.1⟩

/-- C7. Let `V` be the discovered unit of highest version among those whose
version is in the applied set, and let it have no down script (empty `DownPath`).
Then `migrateDown` returns the missing-script error whose text names the version
of `V`, issues no call but the query (no transaction is opened) and leaves the
database, hence the ledger, unchanged, whatever lower applied units exist. -/
theorem migrateDown_missing_down_script (env : Env) (w : World) (dir : String)
    (ms : List Migration) (V : Migration)
    (hms : getMigrations env dir = .ok ms) (hq : env.queryErr w.db = none)
    (hV : V ∈ ms) (happ : V.Version ∈ w.db.ledger)
    (hmax : ∀ m ∈ ms, m.Version ∈ w.db.ledger → strLess V.Version m.Version = false)
    (hdown : V.DownPath = "") :
    (migrateDown env w dir).1 = some (.missingDown V.Version) ∧
    (MigrateError.missingDown V.Version).Error
      = "missing down migration file for version " ++ V.Version ∧
    (migrateDown env w dir).2.ops = w.ops ++ [.query] ∧
    (migrateDown env w dir).2.db = w.db := by
  have hlast := findLastApplied_highest (getMigrations_ascending hms) hV happ hmax
  rw [migrateDown_missing hms hq hlast hdown]
  exact ⟨rfl, rfl, rfl, rfl⟩

/-- C7 on the scenario of the specification: units 000001 (up and down) and 000002
(up only) are both applied; the revert fails naming 000002, opens no transaction
and leaves both versions in the ledger. -/
theorem migrateDown_missing_down_script_witness :
    getMigrations (reliableEnv scenarioFiles) "migrations" = .ok [unit1, unit2] ∧
    unit1.DownPath ≠ "" ∧
    (migrateDown (reliableEnv scenarioFiles) (worldWithLedger ["000001", "000002"])
      "migrations").1 = some (.missingDown "000002") ∧
    (MigrateError.missingDown "000002").Error
      = "missing down migration file for version " ++ "000002" ∧
    (migrateDown (reliableEnv scenarioFiles) (worldWithLedger ["000001", "000002"])
      "migrations").2.ops = [] ++ [.query] ∧
    (migrateDown (reliableEnv scenarioFiles) (worldWithLedger ["000001", "000002"])
      "migrations").2.db = (worldWithLedger ["000001", "000002"]).db :=
  ⟨rfl, by decide,
    migrateDown_missing_down_script (reliableEnv scenarioFiles)
      (worldWithLedger ["000001", "000002"]) "migrations" [unit1, unit2] unit2 rfl rfl
      (by simp) (by decide) (by decide) rfl⟩

/-- C8. When no discovered unit has its version in the applied set, in
particular when the applied set is empty, `migrateDown` returns success, issues no
call but the query (no script, no transaction) and leaves the database, hence the
ledger, unchanged. -/
theorem migrateDown_nothing_to_revert (env : Env) (w : World) (dir : String)
    (ms : List Migration)
    (hms : getMigrations env dir = .ok ms) (hq : env.queryErr w.db = none)
    (hnone : ∀ m ∈ ms, m.Version ∉ w.db.ledger) :
    (migrateDown env w dir).1 = none ∧
    (migrateDown env w dir).2.ops = w.ops ++ [.query] ∧
    (migrateDown env w dir).2.db = w.db := by
  rw [migrateDown_nothing hms hq (findLastApplied_eq_none hnone)]
  exact ⟨rfl, rfl, rfl⟩

/-- C8 on the scenario directory and an empty ledger. -/
theorem migrateDown_nothing_to_revert_witness :
    getMigrations (reliableEnv scenarioFiles) "migrations" = .ok [unit1, unit2] ∧
    (migrateDown (reliableEnv scenarioFiles) freshWorld "migrations").1 = none ∧
    (migrateDown (reliableEnv scenarioFiles) freshWorld "migrations").2.ops
      = freshWorld.ops ++ [.query] ∧
    (migrateDown (reliableEnv scenarioFiles) freshWorld "migrations").2.db = freshWorld.db :=
  ⟨rfl,
    migrateDown_nothing_to_revert (reliableEnv scenarioFiles) freshWorld "migrations"
      [unit1, unit2] rfl rfl (by simp [freshWorld])⟩

/-- C9. Idempotence of up.  After a `migrateUp` that returned success, a second
`migrateUp` over the same discovered units issues no call but the query (no
transaction, no script), leaves the database, hence the ledger, unchanged, and
returns success as soon as its query of the ledger succeeds. -/
theorem migrateUp_idempotent (env env2 : Env) (w : World) (dir : String)
    (ms : List Migration) (hms : getMigrations env dir = .ok ms)
    (hms2 : getMigrations env2 dir = .ok ms)
    (hup : (migrateUp env w dir).1 = none) :
    (migrateUp env2 (migrateUp env w dir).2 dir).2.ops
      = (migrateUp env w dir).2.ops ++ [.query] ∧
    (migrateUp env2 (migrateUp env w dir).2 dir).2.db = (migrateUp env w dir).2.db ∧
    (env2.queryErr (migrateUp env w dir).2.db = none →
      (migrateUp env2 (migrateUp env w dir).2 dir).1 = none) := by
  have hall : ∀ m ∈ ms, m.Version ∈ (migrateUp env w dir).2.db.ledger := fun m hm =>
    ((migrateUp_ok_ledger_mem env w dir ms hms hup) m.Version).mpr
      (Or.inr (List.mem_map_of_mem _ hm))
  cases hq2 : env2.queryErr (migrateUp env w dir).2.db with
  | some cause =>
    rw [migrateUp_query_failed hms2 hq2]
    exact ⟨rfl, rfl, fun h => absurd h (by simp)⟩
  | none =>
    obtain ⟨done, rest, tail, h1, _, h3, h4, h5⟩ :=
      migrateUpLoop_spec env2 (migrateUp env w dir).2.db.ledger ms
        ((migrateUp env w dir).2.issue .query)
    rw [← migrateUp_eq_loop hms2 hq2] at h3 h4 h5
    have hp : pending (migrateUp env w dir).2.db.ledger ms = [] := by
      simp only [pending, List.filter_eq_nil_iff]
      intro m hm
      simp [hall m hm]
    rw [hp] at h1
    have hd : done = [] := (List.append_eq_nil.mp h1.symm).1
    have hr : rest = [] := (List.append_eq_nil.mp h1.symm).2
    subst hd hr
    obtain ⟨he, ht⟩ := h5.of_nil
    subst ht
    refine ⟨by rw [h4]; simp [World.issue], by rw [h3]; rfl, fun _ => he⟩

/-- C9 on the scenario directory: a second run after a successful one issues the
query only and succeeds. -/
theorem migrateUp_idempotent_witness :
    (migrateUp (reliableEnv scenarioFiles) freshWorld "migrations").1 = none ∧
    (migrateUp (reliableEnv scenarioFiles)
      (migrateUp (reliableEnv scenarioFiles) freshWorld "migrations").2 "migrations").2.ops
      = (migrateUp (reliableEnv scenarioFiles) freshWorld "migrations").2.ops ++ [.query] ∧
    (migrateUp (reliableEnv scenarioFiles)
      (migrateUp (reliableEnv scenarioFiles) freshWorld "migrations").2 "migrations").1 = none :=
  ⟨rfl,
    (migrateUp_idempotent (reliableEnv scenarioFiles) (reliableEnv scenarioFiles) freshWorld
      "migrations" [unit1, unit2] rfl rfl rfl).1,
    (migrateUp_idempotent (reliableEnv scenarioFiles) (reliableEnv scenarioFiles) freshWorld
      "migrations" [unit1, unit2] rfl rfl rfl).2.2 rfl⟩

/-- C10, as stated, fails.  Units 000001 and 000002 are discovered, both with
up and down scripts, and the ledger holds 000002 only, so 000001 is the only
pending unit.  `migrateUp` applies 000001 and succeeds, `migrateDown` then succeeds
too, but it reverts 000002, the highest applied version: the ledger ends as
000001 alone, not as it was before the apply. -/
theorem round_trip_counterexample :
    getMigrations (reliableEnv pairedFiles) "migrations" = .ok [unit1, unit2Paired] ∧
    pending (worldWithLedger ["000002"]).db.ledger [unit1, unit2Paired] = [unit1] ∧
    (migrateUp (reliableEnv pairedFiles) (worldWithLedger ["000002"]) "migrations").1 = none ∧
    (migrateDown (reliableEnv pairedFiles)
      (migrateUp (reliableEnv pairedFiles) (worldWithLedger ["000002"]) "migrations").2
      "migrations").1 = none ∧
    (migrateDown (reliableEnv pairedFiles)
      (migrateUp (reliableEnv pairedFiles) (worldWithLedger ["000002"]) "migrations").2
      "migrations").2.db.ledger = ["000001"] ∧
    unit1.Version ∈ (migrateDown (reliableEnv pairedFiles)
      (migrateUp (reliableEnv pairedFiles) (worldWithLedger ["000002"]) "migrations").2
      "migrations").2.db.ledger ∧
    (migrateDown (reliableEnv pairedFiles)
      (migrateUp (reliableEnv pairedFiles) (worldWithLedger ["000002"]) "migrations").2
      "migrations").2.db.ledger ≠ (worldWithLedger ["000002"]).db.ledger :=
  ⟨rfl, rfl, rfl, rfl, rfl, by decide, by decide⟩

/-- C10, amended.  For every initial ledger and discovered sequence in which
`V` is the only pending unit and no discovered unit has a higher version than `V`,
a successful `migrateUp` (which applies `V`) followed by a successful `migrateDown`
reverts `V`: the ledger is again the ledger before the apply, with the version of
`V` absent and every other entry as before, and the schema gained the up script
and then the down script of `V`. -/
theorem round_trip_of_highest (env env2 : Env) (w : World) (dir : String)
    (ms : List Migration) (V : Migration)
    (hms : getMigrations env dir = .ok ms) (hms2 : getMigrations env2 dir = .ok ms)
    (hpend : pending w.db.ledger ms = [V])
    (hmax : ∀ m ∈ ms, strLess V.Version m.Version = false)
    (hup : (migrateUp env w dir).1 = none)
    (hdown : (migrateDown env2 (migrateUp env w dir).2 dir).1 = none) :
    (migrateUp env w dir).2.db.ledger = w.db.ledger ++ [V.Version] ∧
    (migrateDown env2 (migrateUp env w dir).2 dir).2.db.ledger = w.db.ledger ∧
    V.Version ∉ (migrateDown env2 (migrateUp env w dir).2 dir).2.db.ledger ∧
    (migrateDown env2 (migrateUp env w dir).2 dir).2.db.schema
      = w.db.schema ++ [fileText env V.UpPath, fileText env2 V.DownPath] := by
  have hVp : V ∈ pending w.db.ledger ms := by rw [hpend]; exact List.mem_singleton.mpr rfl
  have hV : V ∈ ms := (List.mem_filter.mp hVp).1
  have hVnew : V.Version ∉ w.db.ledger := by simpa using (List.mem_filter.mp hVp).2
  have hdb : (migrateUp env w dir).2.db = applyUnit env w.db V := by
    rw [migrateUp_ok_ledger hms hup, hpend]; rfl
  have hlast : findLastApplied (migrateUp env w dir).2.db.ledger ms = some V :=
    findLastApplied_highest (getMigrations_ascending hms) hV (by simp [hdb, applyUnit])
      (fun m hm _ => hmax m hm)
  have hd : discovered env2 dir = ms := by simp [discovered, hms2]
  have hfilter : (w.db.ledger ++ [V.Version]).filter (fun v => v != V.Version) = w.db.ledger := by
    rw [List.filter_append]
    have e1 : w.db.ledger.filter (fun v => v != V.Version) = w.db.ledger := by
      rw [List.filter_eq_self]
      intro a ha
      have : a ≠ V.Version := fun h => hVnew (h ▸ ha)
      simpa using this
    rw [e1]
    simp
  rcases migrateDown_db env2 (migrateUp env w dir).2 dir with h | h | ⟨V2, hl, _, _, _, hdb2, _⟩
  · exact absurd hdown h.1
  · rw [hd, hlast] at h
    exact absurd h.2.2 (by simp)
  · rw [hd, hlast] at hl
    simp only [Option.some.injEq] at hl
    subst hl
    have hled : (migrateDown env2 (migrateUp env w dir).2 dir).2.db.ledger = w.db.ledger := by
      rw [hdb2, hdb]
      exact hfilter
    refine ⟨by rw [hdb]; rfl, hled, by rw [hled]; exact hVnew, ?_⟩
    rw [hdb2, hdb]
    simp [revertUnit, applyUnit]

/-- C10, amended, on a directory with two complete units of which 000001 is
applied: applying and reverting 000002 restores the ledger. -/
theorem round_trip_of_highest_witness :
    pending (worldWithLedger ["000001"]).db.ledger [unit1, unit2Paired] = [unit2Paired] ∧
    (migrateUp (reliableEnv pairedFiles) (worldWithLedger ["000001"]) "migrations").2.db.ledger
      = (worldWithLedger ["000001"]).db.ledger ++ [unit2Paired.Version] ∧
    (migrateDown (reliableEnv pairedFiles)
      (migrateUp (reliableEnv pairedFiles) (worldWithLedger ["000001"]) "migrations").2
      "migrations").2.db.ledger = (worldWithLedger ["000001"]).db.ledger :=
  ⟨rfl,
    (round_trip_of_highest (reliableEnv pairedFiles) (reliableEnv pairedFiles)
      (worldWithLedger ["000001"]) "migrations" [unit1, unit2Paired] unit2Paired rfl rfl rfl
      (by decide) rfl rfl).1,
    (round_trip_of_highest (reliableEnv pairedFiles) (reliableEnv pairedFiles)
      (worldWithLedger ["000001"]) "migrations" [unit1, unit2Paired] unit2Paired rfl rfl rfl
      (by decide) rfl rfl).2.1⟩

/-! ## Discovery, entry by entry -/

theorem MigrationsMap.update_id (m : MigrationsMap) (v : String) (f : Migration → Migration)
    (hf : ∀ x, f x = x) : m.update v f = m := by
  unfold MigrationsMap.update
  conv_rhs => rw [← List.map_id m]
  apply List.map_congr_left
  intro kv _
  by_cases h : (kv.1 == v) = true <;> simp [h, hf]

theorem scanFile_eq (dir : String) (m : MigrationsMap) (f : DirEntry) :
    scanFile dir m f =
      if f.isScript then
        MigrationsMap.update
          (if m.has f.version then m else m ++ [(f.version, f.newUnit)])
          f.version (fillSlot dir f)
      else m := by
  unfold scanFile DirEntry.isScript
  by_cases hdir : f.IsDir = true
  · simp [hdir]
  · by_cases hsql : strings.HasSuffix f.Name ".sql" = true
    · by_cases hlen : (strings.Split f.Name '_').length < 2
      · have : ¬ 2 ≤ (strings.Split f.Name '_').length := by omega
        simp [hdir, hsql, hlen, this]
      · have h2 : 2 ≤ (strings.Split f.Name '_').length := by omega
        simp only [hdir, hsql, hlen, h2, Bool.not_true, Bool.false_eq_true, if_false,
          Bool.not_false, Bool.true_and, decide_True, if_true, Bool.and_self]
        have hset : (if (!m.has ((strings.Split f.Name '_').headD "")) = true then
              m.set ((strings.Split f.Name '_').headD "")
                { Version := (strings.Split f.Name '_').headD "",
                  Name := strings.TrimSuffix (strings.TrimSuffix
                    (strings.Join ((strings.Split f.Name '_').drop 1) "_") ".up.sql") ".down.sql",
                  UpPath := "", DownPath := "" }
            else m) =
            (if m.has f.version then m else m ++ [(f.version, f.newUnit)]) := by
          unfold DirEntry.newUnit DirEntry.version DirEntry.migrationName MigrationsMap.set
          cases hh : m.has ((strings.Split f.Name '_').headD "") <;> simp
        rw [hset]
        have hfill : fillSlot dir f =
            (if strings.Contains f.Name ".up.sql" = true then
              fun x : Migration => { x with UpPath := filepath.Join dir f.Name }
            else if strings.Contains f.Name ".down.sql" = true then
              fun x : Migration => { x with DownPath := filepath.Join dir f.Name }
            else fun x => x) := by
          funext x
          unfold fillSlot DirEntry.fillsUp DirEntry.fillsDown
          cases strings.Contains f.Name ".up.sql" <;>
            cases strings.Contains f.Name ".down.sql" <;> simp
        rw [hfill]
        show _ = MigrationsMap.update _ ((strings.Split f.Name '_').headD "") _
        cases strings.Contains f.Name ".up.sql"
        · cases strings.Contains f.Name ".down.sql"
          · simp only [Bool.false_eq_true, if_false]
            rw [MigrationsMap.update_id _ _ _ (fun _ => rfl)]
          · simp only [Bool.false_eq_true, if_false, if_true]
        · simp only [if_true]
    · simp [hdir, hsql]

theorem MigrationsMap.lookup_update (m : MigrationsMap) (k v : String)
    (g : Migration → Migration) :
    List.lookup v (MigrationsMap.update m k g)
      = if v = k then (List.lookup v m).map g else List.lookup v m := by
  induction m with
  | nil => simp [MigrationsMap.update]
  | cons kv m ih =>
    obtain ⟨k2, x⟩ := kv
    unfold MigrationsMap.update at ih ⊢
    by_cases h1 : k2 = k
    · subst h1
      by_cases h2 : v = k2
      · subst h2
        simp [List.lookup_cons]
      · have h3 : (v == k2) = false := by simpa using h2
        simp only [List.map_cons, beq_self_eq_true, if_true, List.lookup_cons, h3, h2, if_false]
        rw [ih]
        simp [h2]
    · have h3 : (k2 == k) = false := by simpa using h1
      by_cases h2 : v = k2
      · subst h2
        simp [List.lookup_cons, h3, h1]
      · have h4 : (v == k2) = false := by simpa using h2
        simp only [List.map_cons, h3, Bool.false_eq_true, if_false, List.lookup_cons, h4]
        rw [ih]

theorem MigrationsMap.has_eq_lookup (m : MigrationsMap) (k : String) :
    m.has k = (List.lookup k m).isSome := by
  induction m with
  | nil => simp [MigrationsMap.has]
  | cons kv m ih =>
    obtain ⟨k2, x⟩ := kv
    unfold MigrationsMap.has at ih ⊢
    by_cases h : k = k2
    · subst h
      simp [List.lookup_cons]
    · have h2 : (k == k2) = false := by simpa using h
      have h3 : (k2 == k) = false := by simpa using fun e : k2 = k => h e.symm
      simp only [List.any_cons, h3, Bool.false_or, List.lookup_cons, h2]
      exact ih

/-- The unit stored for version `v` after one more entry. -/
theorem scanFile_lookup (dir : String) (m : MigrationsMap) (f : DirEntry) (v : String) :
    List.lookup v (scanFile dir m f) = stepUnit dir v (List.lookup v m) f := by
  rw [scanFile_eq]
  unfold stepUnit
  by_cases hs : f.isScript = true
  · simp only [hs, if_true, Bool.true_and, beq_iff_eq]
    rw [MigrationsMap.lookup_update]
    by_cases hv : v = f.version
    · subst hv
      simp only [if_true]
      cases hh : m.has f.version
      · have hnone : List.lookup f.version m = none := by
          rw [MigrationsMap.has_eq_lookup] at hh
          cases hl : List.lookup f.version m with
          | none => rfl
          | some x => rw [hl] at hh; exact absurd hh (by simp)
        simp [List.lookup_append, hnone]
      · rw [MigrationsMap.has_eq_lookup] at hh
        cases hl : List.lookup f.version m with
        | none => rw [hl] at hh; exact absurd hh (by simp)
        | some x => simp [hl]
    · have hv2 : ¬ f.version = v := fun e => hv e.symm
      simp only [hv, hv2, if_false]
      cases hh : m.has f.version
      · have h4 : (v == f.version) = false := by simpa using hv
        simp [List.lookup_append, List.lookup_cons, h4]
      · simp
  · simp [hs]

theorem foldl_scanFile_lookup (dir : String) (v : String) (files : List DirEntry) :
    ∀ m : MigrationsMap,
      List.lookup v (files.foldl (scanFile dir) m)
        = files.foldl (stepUnit dir v) (List.lookup v m) := by
  induction files with
  | nil => intro m; rfl
  | cons f fs ih =>
    intro m
    rw [List.foldl_cons, List.foldl_cons, ih, scanFile_lookup]

theorem lastPath_snoc (dir : String) (l : List DirEntry) (a : DirEntry) (p : DirEntry → Bool) :
    lastPath dir (l ++ [a]) p = if p a then filepath.Join dir a.Name else lastPath dir l p := by
  unfold lastPath
  rw [List.reverse_append, List.reverse_singleton, List.singleton_append, List.find?_cons]
  cases p a <;> simp

theorem lastPath_eq_empty (dir : String) (l : List DirEntry) (p : DirEntry → Bool)
    (h : ∀ x ∈ l, p x = false) : lastPath dir l p = "" := by
  unfold lastPath
  have : l.reverse.find? p = none := by
    rw [List.find?_eq_none]
    intro x hx
    simp [h x (List.mem_reverse.mp hx)]
  rw [this]

theorem unitFor_snoc (dir v : String) (l : List DirEntry) (a : DirEntry) :
    unitFor dir (l ++ [a]) v = stepUnit dir v (unitFor dir l v) a := by
  unfold stepUnit
  cases hP : (a.isScript && a.version == v)
  · -- the entry does not belong to version `v`
    simp only [Bool.false_eq_true, if_false]
    unfold unitFor
    have h1 : (l ++ [a]).find? (fun f => f.isScript && f.version == v)
        = l.find? (fun f => f.isScript && f.version == v) := by
      rw [List.find?_append]
      simp [List.find?_cons, hP]
    rw [h1, lastPath_snoc, lastPath_snoc]
    simp [hP]
  · simp only [if_true]
    have hv : a.version = v := by
      simp only [Bool.and_eq_true, beq_iff_eq] at hP
      exact hP.2
    unfold unitFor
    rw [List.find?_append, lastPath_snoc, lastPath_snoc]
    simp only [hP, Bool.true_and]
    cases hfirst : l.find? (fun f => f.isScript && f.version == v) with
    | some first =>
      simp only [Option.or_some, Option.getD_some]
      unfold fillSlot DirEntry.fillsDown
      cases hup : a.fillsUp
      · unfold DirEntry.fillsUp at hup
        cases hdown : strings.Contains a.Name ".down.sql" <;> simp [hup, hdown]
      · unfold DirEntry.fillsUp at hup
        simp [hup]
    | none =>
      have hno : ∀ x ∈ l, (x.isScript && x.version == v) = false := by
        intro x hx
        have := List.find?_eq_none.mp hfirst x hx
        simpa using this
      have e1 : lastPath dir l (fun f => f.isScript && f.version == v && f.fillsUp) = "" :=
        lastPath_eq_empty dir l _ (fun x hx => by simp [hno x hx])
      have e2 : lastPath dir l (fun f => f.isScript && f.version == v && f.fillsDown) = "" :=
        lastPath_eq_empty dir l _ (fun x hx => by simp [hno x hx])
      simp only [Option.none_or, List.find?_cons, hP, Option.getD_none, e1, e2]
      unfold fillSlot DirEntry.newUnit DirEntry.fillsDown
      cases hup : a.fillsUp
      · unfold DirEntry.fillsUp at hup
        cases hdown : strings.Contains a.Name ".down.sql" <;> simp [hup, hdown, hv]
      · unfold DirEntry.fillsUp at hup
        simp [hup, hv]

/-- The closed form of the per-version fold. -/
theorem foldl_stepUnit (dir v : String) (files : List DirEntry) :
    files.foldl (stepUnit dir v) none = unitFor dir files v := by
  induction files using List.reverseRecOn with
  | nil => rfl
  | append_singleton l a ih => rw [List.foldl_append, List.foldl_cons, List.foldl_nil, ih, unitFor_snoc]

/-- The unit stored for version `v` by the loop over a whole listing. -/
theorem foldl_scanFile_unitFor (dir v : String) (files : List DirEntry) :
    List.lookup v (files.foldl (scanFile dir) []) = unitFor dir files v := by
  rw [foldl_scanFile_lookup, List.lookup_nil, foldl_stepUnit]

theorem MigrationsMap.WF.mem_values_iff {m : MigrationsMap} (h : m.WF) (x : Migration) :
    x ∈ m.map Prod.snd ↔ List.lookup x.Version m = some x := by
  constructor
  · intro hx
    obtain ⟨kv, hkv, rfl⟩ := List.mem_map.mp hx
    have hk : kv.2.Version = kv.1 := h.2 kv hkv
    rw [hk]
    obtain ⟨l₁, l₂, hl⟩ := List.append_of_mem hkv
    rw [List.lookup_eq_some_iff]
    refine ⟨l₁, l₂, hl, ?_⟩
    intro p hp
    have hn := h.1
    rw [hl, List.map_append, List.map_cons, List.nodup_append] at hn
    have : p.1 ≠ kv.1 := fun e =>
      hn.2.2 (List.mem_map_of_mem Prod.fst hp) (by rw [e]; exact List.mem_cons_self _ _)
    simpa using fun e : kv.1 = p.1 => this e.symm
  · intro hx
    rw [List.lookup_eq_some_iff] at hx
    obtain ⟨l₁, l₂, hl, _⟩ := hx
    rw [hl]
    simp

/-- Membership in the result of discovery, in closed form. -/
theorem getMigrations_mem_iff {env : Env} {dir : String} {files : List DirEntry}
    {ms : List Migration} (hread : env.readDir dir = .ok files)
    (hms : getMigrations env dir = .ok ms) (x : Migration) :
    x ∈ ms ↔ unitFor dir files x.Version = some x := by
  unfold getMigrations at hms
  rw [hread] at hms
  simp only [Except.ok.injEq] at hms
  subst hms
  have hwf := foldl_scanFile_WF dir files [] ⟨List.nodup_nil, by simp⟩
  rw [(sortSlice_perm _).mem_iff, (env.mapOrder_perm _).mem_iff, hwf.mem_values_iff,
    foldl_scanFile_unitFor]

theorem getMigrations_of_readDir {env : Env} {dir : String} {files : List DirEntry}
    (hread : env.readDir dir = .ok files) :
    getMigrations env dir
      = .ok (sortSlice (env.mapOrder ((files.foldl (scanFile dir) []).map Prod.snd))) := by
  simp [getMigrations, hread]

/-- Two ascending sequences with the same members are equal. -/
theorem ascending_ext {l₁ l₂ : List Migration} (h₁ : Ascending l₁) (h₂ : Ascending l₂)
    (hmem : ∀ x, x ∈ l₁ ↔ x ∈ l₂) : l₁ = l₂ := by
  have hirr : ∀ a : Migration, ¬ strLess a.Version a.Version = true := by
    intro a; rw [strLess_irrefl]; simp
  have hne : ∀ {a b : Migration}, strLess a.Version b.Version = true → a ≠ b := by
    intro a b hab e
    subst e
    exact hirr a hab
  have n₁ : l₁.Nodup := List.Pairwise.imp hne h₁
  have n₂ : l₂.Nodup := List.Pairwise.imp hne h₂
  have hp : l₁.Perm l₂ := (List.perm_ext_iff_of_nodup n₁ n₂).mpr hmem
  exact @List.eq_of_perm_of_sorted _ (fun a b : Migration => strLess a.Version b.Version = true)
    ⟨fun a b hab hba => by rw [strLess_asymm hab] at hba; exact absurd hba (by simp)⟩
    _ _ hp h₁ h₂

/-! ## Order independence -/

theorem find?_map_congr {α β : Type} (p : α → Bool) (φ : α → β) (l₁ l₂ : List α)
    (hmem : ∀ x, x ∈ l₁ ↔ x ∈ l₂)
    (huniq : ∀ x ∈ l₁, ∀ y ∈ l₁, p x = true → p y = true → φ x = φ y) :
    (l₂.find? p).map φ = (l₁.find? p).map φ := by
  cases h₁ : l₁.find? p with
  | none =>
    have : l₂.find? p = none := by
      rw [List.find?_eq_none] at h₁ ⊢
      intro x hx
      exact h₁ x ((hmem x).mpr hx)
    rw [this]
  | some a =>
    cases h₂ : l₂.find? p with
    | none =>
      rw [List.find?_eq_none] at h₂
      have ha := List.mem_of_find?_eq_some h₁
      exact absurd (List.find?_some h₁) (h₂ a ((hmem a).mp ha))
    | some b =>
      have ha := List.mem_of_find?_eq_some h₁
      have hb := (hmem b).mpr (List.mem_of_find?_eq_some h₂)
      simp only [Option.map_some', Option.some.injEq]
      exact huniq b hb a ha (List.find?_some h₂) (List.find?_some h₁)

theorem lastPath_eq_map (dir : String) (l : List DirEntry) (p : DirEntry → Bool) :
    lastPath dir l p = ((l.reverse.find? p).map (fun g => filepath.Join dir g.Name)).getD "" := by
  unfold lastPath
  cases l.reverse.find? p <;> rfl

theorem lastPath_perm (dir : String) (l₁ l₂ : List DirEntry) (p : DirEntry → Bool)
    (hp : l₁.Perm l₂)
    (huniq : ∀ x ∈ l₁, ∀ y ∈ l₁, p x = true → p y = true → x.Name = y.Name) :
    lastPath dir l₂ p = lastPath dir l₁ p := by
  rw [lastPath_eq_map, lastPath_eq_map]
  congr 1
  apply find?_map_congr
  · intro x
    rw [List.mem_reverse, List.mem_reverse]
    exact hp.mem_iff
  · intro x hx y hy hpx hpy
    rw [huniq x (List.mem_reverse.mp hx) y (List.mem_reverse.mp hy) hpx hpy]

/-- Under `NoClash` the unit of a version depends on the set of entries only. -/
theorem unitFor_perm (dir v : String) (l₁ l₂ : List DirEntry) (hp : l₁.Perm l₂)
    (hc : NoClash l₁) : unitFor dir l₂ v = unitFor dir l₁ v := by
  have hname := find?_map_congr (fun f : DirEntry => f.isScript && f.version == v)
    DirEntry.migrationName l₁ l₂ (fun x => hp.mem_iff) (by
      intro x hx y hy hpx hpy
      simp only [Bool.and_eq_true, beq_iff_eq] at hpx hpy
      exact (hc x hx y hy hpx.1 hpy.1 (hpx.2.trans hpy.2.symm)).1)
  have hup := lastPath_perm dir l₁ l₂
    (fun f => f.isScript && f.version == v && f.fillsUp) hp (by
      intro x hx y hy hpx hpy
      simp only [Bool.and_eq_true, beq_iff_eq] at hpx hpy
      exact (hc x hx y hy hpx.1.1 hpy.1.1 (hpx.1.2.trans hpy.1.2.symm)).2.1 hpx.2 hpy.2)
  have hdown := lastPath_perm dir l₁ l₂
    (fun f => f.isScript && f.version == v && f.fillsDown) hp (by
      intro x hx y hy hpx hpy
      simp only [Bool.and_eq_true, beq_iff_eq] at hpx hpy
      exact (hc x hx y hy hpx.1.1 hpy.1.1 (hpx.1.2.trans hpy.1.2.symm)).2.2 hpx.2 hpy.2)
  unfold unitFor
  rw [hup, hdown]
  cases h₁ : l₁.find? (fun f => f.isScript && f.version == v) <;>
    cases h₂ : l₂.find? (fun f => f.isScript && f.version == v) <;>
    simp [h₁, h₂] at hname ⊢
  exact hname

theorem getMigrations_perm {env env2 : Env} {dir : String} {files files2 : List DirEntry}
    {ms : List Migration} (hread : env.readDir dir = .ok files)
    (hread2 : env2.readDir dir = .ok files2) (hp : files.Perm files2) (hc : NoClash files)
    (hms : getMigrations env dir = .ok ms) : getMigrations env2 dir = .ok ms := by
  have hms2 := getMigrations_of_readDir hread2
  rw [hms2]
  congr 1
  apply ascending_ext (getMigrations_ascending hms2) (getMigrations_ascending hms)
  intro x
  rw [getMigrations_mem_iff hread2 hms2, getMigrations_mem_iff hread hms,
    unitFor_perm dir x.Version files files2 hp hc]

/-! ## Facts about the string functions -/

theorem splitChars_ne_nil (sep : Char) (l : List Char) : splitChars sep l ≠ [] := by
  induction l with
  | nil => simp [splitChars]
  | cons c cs ih =>
    unfold splitChars
    split
    · simp
    · split <;> simp

theorem splitChars_append_sep (sep : Char) (rest : List Char) :
    ∀ v : List Char, sep ∉ v → splitChars sep (v ++ sep :: rest) = v :: splitChars sep rest
  | [], _ => by simp [splitChars]
  | c :: cs, h => by
    have hc : c ≠ sep := fun e => h (by simp [e])
    have hcs : sep ∉ cs := fun e => h (by simp [e])
    rw [List.cons_append, splitChars, if_neg hc, splitChars_append_sep sep rest cs hcs]

theorem strings.Split_cons (V rest : String) (h : '_' ∉ V.data) :
    strings.Split (V ++ "_" ++ rest) '_' = V :: strings.Split rest '_' := by
  unfold strings.Split
  have e : (V ++ "_" ++ rest).data = V.data ++ '_' :: rest.data := by
    simp [String.data_append]
  rw [e, splitChars_append_sep '_' rest.data V.data h]
  rfl

theorem strings.Split_length_pos (s : String) : 1 ≤ (strings.Split s '_').length := by
  unfold strings.Split
  rw [List.length_map]
  cases h : splitChars '_' s.data with
  | nil => exact absurd h (splitChars_ne_nil _ _)
  | cons p ps => simp

theorem strings.HasSuffix_append (s suffix : String) :
    strings.HasSuffix (s ++ suffix) suffix = true := by
  unfold strings.HasSuffix
  simp [String.data_append]

theorem containsChars_iff (sub : List Char) :
    ∀ l : List Char, containsChars sub l = true ↔ sub <:+: l
  | [] => by
    unfold containsChars
    simp
  | c :: cs => by
    unfold containsChars
    rw [Bool.or_eq_true, containsChars_iff sub cs, List.infix_cons_iff]
    simp

theorem strings.Contains_iff (s sub : String) :
    strings.Contains s sub = true ↔ sub.data <:+: s.data := by
  unfold strings.Contains
  exact containsChars_iff _ _

theorem strings.Contains_append_right (a sub : String) :
    strings.Contains (a ++ sub) sub = true := by
  rw [strings.Contains_iff, String.data_append]
  exact (List.suffix_append _ _).isInfix

/-! ## Files of the expected form -/

theorem lastPath_of_unique (dir : String) (files : List DirEntry) (p : DirEntry → Bool)
    (g : DirEntry) (hg : g ∈ files) (hpg : p g = true)
    (huniq : ∀ x ∈ files, p x = true → x.Name = g.Name) :
    lastPath dir files p = filepath.Join dir g.Name := by
  unfold lastPath
  cases h : files.reverse.find? p with
  | none =>
    rw [List.find?_eq_none] at h
    exact absurd hpg (h g (List.mem_reverse.mpr hg))
  | some x =>
    have hx := List.mem_reverse.mp (List.mem_of_find?_eq_some h)
    simp only []
    rw [huniq x hx (List.find?_some h)]

theorem isScript_of_version_rest (V rest : String) (h : '_' ∉ V.data) :
    (DirEntry.mk (V ++ "_" ++ (rest ++ ".sql")) false).isScript = true ∧
    (DirEntry.mk (V ++ "_" ++ (rest ++ ".sql")) false).version = V := by
  unfold DirEntry.isScript DirEntry.version
  simp only [strings.Split_cons V (rest ++ ".sql") h, List.headD_cons, and_true,
    Bool.not_false, Bool.true_and, List.length_cons, Bool.and_eq_true, decide_eq_true_eq]
  constructor
  · rw [← String.append_assoc]
    exact strings.HasSuffix_append _ _
  · have := strings.Split_length_pos (rest ++ ".sql")
    omega

theorem upFileName_eq (V n : String) : upFileName V n = V ++ "_" ++ ((n ++ ".up") ++ ".sql") := by
  unfold upFileName
  have : (".up.sql" : String) = ".up" ++ ".sql" := by decide
  rw [this, String.append_assoc, String.append_assoc, String.append_assoc, String.append_assoc]

theorem downFileName_eq (V n : String) :
    downFileName V n = V ++ "_" ++ ((n ++ ".down") ++ ".sql") := by
  unfold downFileName
  have : (".down.sql" : String) = ".down" ++ ".sql" := by decide
  rw [this, String.append_assoc, String.append_assoc, String.append_assoc, String.append_assoc]

theorem upFile_isScript (V n : String) (h : '_' ∉ V.data) :
    (DirEntry.mk (upFileName V n) false).isScript = true ∧
    (DirEntry.mk (upFileName V n) false).version = V ∧
    (DirEntry.mk (upFileName V n) false).fillsUp = true := by
  refine ⟨?_, ?_, ?_⟩
  · rw [upFileName_eq]; exact (isScript_of_version_rest V _ h).1
  · rw [upFileName_eq]; exact (isScript_of_version_rest V _ h).2
  · exact strings.Contains_append_right _ _

theorem downFile_isScript (V n : String) (h : '_' ∉ V.data) :
    (DirEntry.mk (downFileName V n) false).isScript = true ∧
    (DirEntry.mk (downFileName V n) false).version = V ∧
    strings.Contains (downFileName V n) ".down.sql" = true := by
  refine ⟨?_, ?_, ?_⟩
  · rw [downFileName_eq]; exact (isScript_of_version_rest V _ h).1
  · rw [downFileName_eq]; exact (isScript_of_version_rest V _ h).2
  · exact strings.Contains_append_right _ _

theorem unitFor_isSome_iff (dir : String) (files : List DirEntry) (v : String) :
    (∃ x, unitFor dir files v = some x) ↔ ∃ f ∈ files, f.isScript = true ∧ f.version = v := by
  unfold unitFor
  cases h : files.find? (fun f => f.isScript && f.version == v) with
  | none =>
    rw [List.find?_eq_none] at h
    simp only [false_iff, not_exists, not_and]
    constructor
    · rintro ⟨x, hx⟩; exact absurd hx (by simp)
    · rintro ⟨f, hf, hs, hv⟩
      exact absurd (by simp [hs, hv]) (h f hf)
  | some first =>
    have hm := List.mem_of_find?_eq_some h
    have hp := List.find?_some h
    simp only [Bool.and_eq_true, beq_iff_eq] at hp
    exact ⟨fun _ => ⟨first, hm, hp.1, hp.2⟩, fun _ => ⟨_, rfl⟩⟩

theorem unitFor_version {dir : String} {files : List DirEntry} {v : String} {x : Migration}
    (h : unitFor dir files v = some x) : x.Version = v := by
  unfold unitFor at h
  split at h
  · exact absurd h (by simp)
  · simp only [Option.some.injEq] at h
    rw [← h]

/-! ## Names of the expected form, parsed -/

theorem fills_of_up_suffix (f : DirEntry) (h : strings.HasSuffix f.Name ".up.sql" = true) :
    f.fillsUp = true ∧ f.fillsDown = false := by
  have hc : strings.Contains f.Name ".up.sql" = true := by
    rw [strings.Contains_iff]
    unfold strings.HasSuffix at h
    exact (List.isSuffixOf_iff_suffix.mp h).isInfix
  simp [DirEntry.fillsUp, DirEntry.fillsDown, hc]

theorem fills_of_down_suffix (f : DirEntry) (h : strings.HasSuffix f.Name ".down.sql" = true)
    (hclean : strings.Contains f.Name ".up.sql" = false) :
    f.fillsDown = true ∧ f.fillsUp = false := by
  have hc : strings.Contains f.Name ".down.sql" = true := by
    rw [strings.Contains_iff]
    unfold strings.HasSuffix at h
    exact (List.isSuffixOf_iff_suffix.mp h).isInfix
  simp [DirEntry.fillsUp, DirEntry.fillsDown, hc, hclean]

theorem joinChars_cons_cons (sep : List Char) (c : Char) (p : List Char)
    (ps : List (List Char)) :
    joinChars sep ((c :: p) :: ps) = c :: joinChars sep (p :: ps) := by
  cases ps <;> simp [joinChars]

theorem joinChars_splitChars (sep : Char) :
    ∀ l : List Char, joinChars [sep] (splitChars sep l) = l
  | [] => by simp [splitChars, joinChars]
  | c :: cs => by
    have ih := joinChars_splitChars sep cs
    unfold splitChars
    by_cases h : c = sep
    · rw [if_pos h]
      cases hs : splitChars sep cs with
      | nil => exact absurd hs (splitChars_ne_nil _ _)
      | cons p ps =>
        rw [hs] at ih
        simp [joinChars, ih, h]
    · rw [if_neg h]
      cases hs : splitChars sep cs with
      | nil => exact absurd hs (splitChars_ne_nil _ _)
      | cons p ps =>
        rw [hs] at ih
        simp only []
        rw [joinChars_cons_cons, ih]

theorem strings.Join_Split (s : String) : strings.Join (strings.Split s '_') "_" = s := by
  unfold strings.Join strings.Split
  have e : List.map String.data (List.map String.mk (splitChars '_' s.data))
      = splitChars '_' s.data := by
    rw [List.map_map]
    conv_rhs => rw [← List.map_id (splitChars '_' s.data)]
    rfl
  rw [e]
  have : ("_" : String).data = ['_'] := rfl
  rw [this, joinChars_splitChars]

theorem strings.TrimSuffix_append (s suffix : String) :
    strings.TrimSuffix (s ++ suffix) suffix = s := by
  unfold strings.TrimSuffix
  rw [strings.HasSuffix_append, if_pos rfl]
  simp [String.data_append]

theorem strings.TrimSuffix_of_not (s suffix : String)
    (h : strings.HasSuffix s suffix = false) : strings.TrimSuffix s suffix = s := by
  unfold strings.TrimSuffix
  simp [h]

theorem not_up_suffix_of_down (n : String) :
    strings.HasSuffix (n ++ ".down.sql") ".up.sql" = false := by
  cases h : strings.HasSuffix (n ++ ".down.sql") ".up.sql" with
  | false => rfl
  | true =>
    unfold strings.HasSuffix at h
    rw [String.data_append] at h
    have h1 : (".up.sql" : String).data <:+ n.data ++ (".down.sql" : String).data :=
      List.isSuffixOf_iff_suffix.mp h
    have h2 : (".down.sql" : String).data <:+ n.data ++ (".down.sql" : String).data :=
      List.suffix_append _ _
    have h3 : (".up.sql" : String).data <:+ (".down.sql" : String).data :=
      List.suffix_of_suffix_length_le h1 h2 (by decide)
    exact absurd h3 (by decide)

theorem migrationName_of_rest (V rest : String) (h : '_' ∉ V.data) :
    (DirEntry.mk (V ++ "_" ++ rest) false).migrationName
      = strings.TrimSuffix (strings.TrimSuffix rest ".up.sql") ".down.sql" := by
  unfold DirEntry.migrationName
  simp only [strings.Split_cons V rest h, List.drop_succ_cons, List.drop_zero]
  rw [strings.Join_Split]

/-- The name read from a down file `V_N.down.sql` is `N`. -/
theorem migrationName_downFile (V N : String) (h : '_' ∉ V.data) :
    (DirEntry.mk (downFileName V N) false).migrationName = N := by
  have e : downFileName V N = V ++ "_" ++ (N ++ ".down.sql") := by
    unfold downFileName
    simp only [String.append_assoc]
  rw [e, migrationName_of_rest V _ h, strings.TrimSuffix_of_not _ _ (not_up_suffix_of_down N),
    strings.TrimSuffix_append]

/-- The name read from an up file `V_N.up.sql` is `N` unless `N` itself ends
in `.down.sql`. -/
theorem migrationName_upFile (V N : String) (h : '_' ∉ V.data)
    (hN : strings.HasSuffix N ".down.sql" = false) :
    (DirEntry.mk (upFileName V N) false).migrationName = N := by
  have e : upFileName V N = V ++ "_" ++ (N ++ ".up.sql") := by
    unfold upFileName
    simp only [String.append_assoc]
  rw [e, migrationName_of_rest V _ h, strings.TrimSuffix_append,
    strings.TrimSuffix_of_not _ _ hN]

/-! ## Listings in filename order -/

theorem nameLE_total (a b : DirEntry) : nameLE a b ∨ nameLE b a := by
  unfold nameLE
  cases h : strLess b.Name a.Name with
  | false => exact Or.inl rfl
  | true => exact Or.inr (strLess_asymm h)

theorem nameLE_trans (a b c : DirEntry) (h1 : nameLE a b) (h2 : nameLE b c) : nameLE a c := by
  unfold nameLE at *
  cases h : strLess c.Name a.Name with
  | false => rfl
  | true =>
    cases hab : strLess a.Name b.Name with
    | true =>
      have := strLess_trans h hab
      rw [h2] at this
      exact absurd this (by simp)
    | false =>
      have e : a.Name = b.Name := strLess_connex hab h1
      rw [e, h2] at h
      exact absurd h (by simp)

theorem sortByName_perm (l : List DirEntry) : (sortByName l).Perm l :=
  List.perm_insertionSort nameLE l

theorem sortedByName_of_sorted_nodup : ∀ l : List DirEntry,
    l.Sorted nameLE → (l.map DirEntry.Name).Nodup → SortedByName l
  | [], _, _ => List.Pairwise.nil
  | a :: l, hs, hn => by
    rw [List.map_cons, List.nodup_cons] at hn
    have hs2 := List.pairwise_cons.mp hs
    refine List.Pairwise.cons ?_ (sortedByName_of_sorted_nodup l hs2.2 hn.2)
    intro b hb
    have hle : strLess b.Name a.Name = false := hs2.1 b hb
    cases h : strLess a.Name b.Name with
    | true => rfl
    | false =>
      have e : a.Name = b.Name := strLess_connex h hle
      exact absurd (e ▸ List.mem_map_of_mem DirEntry.Name hb) hn.1

/-- The entries of a directory, whose names are distinct, come out of the sort
in ascending filename order. -/
theorem sortByName_sorted (l : List DirEntry) (h : (l.map DirEntry.Name).Nodup) :
    SortedByName (sortByName l) := by
  apply sortedByName_of_sorted_nodup
  · exact @List.sorted_insertionSort _ nameLE _ ⟨nameLE_total⟩ ⟨nameLE_trans⟩ l
  · exact ((sortByName_perm l).map DirEntry.Name).nodup_iff.mpr h

/-- Two listings in filename order with the same entries are the same listing. -/
theorem sortedByName_ext {l₁ l₂ : List DirEntry} (h₁ : SortedByName l₁) (h₂ : SortedByName l₂)
    (hp : l₁.Perm l₂) : l₁ = l₂ :=
  @List.eq_of_perm_of_sorted _ (fun a b : DirEntry => strLess a.Name b.Name = true)
    ⟨fun a b hab hba => by rw [strLess_asymm hab] at hba; exact absurd hba (by simp)⟩
    _ _ hp h₁ h₂

/-- The result of discovery does not depend on the map iteration order. -/
theorem getMigrations_mapOrder {env env2 : Env} {dir : String} {files : List DirEntry}
    (hread : env.readDir dir = .ok files) (hread2 : env2.readDir dir = .ok files) :
    getMigrations env2 dir = getMigrations env dir := by
  have hms := getMigrations_of_readDir hread
  have hms2 := getMigrations_of_readDir hread2
  rw [hms, hms2]
  congr 1
  apply ascending_ext (getMigrations_ascending hms2) (getMigrations_ascending hms)
  intro x
  rw [getMigrations_mem_iff hread2 hms2, getMigrations_mem_iff hread hms]

/-! ## The claims about discovery -/

/-- C11.  For every readable listing, `getMigrations` returns its units in
strictly ascending version order (`strLess` is the byte-wise comparison): every
unit is below all later ones, in particular below its successor.  The result does
not depend on the map iteration order.  It does not depend on the order in which
the directory holds its entries either: `os.ReadDir` hands them over in filename
order, so two listings of the same entries, each as `os.ReadDir` returns it, give
the same result; and whatever the order of the listing, the result is the same
when no two script entries of one version parse to different names or fill the
same path slot (`NoClash`). -/
theorem discovery_sorted_and_order_independent (env env2 : Env) (dir : String)
    (files files2 : List DirEntry)
    (hread : env.readDir dir = .ok files) (hread2 : env2.readDir dir = .ok files2)
    (hperm : files.Perm files2) :
    (∃ ms, getMigrations env dir = .ok ms ∧ Ascending ms ∧
      List.Chain' (fun a b => strLess a.Version b.Version = true) ms) ∧
    (files2 = files → getMigrations env2 dir = getMigrations env dir) ∧
    (SortedByName files → SortedByName files2 →
      getMigrations env2 dir = getMigrations env dir) ∧
    (NoClash files → getMigrations env2 dir = getMigrations env dir) := by
  have hms := getMigrations_of_readDir hread
  refine ⟨⟨_, hms, getMigrations_ascending hms, (getMigrations_ascending hms).chain'⟩,
    ?_, ?_, ?_⟩
  · intro hsame
    subst hsame
    exact getMigrations_mapOrder hread hread2
  · intro hs hs2
    have hsame := sortedByName_ext hs hs2 hperm
    subst hsame
    exact getMigrations_mapOrder hread hread2
  · intro hclash
    rw [hms]
    exact getMigrations_perm hread hread2 hperm hclash hms

/-- C11 on the scenario directory held in two orders and read with two map
iteration orders: `os.ReadDir` lists both in filename order and the results
agree. -/
theorem discovery_sorted_and_order_independent_witness :
    sortByName scenarioFiles
      = [⟨"000001_init.down.sql", false⟩, ⟨"000001_init.up.sql", false⟩,
          ⟨"000002_add_col.up.sql", false⟩, ⟨"README.md", false⟩] ∧
    SortedByName (sortByName scenarioFiles) ∧
    SortedByName (sortByName scenarioFiles.reverse) ∧
    getMigrations (forwardEnv (sortByName scenarioFiles.reverse)) "migrations"
      = getMigrations (reliableEnv (sortByName scenarioFiles)) "migrations" ∧
    getMigrations (reliableEnv (sortByName scenarioFiles)) "migrations" = .ok [unit1, unit2] :=
  ⟨by decide, by unfold SortedByName; decide, by unfold SortedByName; decide,
    (discovery_sorted_and_order_independent (reliableEnv (sortByName scenarioFiles))
      (forwardEnv (sortByName scenarioFiles.reverse)) "migrations"
      (sortByName scenarioFiles) (sortByName scenarioFiles.reverse) rfl rfl
      ((sortByName_perm _).trans ((List.reverse_perm _).symm.trans
        (sortByName_perm _).symm))).2.2.1
      (by unfold SortedByName; decide) (by unfold SortedByName; decide),
    rfl⟩

/-- C12, as stated, fails.  The files `000001_init.up.sql` and
`000001_init.down.sql` are both present, but a second up file of version 000001
is listed later: the single unit of version 000001 has its `UpPath` at the later
file, not at `000001_init.up.sql`. -/
theorem discovery_paths_counterexample :
    DirEntry.mk (upFileName "000001" "init") false ∈ twoUpFiles ∧
    DirEntry.mk (downFileName "000001" "init") false ∈ twoUpFiles ∧
    getMigrations (reliableEnv twoUpFiles) "migrations"
      = .ok [{ Version := "000001", Name := "init",
               UpPath := "migrations/000001_seed.up.sql",
               DownPath := "migrations/000001_init.down.sql" }] ∧
    filepath.Join "migrations" (upFileName "000001" "init") ≠ "migrations/000001_seed.up.sql" :=
  ⟨by decide, by decide, rfl, by decide⟩

/-- C12, amended.  For every readable listing, `getMigrations` returns exactly
one unit per distinct version token of its script entries: no two units share a
version, and a version has a unit exactly when some script entry carries it.  When
the files `V_n.up.sql` and `V_n.down.sql` are both present (`V` without
underscore), no other script entry has version `V`, and the name of the down file
does not contain `.up.sql`, the unit of `V` has `UpPath` at the up file and
`DownPath` at the down file. -/
theorem discovery_one_unit_per_version (env : Env) (dir : String) (files : List DirEntry)
    (ms : List Migration) (hread : env.readDir dir = .ok files)
    (hms : getMigrations env dir = .ok ms) :
    (ms.map Migration.Version).Nodup ∧
    (∀ v, (∃ x ∈ ms, x.Version = v) ↔ ∃ f ∈ files, f.isScript = true ∧ f.version = v) ∧
    (∀ V n : String, '_' ∉ V.data →
      DirEntry.mk (upFileName V n) false ∈ files →
      DirEntry.mk (downFileName V n) false ∈ files →
      (∀ f ∈ files, f.isScript = true → f.version = V →
        f.Name = upFileName V n ∨ f.Name = downFileName V n) →
      strings.Contains (downFileName V n) ".up.sql" = false →
      ∃ x ∈ ms, x.Version = V ∧ x.UpPath = filepath.Join dir (upFileName V n) ∧
        x.DownPath = filepath.Join dir (downFileName V n)) := by
  refine ⟨getMigrations_nodup hms, ?_, ?_⟩
  · intro v
    rw [← unitFor_isSome_iff dir files v]
    constructor
    · rintro ⟨x, hx, rfl⟩
      exact ⟨x, (getMigrations_mem_iff hread hms x).mp hx⟩
    · rintro ⟨x, hx⟩
      have hv := unitFor_version hx
      exact ⟨x, (getMigrations_mem_iff hread hms x).mpr (by rw [hv]; exact hx), hv⟩
  · intro V n hV hup hdown honly hclean
    obtain ⟨hu1, hu2, hu3⟩ := upFile_isScript V n hV
    obtain ⟨hd1, hd2, hd3⟩ := downFile_isScript V n hV
    have hdfill : (DirEntry.mk (downFileName V n) false).fillsDown = true := by
      simp [DirEntry.fillsDown, hclean, hd3]
    have hdnot : (DirEntry.mk (downFileName V n) false).fillsUp = false := hclean
    obtain ⟨x, hx⟩ := (unitFor_isSome_iff dir files V).mpr ⟨_, hup, hu1, hu2⟩
    have hv := unitFor_version hx
    refine ⟨x, (getMigrations_mem_iff hread hms x).mpr (by rw [hv]; exact hx), hv, ?_, ?_⟩
    · unfold unitFor at hx
      split at hx
      · exact absurd hx (by simp)
      · simp only [Option.some.injEq] at hx
        rw [← hx]
        simp only []
        apply lastPath_of_unique dir files _ _ hup (by simp [hu1, hu2, hu3])
        intro f hf hp
        simp only [Bool.and_eq_true, beq_iff_eq] at hp
        rcases honly f hf hp.1.1 hp.1.2 with e | e
        · exact e
        · have : f.fillsUp = false := by
            unfold DirEntry.fillsUp
            rw [e]; exact hclean
          rw [this] at hp
          exact absurd hp.2 (by simp)
    · unfold unitFor at hx
      split at hx
      · exact absurd hx (by simp)
      · simp only [Option.some.injEq] at hx
        rw [← hx]
        simp only []
        apply lastPath_of_unique dir files _ _ hdown (by simp [hd1, hd2, hdfill])
        intro f hf hp
        simp only [Bool.and_eq_true, beq_iff_eq] at hp
        rcases honly f hf hp.1.1 hp.1.2 with e | e
        · have : f.fillsDown = false := by
            unfold DirEntry.fillsDown
            rw [e]
            have := hu3
            unfold DirEntry.fillsUp at this
            simp [this]
          rw [this] at hp
          exact absurd hp.2 (by simp)
        · exact e

/-- C12, amended, on a directory with two complete units. -/
theorem discovery_one_unit_per_version_witness :
    getMigrations (reliableEnv pairedFiles) "migrations" = .ok [unit1, unit2Paired] ∧
    ∃ x ∈ [unit1, unit2Paired], x.Version = "000002" ∧
      x.UpPath = filepath.Join "migrations" (upFileName "000002" "add_col") ∧
      x.DownPath = filepath.Join "migrations" (downFileName "000002" "add_col") :=
  ⟨rfl,
    (discovery_one_unit_per_version (reliableEnv pairedFiles) "migrations" pairedFiles
      [unit1, unit2Paired] rfl rfl).2.2 "000002" "add_col" (by decide) (by decide) (by decide)
      (by decide) (by decide)⟩

theorem scanFile_skip (dir : String) (m : MigrationsMap) (f : DirEntry)
    (h : f.isScript = false) : scanFile dir m f = m := by
  rw [scanFile_eq, h]
  simp

/-- An entry the loop skips changes nothing, wherever it stands in the listing. -/
theorem getMigrations_skip {env env2 : Env} {dir : String} {pre post : List DirEntry}
    {f : DirEntry} (hread : env.readDir dir = .ok (pre ++ post))
    (hread2 : env2.readDir dir = .ok (pre ++ f :: post)) (hf : f.isScript = false) :
    getMigrations env2 dir = getMigrations env dir := by
  have h1 := getMigrations_of_readDir hread
  have h2 := getMigrations_of_readDir hread2
  rw [h1, h2]
  congr 1
  apply ascending_ext (getMigrations_ascending h2) (getMigrations_ascending h1)
  intro x
  rw [getMigrations_mem_iff hread2 h2, getMigrations_mem_iff hread h1,
    ← foldl_scanFile_unitFor, ← foldl_scanFile_unitFor, List.foldl_append, List.foldl_append,
    List.foldl_cons, scanFile_skip dir _ f hf]

theorem getMigrations_error_iff (env : Env) (dir : String) :
    (∃ err, getMigrations env dir = .error err) ↔ ∃ cause, env.readDir dir = .error cause := by
  unfold getMigrations
  cases h : env.readDir dir with
  | error cause => simp
  | ok files => simp

/-- C13 fails on the code.  The only file of the listing is of the form
`V_N.up.sql` with `V` = 000001 and `N` = `undo.down.sql`; the unit gets version
000001 but the name `undo`: after `.up.sql` the second `TrimSuffix` also removes
the `.down.sql` that belongs to `N`. -/
theorem migrationName_trims_both_suffixes :
    nestedSuffixFiles = [⟨upFileName "000001" "undo.down.sql", false⟩] ∧
    getMigrations (reliableEnv nestedSuffixFiles) "migrations"
      = .ok [{ Version := "000001", Name := "undo",
               UpPath := "migrations/000001_undo.down.sql.up.sql", DownPath := "" }] ∧
    (DirEntry.mk (upFileName "000001" "undo.down.sql") false).migrationName
      ≠ "undo.down.sql" :=
  ⟨by decide, rfl, by decide⟩

/-- C14 fails on the code.  The name of the only file ends in `.down.sql`, yet
the unit of its version has `UpPath` set to it and `DownPath` empty: the direction
test asks whether the name contains `.up.sql`, and asks that first. -/
theorem direction_read_by_contains :
    strings.HasSuffix "000001_init.up.sql.down.sql" ".down.sql" = true ∧
    strings.HasSuffix "000001_init.up.sql.down.sql" ".up.sql" = false ∧
    getMigrations (reliableEnv markerInsideFiles) "migrations"
      = .ok [{ Version := "000001", Name := "init.up.sql",
               UpPath := "migrations/000001_init.up.sql.down.sql", DownPath := "" }] :=
  ⟨by decide, by decide, rfl⟩

/-- C15 fails on the code.  Adding the entry `000003_notes.sql` (a `.sql` file
with an underscore and no direction marker) to a directory with two complete
units changes the result: a third unit appears, with both paths empty, and
`migrateUp` then stops at it with a missing-script error after applying the two
real units. -/
theorem markerless_file_adds_unit :
    strings.Contains markerlessEntry.Name ".up.sql" = false ∧
    strings.Contains markerlessEntry.Name ".down.sql" = false ∧
    getMigrations (reliableEnv orderedPairedFiles) "migrations" = .ok [unit1, unit2Paired] ∧
    getMigrations (reliableEnv (orderedPairedFiles ++ [markerlessEntry])) "migrations"
      = .ok [unit1, unit2Paired,
          { Version := "000003", Name := "notes.sql", UpPath := "", DownPath := "" }] ∧
    (migrateUp (reliableEnv (orderedPairedFiles ++ [markerlessEntry])) freshWorld
      "migrations").1 = some (.missingUp "000003") :=
  ⟨by decide, by decide, rfl, rfl, rfl⟩

/-- C16 fails on the code.  The directory is readable and version 000002 has a
single file, whose name ends in `.down.sql`; `getMigrations` succeeds, but the
unit of 000002 comes back with `UpPath` set and `DownPath` empty, because the name
contains `.up.sql`. -/
theorem down_only_version_fills_up_path :
    (downOnlyFiles.filter (fun f => f.version == "000002")).map DirEntry.Name
      = ["000002_revert.up.sql.down.sql"] ∧
    strings.HasSuffix "000002_revert.up.sql.down.sql" ".down.sql" = true ∧
    getMigrations (reliableEnv downOnlyFiles) "migrations"
      = .ok [unit1,
          { Version := "000002", Name := "revert.up.sql",
            UpPath := "migrations/000002_revert.up.sql.down.sql", DownPath := "" }] :=
  ⟨by decide, by decide, rfl⟩

/-! ## The claim about the status report -/

theorem showStatus_db (env : Env) (w : World) (dir : String) :
    (showStatus env w dir).2.db = w.db := by
  cases hms : getMigrations env dir with
  | error err => simp [showStatus, hms]
  | ok ms =>
    cases hq : env.queryErr w.db with
    | some cause => simp [showStatus, hms, getAppliedMigrations, hq, World.issue]
    | none => rw [showStatus_ok hms hq]

theorem statusLine_eq (applied : List String) (m : Migration) :
    statusLine applied m
      = (if m.Version ∈ applied then "[✓]" else "[ ]") ++ " " ++ m.Version ++ " - "
        ++ m.Name ++ "\n" := by
  unfold statusLine
  by_cases h : m.Version ∈ applied <;> simp [h]

/-- C17.  `showStatus` never changes the database, so the ledger after it is
the ledger before.  For units `ms` discovered in the directory and a ledger query
that succeeds, it returns success and writes, between the two header lines and the
closing blank line, exactly one line per discovered unit, in discovery order,
which is ascending version order; the line of a unit carries the applied mark
exactly when the unit's version is in the ledger, then the version and the name.
The only database call is the query. -/
theorem showStatus_reports_every_unit (env : Env) (w : World) (dir : String)
    (ms : List Migration) (hms : getMigrations env dir = .ok ms)
    (hq : env.queryErr w.db = none) :
    (showStatus env w dir).1 = none ∧
    (showStatus env w dir).2.out
      = w.out ++ ("\nMigration Status:\n" :: "=================\n" ::
          (ms.map (fun m => (if m.Version ∈ w.db.ledger then "[✓]" else "[ ]") ++ " "
            ++ m.Version ++ " - " ++ m.Name ++ "\n") ++ ["\n"])) ∧
    Ascending ms ∧
    (showStatus env w dir).2.ops = w.ops ++ [DbOp.query] ∧
    (∀ env2 w2 dir2, (showStatus env2 w2 dir2).2.db = w2.db) := by
  rw [showStatus_ok hms hq]
  refine ⟨rfl, ?_, getMigrations_ascending hms, rfl, showStatus_db⟩
  have e : ms.map (statusLine w.db.ledger)
      = ms.map (fun m => (if m.Version ∈ w.db.ledger then "[✓]" else "[ ]") ++ " "
          ++ m.Version ++ " - " ++ m.Name ++ "\n") :=
    List.map_congr_left (fun m _ => statusLine_eq _ _)
  simp only [e]

/-- C17 on the scenario directory with unit 000001 applied. -/
theorem showStatus_reports_every_unit_witness :
    getMigrations (reliableEnv scenarioFiles) "migrations" = .ok [unit1, unit2] ∧
    (showStatus (reliableEnv scenarioFiles) (worldWithLedger ["000001"]) "migrations").2.out
      = ["\nMigration Status:\n", "=================\n", "[✓] 000001 - init\n",
          "[ ] 000002 - add_col\n", "\n"] ∧
    (showStatus (reliableEnv scenarioFiles) (worldWithLedger ["000001"]) "migrations").2.db
      = (worldWithLedger ["000001"]).db :=
  ⟨rfl,
    (showStatus_reports_every_unit (reliableEnv scenarioFiles) (worldWithLedger ["000001"])
      "migrations" [unit1, unit2] rfl rfl).2.1,
    (showStatus_reports_every_unit (reliableEnv scenarioFiles) (worldWithLedger ["000001"])
      "migrations" [unit1, unit2] rfl rfl).2.2.2.2 _ _ _⟩

/-! ## The claim about the dispatcher -/

theorem main_eq_dispatch {s : Startup} {env : Env} {w : World}
    (h1 : s.dotenvErr = none) (h2 : s.openErr = none) (h3 : s.pingErr = none)
    (h4 : s.createTableErr w.db = none) :
    main s env w = dispatch env (w.issue (.exec createTableQuery)) s.action := by
  simp [main, h1, h2, h3, createMigrationsTable, h4]

/-- C18.  Once the start has succeeded (environment file, connection, ping and
ledger table), `main` does what the action says and nothing else.  For `up` its
result is that of `migrateUp` alone, for `down` that of `migrateDown` alone, for
`status` that of `showStatus` alone: the final world is the one that function
leaves (plus the closing line on success), and the process ends fatally exactly
when the function returns an error.  For every other action it runs none of the
three: the world is untouched and the process ends fatally with a message that
contains the action given. -/
theorem main_dispatches_three_actions (s : Startup) (env : Env) (w : World)
    (h1 : s.dotenvErr = none) (h2 : s.openErr = none) (h3 : s.pingErr = none)
    (h4 : s.createTableErr w.db = none) :
    (s.action = "up" →
      main s env w =
        match migrateUp env (w.issue (.exec createTableQuery)) "migrations" with
        | (some err, w2) => (.fatal ("Migration up failed: " ++ err.Error), w2)
        | (none, w2) => (.returned, w2.print "Migrations applied successfully!\n")) ∧
    (s.action = "down" →
      main s env w =
        match migrateDown env (w.issue (.exec createTableQuery)) "migrations" with
        | (some err, w2) => (.fatal ("Migration down failed: " ++ err.Error), w2)
        | (none, w2) => (.returned, w2.print "Migration rolled back successfully!\n")) ∧
    (s.action = "status" →
      main s env w =
        match showStatus env (w.issue (.exec createTableQuery)) "migrations" with
        | (some err, w2) => (.fatal ("Failed to show status: " ++ err.Error), w2)
        | (none, w2) => (.returned, w2)) ∧
    (s.action ≠ "up" → s.action ≠ "down" → s.action ≠ "status" →
      main s env w =
        (.fatal ("Unknown action: " ++ s.action ++ ". Use 'up', 'down', or 'status'"),
          w.issue (.exec createTableQuery)) ∧
      strings.Contains ("Unknown action: " ++ s.action ++ ". Use 'up', 'down', or 'status'")
        s.action = true) := by
  rw [main_eq_dispatch h1 h2 h3 h4]
  refine ⟨?_, ?_, ?_, ?_⟩
  · intro h
    simp [dispatch, h]
  · intro h
    simp [dispatch, h]
  · intro h
    simp [dispatch, h]
  · intro hu hd hs
    refine ⟨by simp [dispatch, hu, hd, hs], ?_⟩
    rw [strings.Contains_iff]
    simp only [String.data_append]
    exact ⟨_, _, rfl⟩

/-- C18 on the action `migrate`, which is none of the three. -/
theorem main_dispatches_three_actions_witness :
    main (cleanStartup "migrate") (reliableEnv scenarioFiles) freshWorld =
      (.fatal ("Unknown action: " ++ "migrate" ++ ". Use 'up', 'down', or 'status'"),
        freshWorld.issue (.exec createTableQuery)) ∧
    strings.Contains ("Unknown action: " ++ "migrate" ++ ". Use 'up', 'down', or 'status'")
      "migrate" = true :=
  (main_dispatches_three_actions (cleanStartup "migrate") (reliableEnv scenarioFiles)
    freshWorld rfl rfl rfl rfl).2.2.2 (by decide) (by decide) (by decide)

/-! ## Decimal versions -/

theorem digitsValue_eq (cs : List Char) :
    ∀ acc, digitsValue acc cs = acc * 10 ^ cs.length + digitsValue 0 cs := by
  induction cs with
  | nil => intro acc; simp [digitsValue]
  | cons c cs ih =>
    intro acc
    have h1 : digitsValue acc (c :: cs) = digitsValue (10 * acc + (c.toNat - '0'.toNat)) cs := rfl
    have h2 : digitsValue 0 (c :: cs) = digitsValue (10 * 0 + (c.toNat - '0'.toNat)) cs := rfl
    rw [h1, h2, ih, ih (10 * 0 + _), List.length_cons, pow_succ]
    ring

theorem digitsValue_lt (cs : List Char) (h : cs.all isDigitChar = true) :
    digitsValue 0 cs < 10 ^ cs.length := by
  induction cs with
  | nil => simp [digitsValue]
  | cons c cs ih =>
    rw [List.all_cons, Bool.and_eq_true] at h
    have hc : c.toNat - '0'.toNat ≤ 9 := by
      have := h.1
      have h0 : '0'.toNat = 48 := rfl
      have h9 : '9'.toNat = 57 := rfl
      simp only [isDigitChar, h0, h9, decide_eq_true_eq] at this
      rw [h0]
      omega
    have h2 : digitsValue 0 (c :: cs) = digitsValue (10 * 0 + (c.toNat - '0'.toNat)) cs := rfl
    have := ih h.2
    rw [h2, digitsValue_eq, List.length_cons, pow_succ]
    have hpos : 0 < 10 ^ cs.length := Nat.pow_pos (by norm_num)
    nlinarith

/-- On digit lists of one length the byte-wise order is the numeric order. -/
theorem charsLess_iff_digitsValue_lt :
    ∀ (a b : List Char), a.length = b.length → a.all isDigitChar = true →
      b.all isDigitChar = true →
      (charsLess a b = true ↔ digitsValue 0 a < digitsValue 0 b)
  | [], [], _, _, _ => by simp [charsLess, digitsValue]
  | [], _ :: _, h, _, _ => by simp at h
  | _ :: _, [], h, _, _ => by simp at h
  | c :: cs, d :: ds, hlen, ha, hb => by
    rw [List.all_cons, Bool.and_eq_true] at ha hb
    have hlen2 : cs.length = ds.length := by simpa using hlen
    have ih := charsLess_iff_digitsValue_lt cs ds hlen2 ha.2 hb.2
    have h0 : '0'.toNat = 48 := rfl
    have h9 : '9'.toNat = 57 := rfl
    have hc := ha.1
    have hd := hb.1
    simp only [isDigitChar, h0, h9, decide_eq_true_eq] at hc hd
    have e1 : digitsValue 0 (c :: cs) = (c.toNat - 48) * 10 ^ cs.length + digitsValue 0 cs := by
      have : digitsValue 0 (c :: cs) = digitsValue (10 * 0 + (c.toNat - '0'.toNat)) cs := rfl
      rw [this, digitsValue_eq, h0]
      simp
    have e2 : digitsValue 0 (d :: ds) = (d.toNat - 48) * 10 ^ cs.length + digitsValue 0 ds := by
      have : digitsValue 0 (d :: ds) = digitsValue (10 * 0 + (d.toNat - '0'.toNat)) ds := rfl
      rw [this, digitsValue_eq, h0, hlen2]
      simp
    have b1 := digitsValue_lt cs ha.2
    have b2 := digitsValue_lt ds hb.2
    rw [← hlen2] at b2
    rw [e1, e2]
    simp only [charsLess]
    have hpos : 0 < 10 ^ cs.length := Nat.pow_pos (by norm_num)
    by_cases h1 : c.toNat < d.toNat
    · simp only [h1, if_true, true_iff]
      have : (c.toNat - 48) + 1 ≤ d.toNat - 48 := by omega
      have := Nat.mul_le_mul_right (10 ^ cs.length) this
      nlinarith
    · by_cases h2 : d.toNat < c.toNat
      · simp only [h1, h2, if_false, if_true, Bool.false_eq_true, false_iff, not_lt]
        have : (d.toNat - 48) + 1 ≤ c.toNat - 48 := by omega
        have := Nat.mul_le_mul_right (10 ^ cs.length) this
        nlinarith
      · have heq : c.toNat = d.toNat := by omega
        rw [heq] at h1
        simp only [heq, h1, if_false, ih]
        exact (Nat.add_lt_add_iff_left).symm

theorem strLess_iff_decimalValue_lt {s t : String} (hs : isDecimal s = true)
    (ht : isDecimal t = true) (hlen : s.length = t.length) :
    strLess s t = true ↔ decimalValue s < decimalValue t := by
  unfold isDecimal at hs ht
  rw [Bool.and_eq_true] at hs ht
  exact charsLess_iff_digitsValue_lt s.data t.data hlen hs.2 ht.2

/-! ## Position in an ascending sequence -/

/-- In an ascending sequence the unit with the lower version stands first. -/
theorem ascending_split {ms : List Migration} {a b : Migration} (hasc : Ascending ms)
    (ha : a ∈ ms) (hb : b ∈ ms) (hlt : strLess a.Version b.Version = true) :
    ∃ l₁ l₂ l₃, ms = l₁ ++ a :: (l₂ ++ b :: l₃) := by
  obtain ⟨p, q, rfl⟩ := List.append_of_mem hb
  unfold Ascending at hasc
  rw [List.pairwise_append] at hasc
  have hq := List.pairwise_cons.mp hasc.2.1
  rcases List.mem_append.mp ha with hap | haq
  · obtain ⟨l₁, l₂, rfl⟩ := List.append_of_mem hap
    exact ⟨l₁, l₂, q, by simp⟩
  · rcases List.mem_cons.mp haq with hab | haq
    · rw [hab, strLess_irrefl] at hlt
      exact absurd hlt (by simp)
    · have := hq.1 a haq
      rw [strLess_asymm this] at hlt
      exact absurd hlt (by simp)

/-- The backwards scan stops at or behind an applied unit. -/
theorem findLastApplied_mem_tail {applied : List String} {pre post : List Migration}
    {b V : Migration} (hb : b.Version ∈ applied)
    (h : findLastApplied applied (pre ++ b :: post) = some V) : V ∈ b :: post := by
  unfold findLastApplied at h
  rw [List.reverse_append, List.reverse_cons, List.append_assoc, List.find?_append] at h
  cases hpost : post.reverse.find? (fun m => applied.contains m.Version) with
  | some x =>
    rw [hpost] at h
    simp only [Option.or, Option.some.injEq] at h
    rw [← h]
    exact List.mem_cons_of_mem _ (List.mem_reverse.mp (List.mem_of_find?_eq_some hpost))
  | none =>
    rw [hpost] at h
    have hc : applied.contains b.Version = true := by simpa using hb
    simp only [Option.or, List.singleton_append, List.find?_cons, hc, Option.some.injEq]
      at h
    rw [← h]
    exact List.mem_cons_self _ _

/-- Units behind `a` in an ascending sequence have another version than `a`. -/
theorem version_ne_of_behind {l₁ l₂ : List Migration} {a V : Migration}
    (hasc : Ascending (l₁ ++ a :: l₂)) (hV : V ∈ l₂) : V.Version ≠ a.Version := by
  unfold Ascending at hasc
  rw [List.pairwise_append] at hasc
  have := (List.pairwise_cons.mp hasc.2.1).1 V hV
  intro e
  rw [e, strLess_irrefl] at this
  exact absurd this (by simp)

/-! ## The claim about numeric order -/

/-- C21, as stated, fails.  The versions `9` and `10` are decimal digit strings
and 9 is the smaller number, but byte-wise `10` is below `9`: `getMigrations`
returns unit 10 first, `migrateUp` on a fresh database applies 10 before 9, and
`migrateDown` with both applied reverts 9, the unit with the smaller number,
first. -/
theorem numeric_order_counterexample :
    getMigrations (reliableEnv unpaddedFiles) "migrations" = .ok [unit10, unit9] ∧
    isDecimal unit9.Version = true ∧ isDecimal unit10.Version = true ∧
    decimalValue unit9.Version = 9 ∧ decimalValue unit10.Version = 10 ∧
    strLess unit10.Version unit9.Version = true ∧
    (migrateUp (reliableEnv unpaddedFiles) freshWorld "migrations").1 = none ∧
    (migrateUp (reliableEnv unpaddedFiles) freshWorld "migrations").2.ops
      = DbOp.query :: (upTx (reliableEnv unpaddedFiles) unit10
          ++ upTx (reliableEnv unpaddedFiles) unit9) ∧
    (migrateUp (reliableEnv unpaddedFiles) freshWorld "migrations").2.db.ledger = ["10", "9"] ∧
    (migrateDown (reliableEnv unpaddedFiles) (worldWithLedger ["9", "10"]) "migrations").1
      = none ∧
    (migrateDown (reliableEnv unpaddedFiles) (worldWithLedger ["9", "10"]) "migrations").2.ops
      = DbOp.query :: downTx (reliableEnv unpaddedFiles) unit9 ∧
    (migrateDown (reliableEnv unpaddedFiles) (worldWithLedger ["9", "10"])
      "migrations").2.db.ledger = ["10"] :=
  ⟨rfl, by decide, by decide, by decide, by decide, by decide, rfl, rfl, rfl, rfl, rfl, rfl⟩

/-- C21, amended.  For two discovered units whose versions are decimal digit
strings of the same length, the unit with the smaller numeric value comes first in
the sequence `getMigrations` returns.  So in every run of `migrateUp` whose ledger
query succeeds, if the smaller is pending and the larger is applied by the run,
the smaller is applied by the run before it; and `migrateDown` does not revert the
smaller while the larger is in the ledger: the smaller stays in the ledger. -/
theorem numeric_order_of_equal_width (env : Env) (w : World) (dir : String)
    (ms : List Migration) (a b : Migration) (hms : getMigrations env dir = .ok ms)
    (ha : a ∈ ms) (hb : b ∈ ms)
    (hda : isDecimal a.Version = true) (hdb : isDecimal b.Version = true)
    (hlen : a.Version.length = b.Version.length)
    (hlt : decimalValue a.Version < decimalValue b.Version) :
    (∃ l₁ l₂ l₃, ms = l₁ ++ a :: (l₂ ++ b :: l₃)) ∧
    (env.queryErr w.db = none → a.Version ∉ w.db.ledger →
      ∃ done rest tail,
        pending w.db.ledger ms = done ++ rest ∧
        (migrateUp env w dir).2.ops = w.ops ++ DbOp.query :: (done.flatMap (upTx env) ++ tail) ∧
        (migrateUp env w dir).2.db = done.foldl (applyUnit env) w.db ∧
        (b ∈ done → ∃ d₁ d₂ d₃, done = d₁ ++ a :: (d₂ ++ b :: d₃))) ∧
    (a.Version ∈ w.db.ledger → b.Version ∈ w.db.ledger →
      findLastApplied w.db.ledger ms ≠ some a ∧
      a.Version ∈ (migrateDown env w dir).2.db.ledger) := by
  have hless : strLess a.Version b.Version = true :=
    (strLess_iff_decimalValue_lt hda hdb hlen).mpr hlt
  have hasc := getMigrations_ascending hms
  obtain ⟨l₁, l₂, l₃, hsplit⟩ := ascending_split hasc ha hb hless
  refine ⟨⟨l₁, l₂, l₃, hsplit⟩, ?_, ?_⟩
  · intro hq hpend
    obtain ⟨done, rest, tail, hp, _, hdb2, hops, _⟩ :=
      migrateUpLoop_spec env w.db.ledger ms (w.issue .query)
    refine ⟨done, rest, tail, hp, ?_, ?_, ?_⟩
    · rw [migrateUp_eq_loop hms hq, hops]
      simp [World.issue]
    · rw [migrateUp_eq_loop hms hq, hdb2]
      rfl
    · intro hbd
      have hpa : a ∈ pending w.db.ledger ms := by
        unfold pending
        rw [List.mem_filter]
        exact ⟨ha, by simpa using hpend⟩
      have hpasc : Ascending (done ++ rest) := by
        rw [← hp]
        exact pending_ascending hasc
      have hdasc : Ascending done := ascending_sublist (List.sublist_append_left _ _) hpasc
      rw [hp] at hpa
      rcases List.mem_append.mp hpa with had | har
      · exact ascending_split hdasc had hbd hless
      · unfold Ascending at hpasc
        rw [List.pairwise_append] at hpasc
        have := hpasc.2.2 b hbd a har
        rw [strLess_asymm this] at hless
        exact absurd hless (by simp)
  · intro hal hbl
    have hnodup := getMigrations_nodup hms
    have hbehind : ∀ V, findLastApplied w.db.ledger ms = some V → V.Version ≠ a.Version := by
      intro V hV
      rw [hsplit, ← List.cons_append, ← List.append_assoc] at hV
      have hmem := findLastApplied_mem_tail hbl hV
      have hVb : V ∈ l₂ ++ b :: l₃ := by
        rcases List.mem_cons.mp hmem with h | h
        · rw [h]; simp
        · simp [h]
      rw [hsplit] at hasc
      exact version_ne_of_behind hasc hVb
    refine ⟨fun e => hbehind a e rfl, ?_⟩
    have hd : discovered env dir = ms := by simp [discovered, hms]
    rcases migrateDown_db env w dir with h | h | ⟨V, hV, _, _, _, hdb2, _⟩
    · rw [h.2]; exact hal
    · rw [h.2.1]; exact hal
    · rw [hd] at hV
      rw [hdb2]
      simp only [revertUnit, List.mem_filter]
      refine ⟨hal, ?_⟩
      have := hbehind V hV
      simpa using fun e : a.Version = V.Version => this e.symm

/-- C21, amended, on the versions `000001` and `000002` of the paired directory. -/
theorem numeric_order_of_equal_width_witness :
    getMigrations (reliableEnv pairedFiles) "migrations" = .ok [unit1, unit2Paired] ∧
    decimalValue unit1.Version < decimalValue unit2Paired.Version ∧
    ∃ l₁ l₂ l₃, [unit1, unit2Paired] = l₁ ++ unit1 :: (l₂ ++ unit2Paired :: l₃) :=
  ⟨rfl, by decide,
    (numeric_order_of_equal_width (reliableEnv pairedFiles) freshWorld "migrations"
      [unit1, unit2Paired] unit1 unit2Paired rfl (by decide) (by decide) (by decide)
      (by decide) (by decide) (by decide)).1⟩

/-! ## Versions without a discovered unit -/

theorem UpStop.tail_ops {env : Env} {e : Option MigrateError} {rest : List Migration}
    {tail : List DbOp} (h : UpStop env e rest tail) :
    ∀ op ∈ tail, ∃ U ∈ rest, op = .begin ∨ op = .exec (fileText env U.UpPath) ∨
      op = .insert U.Version ∨ op = .rollback ∨ op = .commit := by
  intro op hop
  cases h with
  | finished => simp at hop
  | missing U post _ => simp at hop
  | unreadable U post cause _ _ => simp at hop
  | noBegin U post cause =>
    refine ⟨U, List.mem_cons_self _ _, ?_⟩
    simp only [List.mem_singleton] at hop
    simp [hop]
  | execFailed U post cause =>
    refine ⟨U, List.mem_cons_self _ _, ?_⟩
    simp only [List.mem_cons, List.mem_singleton, List.not_mem_nil, or_false] at hop
    rcases hop with h | h | h <;> simp [h]
  | recordFailed U post cause =>
    refine ⟨U, List.mem_cons_self _ _, ?_⟩
    simp only [List.mem_cons, List.mem_singleton, List.not_mem_nil, or_false] at hop
    rcases hop with h | h | h | h <;> simp [h]
  | commitFailed U post cause =>
    refine ⟨U, List.mem_cons_self _ _, ?_⟩
    simp only [List.mem_cons, List.mem_singleton, List.not_mem_nil, or_false] at hop
    rcases hop with h | h | h | h <;> simp [h]

/-- The database calls of a run of `migrateUp`: the ledger query and calls of
the transactions of discovered units. -/
theorem migrateUp_ops (env : Env) (w : World) (dir : String) :
    ∃ (issued : List DbOp) (ran : List Migration), (migrateUp env w dir).2.ops = w.ops ++ issued ∧
      (∀ m ∈ ran, m ∈ discovered env dir) ∧
      (migrateUp env w dir).2.db = ran.foldl (applyUnit env) w.db ∧
      ∀ op ∈ issued, op = .query ∨ ∃ U ∈ discovered env dir,
        op = .begin ∨ op = .exec (fileText env U.UpPath) ∨
        op = .insert U.Version ∨ op = .rollback ∨ op = .commit := by
  cases hms : getMigrations env dir with
  | error err =>
    exact ⟨[], [], by simp [migrateUp_discovery_failed hms],
      by simp, by simp [migrateUp_discovery_failed hms], by simp⟩
  | ok ms =>
    have hd : discovered env dir = ms := by simp [discovered, hms]
    rw [hd]
    cases hq : env.queryErr w.db with
    | some cause =>
      exact ⟨[.query], [], by simp [migrateUp_query_failed hms hq, World.issue],
        by simp, by simp [migrateUp_query_failed hms hq, World.issue], by simp⟩
    | none =>
      obtain ⟨done, rest, tail, hp, _, hdb, hops, hstop⟩ :=
        migrateUpLoop_spec env w.db.ledger ms (w.issue .query)
      have hsub : ∀ m, m ∈ done ++ rest → m ∈ ms := by
        intro m hm
        rw [← hp] at hm
        exact (List.mem_filter.mp hm).1
      refine ⟨.query :: (done.flatMap (upTx env) ++ tail), done, ?_, ?_, ?_, ?_⟩
      · rw [migrateUp_eq_loop hms hq, hops]
        simp [World.issue]
      · intro m hm
        exact hsub m (List.mem_append_left _ hm)
      · rw [migrateUp_eq_loop hms hq, hdb]
        rfl
      · intro op hop
        rcases List.mem_cons.mp hop with h | h
        · exact Or.inl h
        · right
          rcases List.mem_append.mp h with h | h
          · obtain ⟨U, hU, hop2⟩ := List.mem_flatMap.mp h
            refine ⟨U, hsub U (List.mem_append_left _ hU), ?_⟩
            simp only [upTx, List.mem_cons, List.mem_singleton, List.not_mem_nil, or_false] at hop2
            rcases hop2 with h | h | h | h <;> simp [h]
          · obtain ⟨U, hU, hop2⟩ := hstop.tail_ops op h
            exact ⟨U, hsub U (List.mem_append_right _ hU), hop2⟩

/-- The database calls of a run of `migrateDown`: the ledger query and calls of
the transaction of the unit the backwards scan selects. -/
theorem migrateDown_ops (env : Env) (w : World) (dir : String) :
    ∃ new, (migrateDown env w dir).2.ops = w.ops ++ new ∧
      ∀ op ∈ new, op = .query ∨
        ∃ V, findLastApplied w.db.ledger (discovered env dir) = some V ∧
          (op = .begin ∨ op = .exec (fileText env V.DownPath) ∨
            op = .delete V.Version ∨ op = .rollback ∨ op = .commit) := by
  cases hms : getMigrations env dir with
  | error err => exact ⟨[], by simp [migrateDown_discovery_failed hms], by simp⟩
  | ok ms =>
    have hd : discovered env dir = ms := by simp [discovered, hms]
    rw [hd]
    cases hq : env.queryErr w.db with
    | some cause =>
      exact ⟨[.query], by simp [migrateDown_query_failed hms hq, World.issue], by simp⟩
    | none =>
      cases hlast : findLastApplied w.db.ledger ms with
      | none =>
        exact ⟨[.query], by simp [migrateDown_nothing hms hq hlast, World.issue, World.print],
          by simp⟩
      | some V =>
        by_cases hdown : V.DownPath = ""
        · exact ⟨[.query], by simp [migrateDown_missing hms hq hlast hdown, World.issue],
            by simp⟩
        · cases hread : env.readFile V.DownPath with
          | error cause =>
            exact ⟨[.query], by
              simp [migrateDown, hms, getAppliedMigrations, hq, hlast, hdown, hread, World.print,
                World.issue], by simp⟩
          | ok content =>
            have hft : fileText env V.DownPath = content := fileText_of_ok hread
            cases hbegin : env.beginErr w.db with
            | some cause =>
              exact ⟨[.query, .begin], by
                simp [migrateDown, hms, getAppliedMigrations, hq, hlast, hdown, hread, dbBegin,
                  hbegin, World.print, World.issue], by simp⟩
            | none =>
              cases hexec : env.execErr w.db content with
              | some cause =>
                exact ⟨[.query, .begin, .exec content, .rollback], by
                  simp [migrateDown, hms, getAppliedMigrations, hq, hlast, hdown, hread, dbBegin,
                    hbegin, txExec, hexec, txRollback, World.print, World.issue],
                  by simp [hft]⟩
              | none =>
                cases hdel : env.deleteErr { w.db with schema := w.db.schema ++ [content] }
                    V.Version with
                | some cause =>
                  exact ⟨[.query, .begin, .exec content, .delete V.Version, .rollback], by
                    simp [migrateDown, hms, getAppliedMigrations, hq, hlast, hdown, hread,
                      dbBegin, hbegin, txExec, hexec, txDelete, hdel, txRollback, World.print,
                      World.issue], by simp [hft]⟩
                | none =>
                  refine ⟨[.query, .begin, .exec content, .delete V.Version, .commit], ?_,
                    by simp [hft]⟩
                  cases hcommit : env.commitErr (revertUnit env w.db V) with
                  | some cause =>
                    rw [revertUnit, hft] at hcommit
                    simp [migrateDown, hms, getAppliedMigrations, hq, hlast, hdown, hread,
                      dbBegin, hbegin, txExec, hexec, txDelete, hdel, txCommit, hcommit,
                      World.print, World.issue]
                  | none =>
                    rw [revertUnit, hft] at hcommit
                    simp [migrateDown, hms, getAppliedMigrations, hq, hlast, hdown, hread,
                      dbBegin, hbegin, txExec, hexec, txDelete, hdel, txCommit, hcommit,
                      World.print, World.issue]

/-! ## The claim about orphaned ledger versions -/

/-- C22.  A version `v` without a discovered unit is inert.  In every run of
`migrateUp` and of `migrateDown`, `v` is in the ledger afterwards exactly when it
was there before, no database call of the run inserts or deletes the row of `v`,
and every script the run executes is the up script (for `migrateDown`: the down
script) of a discovered unit.  The backwards scan of `migrateDown` never selects a
unit of version `v`; and when no discovered unit is in the ledger, a run of
`migrateDown` whose discovery and ledger query succeed returns without error
after the query alone and leaves the database as it was, also when the ledger is
not empty. -/
theorem orphaned_versions_inert (env : Env) (w : World) (dir : String) (v : String)
    (horph : ∀ m ∈ discovered env dir, m.Version ≠ v) :
    (v ∈ (migrateUp env w dir).2.db.ledger ↔ v ∈ w.db.ledger) ∧
    (∃ new, (migrateUp env w dir).2.ops = w.ops ++ new ∧
      (∀ op ∈ new, DbOp.touches v op = false) ∧
      ∀ sql, DbOp.exec sql ∈ new → ∃ m ∈ discovered env dir, sql = fileText env m.UpPath) ∧
    (v ∈ (migrateDown env w dir).2.db.ledger ↔ v ∈ w.db.ledger) ∧
    (∃ new, (migrateDown env w dir).2.ops = w.ops ++ new ∧
      (∀ op ∈ new, DbOp.touches v op = false) ∧
      ∀ sql, DbOp.exec sql ∈ new → ∃ m ∈ discovered env dir, sql = fileText env m.DownPath) ∧
    (∀ V, findLastApplied w.db.ledger (discovered env dir) = some V → V.Version ≠ v) ∧
    ((∀ m ∈ discovered env dir, m.Version ∉ w.db.ledger) →
      (∃ ms, getMigrations env dir = .ok ms) → env.queryErr w.db = none →
      (migrateDown env w dir).1 = none ∧
      (migrateDown env w dir).2.ops = w.ops ++ [.query] ∧
      (migrateDown env w dir).2.out = w.out ++ ["No migrations to roll back\n"] ∧
      (migrateDown env w dir).2.db = w.db) := by
  have hsel : ∀ V, findLastApplied w.db.ledger (discovered env dir) = some V →
      V ∈ discovered env dir := fun V hV => (findLastApplied_mem hV).1
  refine ⟨?_, ?_, ?_, ?_, ?_, ?_⟩
  · obtain ⟨new, done, _, hdone, hdb, _⟩ := migrateUp_ops env w dir
    rw [hdb, foldl_applyUnit_ledger, List.mem_append]
    constructor
    · rintro (h | h)
      · exact h
      · obtain ⟨m, hm, hmv⟩ := List.mem_map.mp h
        exact absurd hmv (horph m (hdone m hm))
    · exact Or.inl
  · obtain ⟨new, done, hops, _, _, hnew⟩ := migrateUp_ops env w dir
    refine ⟨new, hops, ?_, ?_⟩
    · intro op hop
      rcases hnew op hop with h | ⟨U, hU, h | h | h | h | h⟩
      · subst h; rfl
      all_goals subst h; simp [DbOp.touches, horph U hU]
    · intro sql hsql
      rcases hnew _ hsql with h | ⟨U, hU, h | h | h | h | h⟩
      · exact absurd h (by simp)
      · exact absurd h (by simp)
      · exact ⟨U, hU, by simpa using h⟩
      · exact absurd h (by simp)
      · exact absurd h (by simp)
      · exact absurd h (by simp)
  · rcases migrateDown_db env w dir with h | h | ⟨V, hV, _, _, _, hdb, _⟩
    · rw [h.2]
    · rw [h.2.1]
    · rw [hdb]
      simp only [revertUnit, List.mem_filter]
      have := horph V (hsel V hV)
      constructor
      · exact fun h => h.1
      · exact fun h => ⟨h, by simpa using fun e : v = V.Version => this e.symm⟩
  · obtain ⟨new, hops, hnew⟩ := migrateDown_ops env w dir
    refine ⟨new, hops, ?_, ?_⟩
    · intro op hop
      rcases hnew op hop with h | ⟨V, hV, h | h | h | h | h⟩
      · subst h; rfl
      all_goals subst h; simp [DbOp.touches, horph V (hsel V hV)]
    · intro sql hsql
      rcases hnew _ hsql with h | ⟨V, hV, h | h | h | h | h⟩
      · exact absurd h (by simp)
      · exact absurd h (by simp)
      · exact ⟨V, hsel V hV, by simpa using h⟩
      · exact absurd h (by simp)
      · exact absurd h (by simp)
      · exact absurd h (by simp)
  · intro V hV
    exact horph V (hsel V hV)
  · rintro hnone ⟨ms, hms⟩ hq
    have hd : discovered env dir = ms := by simp [discovered, hms]
    rw [hd] at hnone
    rw [migrateDown_nothing hms hq (findLastApplied_eq_none hnone)]
    simp [World.issue, World.print]

/-- C22 on the scenario directory with a ledger that holds two versions without
a file: `migrateUp` applies the two discovered units and keeps `000009`, and
`migrateDown` on the orphaned ledger is a successful no-op. -/
theorem orphaned_versions_inert_witness :
    discovered (reliableEnv scenarioFiles) "migrations" = [unit1, unit2] ∧
    ("000009" ∈ (migrateUp (reliableEnv scenarioFiles) orphanedLedger "migrations").2.db.ledger
      ↔ "000009" ∈ orphanedLedger.db.ledger) ∧
    (migrateUp (reliableEnv scenarioFiles) orphanedLedger "migrations").2.db.ledger
      = ["000008", "000009", "000001", "000002"] ∧
    orphanedLedger.db.ledger ≠ [] ∧
    (migrateDown (reliableEnv scenarioFiles) orphanedLedger "migrations").1 = none ∧
    (migrateDown (reliableEnv scenarioFiles) orphanedLedger "migrations").2.db
      = orphanedLedger.db :=
  ⟨rfl,
    (orphaned_versions_inert (reliableEnv scenarioFiles) orphanedLedger "migrations" "000009"
      (by rw [show discovered (reliableEnv scenarioFiles) "migrations" = [unit1, unit2] from rfl]
          decide)).1,
    rfl, by decide, rfl, rfl⟩

/-! ## First name, last path -/

theorem filepath.Join_inj {dir a b : String} (h : filepath.Join dir a = filepath.Join dir b) :
    a = b := by
  unfold filepath.Join at h
  have := congrArg String.data h
  simp only [String.data_append, List.append_assoc] at this
  have := List.append_cancel_left (List.append_cancel_left this)
  exact String.ext this

theorem filepath.Join_ne_empty (dir a : String) : filepath.Join dir a ≠ "" := by
  unfold filepath.Join
  intro h
  have := congrArg String.data h
  simp [String.data_append] at this

/-- The entry a path slot is read from: the last entry that satisfies `p`. -/
theorem lastPath_cases (dir : String) (files : List DirEntry) (p : DirEntry → Bool) :
    (lastPath dir files p = "" ∧ ∀ g ∈ files, p g = false) ∨
    ∃ pre last post, files = pre ++ last :: post ∧ p last = true ∧
      (∀ g ∈ post, p g = false) ∧ lastPath dir files p = filepath.Join dir last.Name := by
  unfold lastPath
  cases h : files.reverse.find? p with
  | none =>
    left
    refine ⟨rfl, ?_⟩
    intro g hg
    have := List.find?_eq_none.mp h g (List.mem_reverse.mpr hg)
    simpa using this
  | some last =>
    right
    obtain ⟨hp, as, bs, hsplit, hno⟩ := List.find?_eq_some.mp h
    refine ⟨bs.reverse, last, as.reverse, ?_, hp, ?_, rfl⟩
    · have := congrArg List.reverse hsplit
      simpa using this
    · intro g hg
      have := hno g (List.mem_reverse.mp hg)
      simpa using this

theorem migrationName_congr {f g : DirEntry} (h : f.Name = g.Name) :
    f.migrationName = g.migrationName := by
  unfold DirEntry.migrationName
  rw [h]

/-! ## The claim about files that share a version -/

/-- C23.  Let `U` be a discovered unit; the files of its version are the entries
the loop reads (regular, ending in `.sql`, with an underscore) whose version token
is `U.Version`, an up file is one the loop files as up (its name contains
`.up.sql`), a down file one it files as down.  The name of `U` is the name parsed
from the first file of its version in listing order.  `UpPath` is the path of the
last up file of the version in listing order (empty when there is none), `DownPath`
the path of the last down file.  A further file of the version listed behind the
others leaves the name, and it replaces `UpPath` when it is an up file and
`DownPath` when it is a down file.  When all files of the version carry the same
name, the name of `U` is the name parsed from the file `UpPath` points to; in
general it is that name exactly when the first file of the version carries it, and
without the condition the two differ on a directory as `os.ReadDir` lists it: there
is a listing in filename order with two files of one version that carry different
names whose unit is not named as the file its `UpPath` points to. -/
theorem name_from_first_paths_from_last (env : Env) (dir : String) (files : List DirEntry)
    (ms : List Migration) (U : Migration)
    (hread : env.readDir dir = .ok files) (hms : getMigrations env dir = .ok ms)
    (hU : U ∈ ms) :
    (∃ pre first post, files = pre ++ first :: post ∧ first.ofVersion U.Version = true ∧
      (∀ g ∈ pre, g.ofVersion U.Version = false) ∧ U.Name = first.migrationName) ∧
    ((U.UpPath = "" ∧ ∀ g ∈ files, g.ofVersion U.Version = true → g.fillsUp = false) ∨
      ∃ pre last post, files = pre ++ last :: post ∧
        last.ofVersion U.Version = true ∧ last.fillsUp = true ∧
        (∀ g ∈ post, g.ofVersion U.Version = true → g.fillsUp = false) ∧
        U.UpPath = filepath.Join dir last.Name) ∧
    ((U.DownPath = "" ∧ ∀ g ∈ files, g.ofVersion U.Version = true → g.fillsDown = false) ∨
      ∃ pre last post, files = pre ++ last :: post ∧
        last.ofVersion U.Version = true ∧ last.fillsDown = true ∧
        (∀ g ∈ post, g.ofVersion U.Version = true → g.fillsDown = false) ∧
        U.DownPath = filepath.Join dir last.Name) ∧
    (∀ (g : DirEntry) (env2 : Env) (ms2 : List Migration), g.ofVersion U.Version = true →
      env2.readDir dir = .ok (files ++ [g]) → getMigrations env2 dir = .ok ms2 →
      Migration.mk U.Version U.Name
        (if g.fillsUp then filepath.Join dir g.Name else U.UpPath)
        (if g.fillsDown then filepath.Join dir g.Name else U.DownPath) ∈ ms2) ∧
    ((∀ f ∈ files, ∀ g ∈ files, f.ofVersion U.Version = true → g.ofVersion U.Version = true →
        f.migrationName = g.migrationName) →
      ∀ f : DirEntry, filepath.Join dir f.Name = U.UpPath → U.Name = f.migrationName) ∧
    (∀ pre first post, files = pre ++ first :: post → first.ofVersion U.Version = true →
      (∀ g ∈ pre, g.ofVersion U.Version = false) →
      ∀ f : DirEntry, filepath.Join dir f.Name = U.UpPath →
        (U.Name = f.migrationName ↔ first.migrationName = f.migrationName)) ∧
    (∃ (files0 : List DirEntry) (U0 : Migration), SortedByName files0 ∧
      getMigrations (reliableEnv files0) "migrations" = .ok [U0] ∧
      (∃ f ∈ files0, ∃ g ∈ files0, f.ofVersion U0.Version = true ∧
        g.ofVersion U0.Version = true ∧ f.migrationName ≠ g.migrationName) ∧
      ∃ u ∈ files0, filepath.Join "migrations" u.Name = U0.UpPath ∧
        U0.Name ≠ u.migrationName) := by
  have hunit := (getMigrations_mem_iff hread hms U).mp hU
  -- the three fields of `U`, read off the closed form
  have hfields : ∃ first, files.find? (fun f => f.isScript && f.version == U.Version)
        = some first ∧ U.Name = first.migrationName ∧
      U.UpPath = lastPath dir files
        (fun f => f.isScript && f.version == U.Version && f.fillsUp) ∧
      U.DownPath = lastPath dir files
        (fun f => f.isScript && f.version == U.Version && f.fillsDown) := by
    unfold unitFor at hunit
    cases hfind : files.find? (fun f => f.isScript && f.version == U.Version) with
    | none => rw [hfind] at hunit; exact absurd hunit (by simp)
    | some first =>
      rw [hfind] at hunit
      simp only [Option.some.injEq] at hunit
      refine ⟨first, rfl, ?_, ?_, ?_⟩ <;> rw [← hunit]
  obtain ⟨first, hfind, hname, hupath, hdpath⟩ := hfields
  obtain ⟨hpfirst, pre, post, hsplit, hpre⟩ := List.find?_eq_some.mp hfind
  have hfirstmem : first ∈ files := by rw [hsplit]; simp
  have hupcases : (U.UpPath = "" ∧
        ∀ g ∈ files, g.ofVersion U.Version = true → g.fillsUp = false) ∨
      ∃ pre last post, files = pre ++ last :: post ∧
        last.ofVersion U.Version = true ∧ last.fillsUp = true ∧
        (∀ g ∈ post, g.ofVersion U.Version = true → g.fillsUp = false) ∧
        U.UpPath = filepath.Join dir last.Name := by
    rcases lastPath_cases dir files
      (fun f => f.isScript && f.version == U.Version && f.fillsUp) with ⟨he, hall⟩ | h
    · left
      refine ⟨by rw [hupath, he], ?_⟩
      intro g hg hv
      have := hall g hg
      unfold DirEntry.ofVersion at hv
      simpa [hv] using this
    · right
      obtain ⟨pre, last, post, hs, hp, hpost, he⟩ := h
      simp only [Bool.and_eq_true] at hp
      refine ⟨pre, last, post, hs, by unfold DirEntry.ofVersion; simpa using hp.1, hp.2, ?_,
        by rw [hupath, he]⟩
      intro g hg hv
      have := hpost g hg
      unfold DirEntry.ofVersion at hv
      simpa [hv] using this
  refine ⟨⟨pre, first, post, hsplit, hpfirst, ?_, hname⟩, hupcases, ?_, ?_, ?_, ?_, ?_⟩
  · intro g hg
    have := hpre g hg
    rw [Bool.not_eq_true'] at this
    exact this
  · rcases lastPath_cases dir files
      (fun f => f.isScript && f.version == U.Version && f.fillsDown) with ⟨he, hall⟩ | h
    · left
      refine ⟨by rw [hdpath, he], ?_⟩
      intro g hg hv
      have := hall g hg
      unfold DirEntry.ofVersion at hv
      simpa [hv] using this
    · right
      obtain ⟨pre, last, post, hs, hp, hpost, he⟩ := h
      simp only [Bool.and_eq_true] at hp
      refine ⟨pre, last, post, hs, by unfold DirEntry.ofVersion; simpa using hp.1, hp.2, ?_,
        by rw [hdpath, he]⟩
      intro g hg hv
      have := hpost g hg
      unfold DirEntry.ofVersion at hv
      simpa [hv] using this
  · intro g env2 ms2 hg hread2 hms2
    rw [getMigrations_mem_iff hread2 hms2]
    simp only []
    rw [unitFor_snoc, hunit]
    unfold DirEntry.ofVersion at hg
    unfold stepUnit
    rw [if_pos hg]
    simp only [Option.getD_some, Option.some.injEq]
    unfold fillSlot
    cases hup : g.fillsUp
    · cases hdown : g.fillsDown <;> simp
    · have hdown : g.fillsDown = false := by
        unfold DirEntry.fillsDown
        unfold DirEntry.fillsUp at hup
        simp [hup]
      simp [hdown]
  · intro hsame f hf
    rcases hupcases with ⟨he, _⟩ | ⟨pre2, last, post2, hs, hv, _, _, he⟩
    · rw [he] at hf
      exact absurd hf (filepath.Join_ne_empty dir f.Name)
    · rw [he] at hf
      have hlastmem : last ∈ files := by rw [hs]; simp
      rw [hname, migrationName_congr (filepath.Join_inj hf)]
      exact hsame first hfirstmem last hlastmem hpfirst hv
  · intro pre2 first2 post2 hsplit2 hv2 hpre2 f _
    have hfind2 : files.find? (fun f => f.isScript && f.version == U.Version) = some first2 := by
      rw [List.find?_eq_some]
      refine ⟨hv2, pre2, post2, hsplit2, ?_⟩
      intro a ha
      have := hpre2 a ha
      unfold DirEntry.ofVersion at this
      rw [Bool.not_eq_true']
      exact this
    rw [hfind] at hfind2
    simp only [Option.some.injEq] at hfind2
    rw [hname, hfind2]
  · refine ⟨twoUpFiles, unitTwoUp, by unfold SortedByName; decide, rfl,
      ⟨⟨"000001_init.up.sql", false⟩, by decide, ⟨"000001_seed.up.sql", false⟩, by decide,
        by decide, by decide, by decide⟩,
      ⟨"000001_seed.up.sql", false⟩, by decide, by decide, by decide⟩

/-- C23 on three files of version 000001 in filename order: the down file
`init` comes first and names the unit, the up file `seed` comes last and fills
`UpPath`; the names differ, and so does the name of the unit from the name of its
up file. -/
theorem name_from_first_paths_from_last_witness :
    SortedByName twoUpFiles ∧
    getMigrations (reliableEnv twoUpFiles) "migrations" = .ok [unitTwoUp] ∧
    (∃ pre first post, twoUpFiles = pre ++ first :: post ∧
      first.ofVersion unitTwoUp.Version = true ∧
      (∀ g ∈ pre, g.ofVersion unitTwoUp.Version = false) ∧
      unitTwoUp.Name = first.migrationName) ∧
    unitTwoUp.Name ≠ (DirEntry.mk "000001_seed.up.sql" false).migrationName :=
  ⟨by unfold SortedByName; decide, rfl,
    (name_from_first_paths_from_last (reliableEnv twoUpFiles) "migrations" twoUpFiles
      [unitTwoUp] unitTwoUp rfl rfl (by decide)).1,
    by decide⟩
end Migrate

namespace Errors

/-! ## The claim about the error predicates -/

/-- C20.  Each `Is` predicate of the errors package is true exactly for the
errors of its own kind.  For all constructor arguments: `IsConflict` is true of
the error built by `NewConflictError` and false of nil and of the errors built by
the nine other constructors; and in general, for each of the eight predicates
(`Kind.is k`) and each of the ten constructors, the predicate is true of the
error built exactly when the constructor returns the struct of that predicate
(`built` pairs every constructor with its kind), and it is false of nil. -/
theorem is_predicates_match_own_kind (field message operation : String) (durationMs : Int) :
    (IsConflict (.conflict (NewConflictError message)) = true ∧
      IsConflict .nil = false ∧
      IsConflict (.notFound (NewNotFoundError message)) = false ∧
      IsConflict (.validation (NewValidationError message)) = false ∧
      IsConflict (.validation (NewValidationErrorWithField field message)) = false ∧
      IsConflict (.unauthorized (NewUnauthorizedError message)) = false ∧
      IsConflict (.forbidden (NewForbiddenError message)) = false ∧
      IsConflict (.internal (NewInternalError message)) = false ∧
      IsConflict (.badRequest (NewBadRequestError message)) = false ∧
      IsConflict (.timeout (NewTimeoutError message)) = false ∧
      IsConflict (.timeout (NewTimeoutErrorWithDuration operation durationMs message))
        = false) ∧
    (∀ k : Kind, k.is .nil = false) ∧
    (∀ k : Kind, ∀ p ∈ built field message operation durationMs,
      k.is p.2 = decide (k = p.1)) := by
  refine ⟨⟨rfl, rfl, rfl, rfl, rfl, rfl, rfl, rfl, rfl, rfl, rfl⟩, ?_, ?_⟩
  · intro k
    cases k <;> rfl
  · intro k p h
    simp only [built, List.mem_cons, List.mem_singleton, List.not_mem_nil, or_false] at h
    rcases h with rfl | rfl | rfl | rfl | rfl | rfl | rfl | rfl | rfl | rfl <;>
      cases k <;> rfl

end Errors

namespace Users

/-! ## The claim about the update handler -/

/-- C19.  `HandleUpdateUser` changes only the fields the request provides.
For every repository, stored user and bound request that passes the email
check (the address, when given, belongs to no user or to the user being updated),
`repo.Update` is called, and the user handed to it has each of `Name`, `Email`,
`Role` and `IsActive` equal to the request's value when the pointer is set (also
when it points to a zero value such as `false`) and to the stored value when it is
nil; `ID`, `LastLogin`, `CreatedAt` and `UpdatedAt` are those of the stored user. -/
theorem update_changes_only_provided_fields (repo : UserRepository)
    (uuidParse : String → Except String UUID) (id : String) (userID : UUID)
    (req : UpdateUserRequest) (stored : User)
    (hid : uuidParse id = .ok userID)
    (hget : repo.GetByID userID = .ok stored)
    (hmail : ∀ email existing, req.Email = some email → repo.GetByEmail email = some existing →
      existing.ID = userID) :
    (HandleUpdateUser repo uuidParse id (.ok req)).saved =
      some { ID := stored.ID,
             Name := req.Name.getD stored.Name,
             Email := req.Email.getD stored.Email,
             Role := req.Role.getD stored.Role,
             IsActive := req.IsActive.getD stored.IsActive,
             LastLogin := stored.LastLogin,
             CreatedAt := stored.CreatedAt,
             UpdatedAt := stored.UpdatedAt } := by
  obtain ⟨rn, re, rr, ra⟩ := req
  unfold HandleUpdateUser
  simp only [hid, hget]
  have hcheck : ∀ u : User,
      (match re with
        | some email =>
          match repo.GetByEmail email with
          | some existingUser =>
            if existingUser.ID ≠ userID then none else some { u with Email := email }
          | none => some { u with Email := email }
        | none => some u) = some { u with Email := re.getD u.Email } := by
    intro u
    cases re with
    | none => rfl
    | some email =>
      cases hx : repo.GetByEmail email with
      | none => simp [hx]
      | some existing =>
        have := hmail email existing rfl hx
        simp [hx, this]
  simp only [hcheck]
  cases rn <;> cases rr <;> cases ra <;> cases hu : repo.Update _ <;> simp

/-- C19 on a request that only sets `is_active` to false. -/
theorem update_changes_only_provided_fields_witness :
    (HandleUpdateUser sampleRepo sampleParse "7"
      (.ok { Name := none, Email := none, Role := none, IsActive := some false })).saved =
      some { ID := storedUser.ID,
             Name := (none : Option String).getD storedUser.Name,
             Email := (none : Option String).getD storedUser.Email,
             Role := (none : Option String).getD storedUser.Role,
             IsActive := (some false).getD storedUser.IsActive,
             LastLogin := storedUser.LastLogin,
             CreatedAt := storedUser.CreatedAt,
             UpdatedAt := storedUser.UpdatedAt } :=
  update_changes_only_provided_fields sampleRepo sampleParse "7" ⟨7⟩
    { Name := none, Email := none, Role := none, IsActive := some false } storedUser rfl rfl
    (by intro email existing h; exact absurd h (by simp))

/-! ## The claim about `HandleGetUser` -/

/-- The repository as implemented never returns the sentinel `sql.ErrNoRows`. -/
theorem userRepository.GetByID_ne_errNoRows (db : Database) (id : UUID) :
    userRepository.GetByID db id ≠ .error .errNoRows := by
  unfold userRepository.GetByID
  cases db.GetContext (fun u => u.ID = id) with
  | error err => by_cases h : err = .errNoRows <;> simp [h]
  | ok user => simp

/-- C24, as the code has it.  With the repository as implemented, `HandleGetUser`
never responds 404: for a well-formed id that no row of `users` carries, on a
database that answers the query, the response is status 500 with the error
`Failed to fetch user`.  The other parts of the claim hold: the status is 400
exactly when the id is malformed, and 200 with the stored user when a row has
the id. -/
theorem HandleGetUser_missing_row_is_500 (db : Database)
    (uuidParse : String → Except String UUID) (id : String) (userID : UUID)
    (hid : uuidParse id = .ok userID) (hanswer : db.failure = none)
    (hnone : ∀ u ∈ db.users, u.ID ≠ userID) :
    HandleGetUser (NewRepository db) uuidParse id
      = { status := 500, body := .error "Failed to fetch user", saved := none } ∧
    (∀ db2 id2, (HandleGetUser (NewRepository db2) uuidParse id2).status ≠ 404) ∧
    (∀ db2 id2, (HandleGetUser (NewRepository db2) uuidParse id2).status = 400
      ↔ ∃ e, uuidParse id2 = .error e) ∧
    (∀ db2 id2 userID2 user, uuidParse id2 = .ok userID2 → db2.failure = none →
      db2.users.find? (fun u => u.ID = userID2) = some user →
      HandleGetUser (NewRepository db2) uuidParse id2
        = { status := 200, body := .user (toResponse user), saved := none }) := by
  refine ⟨?_, ?_, ?_, ?_⟩
  · have hfind : db.users.find? (fun u => decide (u.ID = userID)) = none := by
      rw [List.find?_eq_none]
      intro u hu
      simpa using hnone u hu
    simp [HandleGetUser, hid, NewRepository, userRepository.GetByID, Database.GetContext,
      hanswer, hfind]
  · intro db2 id2
    unfold HandleGetUser
    cases uuidParse id2 with
    | error e => simp
    | ok uid =>
      simp only [NewRepository]
      have := userRepository.GetByID_ne_errNoRows db2 uid
      cases hget : userRepository.GetByID db2 uid with
      | error err =>
        have hne : err ≠ .errNoRows := fun e => this (by rw [hget, e])
        simp [hne]
      | ok user => simp
  · intro db2 id2
    unfold HandleGetUser
    cases uuidParse id2 with
    | error e => simp
    | ok uid =>
      simp only [NewRepository]
      cases hget : userRepository.GetByID db2 uid with
      | error err => by_cases h : err = .errNoRows <;> simp [h]
      | ok user => simp
  · intro db2 id2 userID2 user hid2 hans hfind
    simp [HandleGetUser, hid2, NewRepository, userRepository.GetByID, Database.GetContext,
      hans, hfind]

/-- C24 on the sample database, asked for the id 8 that no row carries. -/
theorem HandleGetUser_missing_row_is_500_witness :
    twoIdParse "8" = .ok ⟨8⟩ ∧ (∀ u ∈ sampleDatabase.users, u.ID ≠ ⟨8⟩) ∧
    HandleGetUser (NewRepository sampleDatabase) twoIdParse "8"
      = { status := 500, body := .error "Failed to fetch user", saved := none } :=
  ⟨rfl, by decide,
    (HandleGetUser_missing_row_is_500 sampleDatabase twoIdParse "8" ⟨8⟩ rfl rfl
      (by decide)).1⟩

end Users

namespace Logger

/-! ## The claim about `ParseLevel` -/

theorem unicode.ToLower_sameLetter (table : Char → Char) {c d : Char} (h : sameLetter c d) :
    unicode.ToLower table c = unicode.ToLower table d := by
  have key : ∀ {a b : Char}, 'A'.toNat ≤ a.toNat → a.toNat ≤ 'Z'.toNat → b.toNat = a.toNat + 32 →
      unicode.ToLower table a = unicode.ToLower table b := by
    intro a b h1 h2 h3
    have hA : 'A'.toNat = 65 := rfl
    have hZ : 'Z'.toNat = 90 := rfl
    have ha : 'a'.toNat = 97 := rfl
    rw [hA] at h1
    rw [hZ] at h2
    unfold unicode.ToLower
    rw [hA, hZ, ha]
    rw [if_pos (by omega), if_pos ⟨h1, h2⟩, if_pos (by omega), if_neg (by omega)]
    have : a.toNat + (97 - 65) = b.toNat := by omega
    rw [this, Char.ofNat_toNat]
  rcases h with rfl | ⟨h1, h2, h3⟩ | ⟨h1, h2, h3⟩
  · rfl
  · exact key h1 h2 h3
  · exact (key h1 h2 h3).symm

theorem map_ToLower_sameLetter (table : Char → Char) {l₁ l₂ : List Char}
    (h : List.Forall₂ sameLetter l₁ l₂) :
    l₁.map (unicode.ToLower table) = l₂.map (unicode.ToLower table) := by
  induction h with
  | nil => rfl
  | cons hab _ ih => rw [List.map_cons, List.map_cons, unicode.ToLower_sameLetter table hab, ih]

theorem strings.ToLower_equalUpToCase (table : Char → Char) {s t : String}
    (h : EqualUpToCase s t) : strings.ToLower table s = strings.ToLower table t := by
  unfold strings.ToLower
  rw [map_ToLower_sameLetter table h]

/-- C25.  `ParseLevel` is a total function of its argument and reads it through
`strings.ToLower` only: it returns `LevelDebug` when the lowered string is
`debug`, `LevelInfo` when it is `info`, `LevelWarn` when it is `warn` or
`warning`, `LevelError` when it is `error`, and `LevelInfo` for every other
string, the empty string included; two strings that differ in the case of ASCII
letters only get the same level. -/
theorem ParseLevel_total_case_insensitive (table : Char → Char) (s : String) :
    (strings.ToLower table s = "debug" → ParseLevel table s = LevelDebug) ∧
    (strings.ToLower table s = "info" → ParseLevel table s = LevelInfo) ∧
    (strings.ToLower table s = "warn" ∨ strings.ToLower table s = "warning" →
      ParseLevel table s = LevelWarn) ∧
    (strings.ToLower table s = "error" → ParseLevel table s = LevelError) ∧
    (strings.ToLower table s ≠ "debug" → strings.ToLower table s ≠ "info" →
      strings.ToLower table s ≠ "warn" → strings.ToLower table s ≠ "warning" →
      strings.ToLower table s ≠ "error" → ParseLevel table s = LevelInfo) ∧
    ParseLevel table "" = LevelInfo ∧
    (∀ t, EqualUpToCase s t → ParseLevel table t = ParseLevel table s) := by
  refine ⟨?_, ?_, ?_, ?_, ?_, ?_, ?_⟩
  · intro h
    simp [ParseLevel, h]
  · intro h
    simp [ParseLevel, h]
  · intro h
    rcases h with h | h <;> simp [ParseLevel, h]
  · intro h
    simp [ParseLevel, h]
  · intro h1 h2 h3 h4 h5
    simp [ParseLevel, h1, h2, h3, h4, h5]
  · rfl
  · intro t h
    unfold ParseLevel
    rw [strings.ToLower_equalUpToCase table h]

/-- C25 on the spelling `WARNING`, with its lower-case spelling as the variant;
with the sample table the spelling with a dotted capital I is read the same. -/
theorem ParseLevel_total_case_insensitive_witness :
    strings.ToLower sampleTable "WARNING" = "warning" ∧
    ParseLevel sampleTable "WARNING" = LevelWarn ∧
    EqualUpToCase "WARNING" "Warning" ∧
    ParseLevel sampleTable "Warning" = ParseLevel sampleTable "WARNING" ∧
    ParseLevel sampleTable "WARNİNG" = LevelWarn ∧
    ParseLevel sampleTable "verbose" = LevelInfo :=
  ⟨by decide,
    (ParseLevel_total_case_insensitive sampleTable "WARNING").2.2.1 (Or.inr (by decide)),
    by unfold EqualUpToCase sameLetter; decide,
    (ParseLevel_total_case_insensitive sampleTable "WARNING").2.2.2.2.2.2 "Warning"
      (by unfold EqualUpToCase sameLetter; decide),
    by decide, by decide⟩

end Logger
